import Mathlib

/-!
# resolv: the DNS configuration snapshot engine of `dnsinfo.c`

A shallow embedding of `src/dnsinfo.c` (deep copy and release of the global
DNS configuration) over an explicit C heap.

* A pointer is an address, a natural number; `NULL` is address `0`.  Every successful `malloc`
  returns a fresh address, and an address is never handed out twice.
* A heap block remembers the number of bytes requested for it, whether it is
  still allocated, and its contents.  The contents of a freshly allocated block
  are unspecified in C: they are taken from the environment (`Env.junk`).
* Whether an allocation succeeds is decided by the environment (`Env.ok`),
  indexed by the number of allocation attempts made so far.
* Anything the C standard leaves undefined (dereferencing `NULL` or a pointer
  that is not a live block, indexing past the end of a block, `free` of
  something that is not a live block) ends the run with a `Fault`.
-/

namespace Resolv

/-! ## Constants of the platform headers -/

/-- The null pointer. -/
def NULL : Nat := 0

/-- Address family of IPv4 socket addresses (`<sys/socket.h>`, Linux/Android). -/
def AF_INET : Nat := 2

/-- Address family of IPv6 socket addresses (`<sys/socket.h>`, Linux/Android). -/
def AF_INET6 : Nat := 10

/-- Value of `sizeof(struct sockaddr_in)`. -/
def sizeof_sockaddr_in : Nat := 16

/-- Value of `sizeof(struct sockaddr_in6)`. -/
def sizeof_sockaddr_in6 : Nat := 28

/-- Value of `sizeof(T *)` for every object type `T` (LP64); the model only uses
the number of pointer slots `bytes / sizeof_ptr` of a block. -/
def sizeof_ptr : Nat := 8

/-- Modelled from the spec: `dns_sortaddr_t` is declared in `dnsinfo.h`, which is
not among the sources; a Sort Rule is an IPv4 address and an IPv4 mask, so
`sizeof(dns_sortaddr_t)` is 8. -/
def sizeof_dns_sortaddr_t : Nat := 8

/-- Modelled from the spec: the Resolver Record `dns_resolver_t` is declared in
`dnsinfo.h`, which is not among the sources; the fields are the ones of §3 of
the specification, named and typed as `dnsinfo.c` uses them. -/
structure dns_resolver_t where
  /-- Field `char *domain`. -/
  domain : Nat
  /-- Field `int32_t n_nameserver`. -/
  n_nameserver : Int
  /-- Field `struct sockaddr **nameserver`. -/
  nameserver : Nat
  /-- Field `uint16_t port`. -/
  port : Nat
  /-- Field `int32_t n_search`. -/
  n_search : Int
  /-- Field `char **search`. -/
  search : Nat
  /-- Field `int32_t n_sortaddr`. -/
  n_sortaddr : Int
  /-- Field `dns_sortaddr_t **sortaddr`. -/
  sortaddr : Nat
  /-- Field `char *options`. -/
  options : Nat
  /-- Field `uint32_t timeout`. -/
  timeout : Nat
  /-- Field `uint32_t search_order`. -/
  search_order : Nat
deriving DecidableEq, Repr

/-- Modelled from the spec: the Configuration Snapshot `dns_config_t` is declared
in `dnsinfo.h`, which is not among the sources: a count and a list of Resolver
Records. -/
structure dns_config_t where
  /-- Field `int32_t n_resolver`. -/
  n_resolver : Int
  /-- Field `dns_resolver_t **resolver`. -/
  resolver : Nat
deriving DecidableEq, Repr

/-- Value of `sizeof(dns_resolver_t)` (LP64 layout of the eleven fields). -/
def sizeof_dns_resolver_t : Nat := 72

/-- Value of `sizeof(dns_config_t)` (LP64). -/
def sizeof_dns_config_t : Nat := 16

/-! ## The heap -/

/-- What a heap block holds. -/
inductive Obj where
  /-- Raw bytes: a `char[]`, a `struct sockaddr_in`/`sockaddr_in6`, a `dns_sortaddr_t`. -/
  | bytes (bs : List Nat)
  /-- An array of pointers; the length of the list is the number of slots that
  fit in the block. -/
  | slots (ps : List Nat)
  /-- A `dns_resolver_t`. -/
  | resolver (r : dns_resolver_t)
  /-- A `dns_config_t`. -/
  | config (c : dns_config_t)
deriving DecidableEq, Repr

/-- How the caller of `malloc` goes on to use the block. -/
inductive Kind where
  | bytes | slots | resolver | config
deriving DecidableEq, Repr

/-- A heap block. -/
structure Block where
  /-- Number of bytes requested from `malloc`. -/
  size : Nat
  /-- Whether the block is still allocated. -/
  live : Bool
  /-- The contents. -/
  obj : Obj
deriving DecidableEq, Repr

/-- Observable actions of a run, most recent first. -/
inductive Event where
  /-- A successful allocation returned this address. -/
  | alloc (p : Nat)
  /-- An allocation was attempted and failed. -/
  | allocFail
  /-- The block at this address was released. -/
  | free (p : Nat)
  /-- The call `pthread_mutex_lock(&configuration_lock)`. -/
  | lock
  /-- The call `pthread_mutex_unlock(&configuration_lock)`. -/
  | unlock
  /-- A read of the global `configuration`. -/
  | readStore
deriving DecidableEq, Repr

/-- Undefined behaviour that ends a run. -/
inductive Fault where
  /-- The null pointer was dereferenced. -/
  | nullDeref
  /-- A pointer that is not the address of any block was dereferenced. -/
  | wildPointer (p : Nat)
  /-- A released block was accessed. -/
  | useAfterFree (p : Nat)
  /-- A block was accessed as an object it does not hold. -/
  | badAccess (p : Nat)
  /-- Slot or byte `i` of the block at `p` was accessed, past its end. -/
  | outOfBounds (p : Nat) (i : Nat)
  /-- The call `free(p)` where `p` is not the address of any block. -/
  | invalidFree (p : Nat)
  /-- The call `free(p)` on a block that was already released. -/
  | doubleFree (p : Nat)
deriving DecidableEq, Repr

/-- The environment of a run: the allocator's decisions. -/
structure Env where
  /-- Whether the `k`-th allocation attempt (counted from 0) succeeds. -/
  ok : Nat → Bool
  /-- The word found at index `j` of the block returned by the `k`-th
  allocation attempt, before the program writes to it. -/
  junk : Nat → Nat → Nat

/-- The state of the process. -/
structure World where
  /-- The static global `configuration`. -/
  configuration : dns_config_t
  /-- The heap: `none` where no block was ever allocated. -/
  heap : Nat → Option Block
  /-- The highest address handed out so far. -/
  brk : Nat
  /-- Number of allocation attempts made so far. -/
  attempts : Nat
  /-- The events so far, most recent first. -/
  trace : List Event

/-- A computation over the process state that may end in undefined behaviour. -/
abbrev M (α : Type) := StateT World (Except Fault) α

/-- Reinterpret a machine word as an `int32_t`. -/
def int32_of (w : Nat) : Int :=
  if w % 2 ^ 32 < 2 ^ 31 then (w % 2 ^ 32 : Nat) else ((w % 2 ^ 32 : Nat) : Int) - 2 ^ 32

/-- The unspecified contents of a fresh block of `size` bytes, read as `kind`,
for allocation attempt `k`. -/
def fresh (env : Env) (k : Nat) (size : Nat) : Kind → Obj
  | .bytes => .bytes ((List.range size).map fun j => env.junk k j % 256)
  | .slots => .slots ((List.range (size / sizeof_ptr)).map fun j => env.junk k j)
  | .resolver => .resolver
      { domain := env.junk k 0, n_nameserver := int32_of (env.junk k 1),
        nameserver := env.junk k 2, port := env.junk k 3 % 2 ^ 16,
        n_search := int32_of (env.junk k 4), search := env.junk k 5,
        n_sortaddr := int32_of (env.junk k 6), sortaddr := env.junk k 7,
        options := env.junk k 8, timeout := env.junk k 9 % 2 ^ 32,
        search_order := env.junk k 10 % 2 ^ 32 }
  | .config => .config { n_resolver := int32_of (env.junk k 0), resolver := env.junk k 1 }

/-- Replace the block at one address. -/
def World.put (w : World) (p : Nat) (b : Block) : World :=
  { w with heap := fun q => if q = p then some b else w.heap q }

/-- Append an event to the trace. -/
def World.log (w : World) (e : Event) : World :=
  { w with trace := e :: w.trace }

/-- The call `malloc(size)`, the result to be used as `kind`. -/
def malloc (env : Env) (size : Nat) (kind : Kind) : M Nat := fun w =>
  if env.ok w.attempts then
    let p := w.brk + 1
    .ok (p, { w with
      heap := fun q => if q = p then some ⟨size, true, fresh env w.attempts size kind⟩ else w.heap q
      brk := p
      attempts := w.attempts + 1
      trace := .alloc p :: w.trace })
  else
    .ok (NULL, { w with attempts := w.attempts + 1, trace := .allocFail :: w.trace })

/-- The live block a non-null pointer refers to. -/
def deref (p : Nat) : M Block := fun w =>
  if p = NULL then .error .nullDeref
  else match w.heap p with
    | none => .error (.wildPointer p)
    | some b => if b.live then .ok (b, w) else .error (.useAfterFree p)

/-- The call `free(p)`. -/
def free (p : Nat) : M Unit := fun w =>
  if p = NULL then .ok ((), w)
  else match w.heap p with
    | none => .error (.invalidFree p)
    | some b =>
      if b.live then .ok ((), (w.put p { b with live := false }).log (.free p))
      else .error (.doubleFree p)

/-- Read `*p` where `p` is a `dns_resolver_t *`. -/
def load_resolver (p : Nat) : M dns_resolver_t := do
  let b ← deref p
  match b.obj with
  | .resolver r => pure r
  | _ => throw (.badAccess p)

/-- Assign to fields of `*p` where `p` is a `dns_resolver_t *`. -/
def store_resolver (p : Nat) (f : dns_resolver_t → dns_resolver_t) : M Unit := do
  let b ← deref p
  match b.obj with
  | .resolver r => modify fun w => w.put p { b with obj := .resolver (f r) }
  | _ => throw (.badAccess p)

/-- Read `*p` where `p` is a `dns_config_t *`. -/
def load_config (p : Nat) : M dns_config_t := do
  let b ← deref p
  match b.obj with
  | .config c => pure c
  | _ => throw (.badAccess p)

/-- Assign to fields of `*p` where `p` is a `dns_config_t *`. -/
def store_config (p : Nat) (f : dns_config_t → dns_config_t) : M Unit := do
  let b ← deref p
  match b.obj with
  | .config c => modify fun w => w.put p { b with obj := .config (f c) }
  | _ => throw (.badAccess p)

/-- Read `p[i]` where `p` points to an array of pointers. -/
def load_slot (p : Nat) (i : Nat) : M Nat := do
  let b ← deref p
  match b.obj with
  | .slots ps =>
    match ps.get? i with
    | some v => pure v
    | none => throw (.outOfBounds p i)
  | _ => throw (.badAccess p)

/-- Assign `p[i] = v` where `p` points to an array of pointers. -/
def store_slot (p : Nat) (i : Nat) (v : Nat) : M Unit := do
  let b ← deref p
  match b.obj with
  | .slots ps =>
    if i < ps.length then modify fun w => w.put p { b with obj := .slots (ps.set i v) }
    else throw (.outOfBounds p i)
  | _ => throw (.badAccess p)

/-- The bytes of the block `p` points to. -/
def load_bytes (p : Nat) : M (List Nat) := do
  let b ← deref p
  match b.obj with
  | .bytes bs => pure bs
  | _ => throw (.badAccess p)

/-- Read `p->sa_family` where `p` is a `struct sockaddr *`: the 16-bit field at
offset 0. -/
def load_sa_family (p : Nat) : M Nat := do
  let bs ← load_bytes p
  match bs with
  | b0 :: b1 :: _ => pure (b0 + 256 * b1)
  | _ => throw (.outOfBounds p bs.length)

/-- The call `memcpy(dst, src, len)` between two byte blocks. -/
def memcpy (dst src : Nat) (len : Nat) : M Unit := do
  let s ← load_bytes src
  let b ← deref dst
  match b.obj with
  | .bytes d =>
    if s.length < len then throw (.outOfBounds src s.length)
    else if d.length < len then throw (.outOfBounds dst d.length)
    else modify fun w => w.put dst { b with obj := .bytes (s.take len ++ d.drop len) }
  | _ => throw (.badAccess dst)

/-- The bytes of a C string up to and including its terminator, when the
buffer holds a terminator. -/
def cstring : List Nat → Option (List Nat)
  | [] => none
  | c :: cs => if c = 0 then some [0] else (cstring cs).map (c :: ·)

/-- The call `strdup(s)`. -/
def strdup (env : Env) (s : Nat) : M Nat := do
  let bs ← load_bytes s
  match cstring bs with
  | none => throw (.outOfBounds s bs.length)
  | some str =>
    let p ← malloc env str.length .bytes
    if p = NULL then pure NULL
    else do
      memcpy p s str.length
      pure p

/-- The call `pthread_mutex_lock(&configuration_lock)`. -/
def pthread_mutex_lock : M Unit := modify fun w => w.log .lock

/-- The call `pthread_mutex_unlock(&configuration_lock)`. -/
def pthread_mutex_unlock : M Unit := modify fun w => w.log .unlock

/-- Read the static global `configuration`. -/
def load_configuration : M dns_config_t := fun w => .ok (w.configuration, w.log .readStore)

/-! ## The release engine (`dnsinfo.c`, lines 218-252) -/

/-- The loop of `DNS_FREE_LIST`: `for (i = 0; i < n; i++) method(list[i])`, with
`k` iterations left; the list pointer is read from the item at every turn. -/
def DNS_FREE_LIST_loop (name : M Nat) (method : Nat → M Unit) : Nat → Nat → M Unit
  | 0, _ => pure ()
  | k + 1, i => do
    let list ← name
    let e ← load_slot list i
    method e
    DNS_FREE_LIST_loop name method k (i + 1)

/-- The body of the macro `DNS_FREE_PTR(item, name, method)`; `name` reads
`item->name` and `clear` performs `item->name = NULL`. -/
def DNS_FREE_PTR (name : M Nat) (clear : M Unit) (method : Nat → M Unit) : M Unit := do
  let p ← name
  if p ≠ NULL then
    method p
    clear
  else pure ()

/-- The body of the macro `DNS_FREE_LIST(item, name, method)`; `name` reads
`item->name`, `n_name` reads `item->n_name` and `clear` performs
`item->name = NULL`. -/
def DNS_FREE_LIST (name : M Nat) (n_name : M Int) (clear : M Unit)
    (method : Nat → M Unit) : M Unit := do
  let p ← name
  if p ≠ NULL then
    let n ← n_name
    DNS_FREE_LIST_loop name method n.toNat 0
    let q ← name
    free q
    clear
  else pure ()

/-- The function `dns_resolver_free` (lines 235-245). -/
def dns_resolver_free (resolver : Nat) : M Unit := do
  if resolver ≠ NULL then
    DNS_FREE_PTR ((·.domain) <$> load_resolver resolver)
      (store_resolver resolver fun r => { r with domain := NULL }) free
    DNS_FREE_LIST ((·.nameserver) <$> load_resolver resolver)
      ((·.n_nameserver) <$> load_resolver resolver)
      (store_resolver resolver fun r => { r with nameserver := NULL }) free
    DNS_FREE_LIST ((·.search) <$> load_resolver resolver)
      ((·.n_search) <$> load_resolver resolver)
      (store_resolver resolver fun r => { r with search := NULL }) free
    DNS_FREE_LIST ((·.sortaddr) <$> load_resolver resolver)
      ((·.n_sortaddr) <$> load_resolver resolver)
      (store_resolver resolver fun r => { r with sortaddr := NULL }) free
    DNS_FREE_PTR ((·.options) <$> load_resolver resolver)
      (store_resolver resolver fun r => { r with options := NULL }) free
  else pure ()

/-- The function `dns_configuration_free` (lines 247-252). -/
def dns_configuration_free (config : Nat) : M Unit := do
  if config ≠ NULL then
    DNS_FREE_LIST ((·.resolver) <$> load_config config)
      ((·.n_resolver) <$> load_config config)
      (store_config config fun c => { c with resolver := NULL }) dns_resolver_free
    free config
  else pure ()

/-! ## The deep-copy engine (`dnsinfo.c`, lines 60-216) -/

/-- Lines 69-74: the `domain` field.  The result is `false` when the `do`
block is left by `break`. -/
def copy_domain (env : Env) (resolver copy : Nat) : M Bool := do
  let r ← load_resolver resolver
  if r.domain ≠ NULL then
    let d ← strdup env r.domain
    store_resolver copy fun c => { c with domain := d }
    if d = NULL then pure false else pure true
  else pure true

/-- Lines 82-98: the loop over the nameservers, at index `i` with `k`
iterations left.  The result is the flag `failure`. -/
def copy_nameserver_loop (env : Env) (resolver copy : Nat) : Nat → Nat → M Bool
  | 0, _ => pure false
  | k + 1, i => do
    let r ← load_resolver resolver
    let ns ← load_slot r.nameserver i
    let family ← load_sa_family ns
    if family = AF_INET ∨ family = AF_INET6 then
      let len := if family = AF_INET then sizeof_sockaddr_in else sizeof_sockaddr_in6
      let p ← malloc env len .bytes
      let c ← load_resolver copy
      store_slot c.nameserver i p
      if p = NULL then pure true
      else do
        memcpy p ns len
        copy_nameserver_loop env resolver copy k (i + 1)
    else pure true

/-- Lines 76-104: the nameserver list. -/
def copy_nameserver (env : Env) (resolver copy : Nat) : M Bool := do
  let r ← load_resolver resolver
  store_resolver copy fun c => { c with n_nameserver := r.n_nameserver }
  let c ← load_resolver copy
  if c.n_nameserver > 0 then
    let l ← malloc env sizeof_ptr .slots
    store_resolver copy fun c => { c with nameserver := l }
    if l = NULL then pure false
    else do
      let failure ← copy_nameserver_loop env resolver copy c.n_nameserver.toNat 0
      pure (!failure)
  else do
    store_resolver copy fun c => { c with nameserver := NULL }
    pure true

/-- Lines 114-124: the loop over the search domains. -/
def copy_search_loop (env : Env) (resolver copy : Nat) : Nat → Nat → M Bool
  | 0, _ => pure false
  | k + 1, i => do
    let r ← load_resolver resolver
    let s ← load_slot r.search i
    if s ≠ NULL then
      let d ← strdup env s
      let c ← load_resolver copy
      store_slot c.search i d
      if d = NULL then pure true
      else copy_search_loop env resolver copy k (i + 1)
    else do
      let c ← load_resolver copy
      store_slot c.search i NULL
      copy_search_loop env resolver copy k (i + 1)

/-- Lines 108-130: the search list. -/
def copy_search (env : Env) (resolver copy : Nat) : M Bool := do
  let r ← load_resolver resolver
  store_resolver copy fun c => { c with n_search := r.n_search }
  let c ← load_resolver copy
  if c.n_search > 0 then
    let l ← malloc env sizeof_ptr .slots
    store_resolver copy fun c => { c with search := l }
    if l = NULL then pure false
    else do
      let failure ← copy_search_loop env resolver copy c.n_search.toNat 0
      pure (!failure)
  else do
    store_resolver copy fun c => { c with search := NULL }
    pure true

/-- Lines 138-149: the loop over the sort rules.  Line 147 assigns
`copy->search[i] = NULL`. -/
def copy_sortaddr_loop (env : Env) (resolver copy : Nat) : Nat → Nat → M Bool
  | 0, _ => pure false
  | k + 1, i => do
    let r ← load_resolver resolver
    let s ← load_slot r.sortaddr i
    if s ≠ NULL then
      let p ← malloc env sizeof_dns_sortaddr_t .bytes
      let c ← load_resolver copy
      store_slot c.sortaddr i p
      if p = NULL then pure true
      else do
        memcpy p s sizeof_dns_sortaddr_t
        copy_sortaddr_loop env resolver copy k (i + 1)
    else do
      let c ← load_resolver copy
      store_slot c.search i NULL
      copy_sortaddr_loop env resolver copy k (i + 1)

/-- Lines 132-155: the sort-rule list.  Line 154 assigns `copy->search = NULL`. -/
def copy_sortaddr (env : Env) (resolver copy : Nat) : M Bool := do
  let r ← load_resolver resolver
  store_resolver copy fun c => { c with n_sortaddr := r.n_sortaddr }
  let c ← load_resolver copy
  if c.n_sortaddr > 0 then
    let l ← malloc env sizeof_ptr .slots
    store_resolver copy fun c => { c with sortaddr := l }
    if l = NULL then pure false
    else do
      let failure ← copy_sortaddr_loop env resolver copy c.n_sortaddr.toNat 0
      pure (!failure)
  else do
    store_resolver copy fun c => { c with search := NULL }
    pure true

/-- Lines 157-164: the `options` field. -/
def copy_options (env : Env) (resolver copy : Nat) : M Bool := do
  let r ← load_resolver resolver
  if r.options ≠ NULL then
    let d ← strdup env r.options
    store_resolver copy fun c => { c with options := d }
    if d = NULL then pure false else pure true
  else do
    store_resolver copy fun c => { c with options := NULL }
    pure true

/-- Lines 69-169: the block `do { ... } while (0)` of `dns_resolver_copy` after
the record was allocated.  The result is the flag `success`. -/
def dns_resolver_copy_body (env : Env) (resolver copy : Nat) : M Bool := do
  let go ← copy_domain env resolver copy
  if !go then pure false else
  let go ← copy_nameserver env resolver copy
  if !go then pure false else
  let r ← load_resolver resolver
  store_resolver copy fun c => { c with port := r.port }
  let go ← copy_search env resolver copy
  if !go then pure false else
  let go ← copy_sortaddr env resolver copy
  if !go then pure false else
  let go ← copy_options env resolver copy
  if !go then pure false else
  let r ← load_resolver resolver
  store_resolver copy fun c => { c with timeout := r.timeout }
  let r ← load_resolver resolver
  store_resolver copy fun c => { c with search_order := r.search_order }
  pure true

/-- The function `dns_resolver_copy` (lines 60-176). -/
def dns_resolver_copy (env : Env) (resolver : Nat) : M Nat := do
  let copy ← malloc env sizeof_dns_resolver_t .resolver
  let success ← if copy = NULL then pure false else dns_resolver_copy_body env resolver copy
  if !success then
    dns_resolver_free copy
    pure NULL
  else pure copy

/-- Lines 194-200: the loop over the resolvers of the store.  The result is the
flag `failure`. -/
def copy_resolver_loop (env : Env) (config : Nat) : Nat → Nat → M Bool
  | 0, _ => pure false
  | k + 1, i => do
    let g ← load_configuration
    let src ← load_slot g.resolver i
    let r ← dns_resolver_copy env src
    let c ← load_config config
    store_slot c.resolver i r
    if r = NULL then pure true
    else copy_resolver_loop env config k (i + 1)

/-- Lines 184-208: the block `do { ... } while (0)` of `dns_configuration_copy`
after the snapshot was allocated.  The result is `(success, failure)`. -/
def dns_configuration_copy_body (env : Env) (config : Nat) : M (Bool × Bool) := do
  let g ← load_configuration
  store_config config fun c => { c with n_resolver := g.n_resolver }
  let c ← load_config config
  if c.n_resolver > 0 then
    let l ← malloc env sizeof_ptr .slots
    store_config config fun c => { c with resolver := l }
    if l = NULL then pure (false, false)
    else do
      let failure ← copy_resolver_loop env config c.n_resolver.toNat 0
      if failure then pure (false, true) else pure (true, false)
  else do
    store_config config fun c => { c with resolver := NULL }
    pure (true, false)

/-- The function `dns_configuration_copy` (lines 178-216). -/
def dns_configuration_copy (env : Env) : M Nat := do
  pthread_mutex_lock
  let config ← malloc env sizeof_dns_config_t .config
  let (success, failure) ←
    if config = NULL then pure (false, false) else dns_configuration_copy_body env config
  pthread_mutex_unlock
  if !success || failure then
    dns_configuration_free config
    pure NULL
  else pure config

/-- Lines 182-210 of `dns_configuration_copy`: from the lock to the unlock.  The
result is the snapshot reference and the flags `success` and `failure` as they
reach the test of line 211. -/
def dns_configuration_copy_locked (env : Env) : M (Nat × Bool × Bool) := do
  pthread_mutex_lock
  let config ← malloc env sizeof_dns_config_t .config
  let (success, failure) ←
    if config = NULL then pure (false, false) else dns_configuration_copy_body env config
  pthread_mutex_unlock
  pure (config, success, failure)

/-- Lines 211-215 of `dns_configuration_copy`: what follows the unlock. -/
def dns_configuration_copy_unlocked : Nat × Bool × Bool → M Nat
  | (config, success, failure) =>
    if !success || failure then do
      dns_configuration_free config
      pure NULL
    else pure config

/-! ## Observing a run -/

/-- The process state whose heap holds the given blocks at addresses `1, 2, ...`,
before any event. -/
def World.ofBlocks (configuration : dns_config_t) (blocks : List Block) : World :=
  { configuration := configuration
    heap := fun p => if p = 0 then none else blocks.get? (p - 1)
    brk := blocks.length
    attempts := 0
    trace := [] }

/-- The blocks at addresses `1 .. brk`, in order. -/
def World.blocks (w : World) : List (Option Block) :=
  (List.range w.brk).map fun i => w.heap (i + 1)

/-- The contents of the live block at an address. -/
def World.obj? (w : World) (p : Nat) : Option Obj :=
  match w.heap p with
  | some b => if b.live then some b.obj else none
  | none => none

/-- The live `dns_resolver_t` at an address. -/
def World.resolver? (w : World) (p : Nat) : Option dns_resolver_t :=
  match w.obj? p with
  | some (.resolver r) => some r
  | _ => none

/-- The live `dns_config_t` at an address. -/
def World.config? (w : World) (p : Nat) : Option dns_config_t :=
  match w.obj? p with
  | some (.config c) => some c
  | _ => none

/-- The live array of pointers at an address. -/
def World.slots? (w : World) (p : Nat) : Option (List Nat) :=
  match w.obj? p with
  | some (.slots ps) => some ps
  | _ => none

/-- The live byte block at an address. -/
def World.bytes? (w : World) (p : Nat) : Option (List Nat) :=
  match w.obj? p with
  | some (.bytes bs) => some bs
  | _ => none

/-- The addresses in `1 .. brk` whose block is still allocated. -/
def World.liveAddrs (w : World) : List Nat :=
  ((List.range w.brk).map (· + 1)).filter fun p =>
    match w.heap p with
    | some b => b.live
    | none => false

/-- The addresses returned by successful allocations, oldest first. -/
def World.allocated (w : World) : List Nat :=
  w.trace.reverse.filterMap fun e => match e with | .alloc p => some p | _ => none

/-- The addresses released by `free`, oldest first. -/
def World.freed (w : World) : List Nat :=
  w.trace.reverse.filterMap fun e => match e with | .free p => some p | _ => none

/-- The value a run returned, when it returned. -/
def returned {α : Type} : Except Fault (α × World) → Option α
  | .ok (a, _) => some a
  | .error _ => none

/-- The fault that ended a run, when it did not return. -/
def faulted {α : Type} : Except Fault (α × World) → Option Fault
  | .ok _ => none
  | .error f => some f

/-- The process state a run returned in. -/
def final {α : Type} : Except Fault (α × World) → Option World
  | .ok (_, w) => some w
  | .error _ => none

/-- An allocator that never fails and hands out zero-filled memory. -/
def envZero : Env := { ok := fun _ => true, junk := fun _ _ => 0 }

/-- An allocator that never fails and hands out memory filled with the stale
word `0xdeadbeef`. -/
def envStale : Env := { ok := fun _ => true, junk := fun _ _ => 0xdeadbeef }

/-- The `struct sockaddr_in` of `8.8.8.8`, port 53. -/
def sockaddr_8_8_8_8 : List Nat :=
  [2, 0, 0, 53, 8, 8, 8, 8, 0, 0, 0, 0, 0, 0, 0, 0]

/-- The `struct sockaddr_in6` of `2001:4860:4860::8888`, port 53. -/
def sockaddr_2001_4860_4860_8888 : List Nat :=
  [10, 0, 0, 53, 0, 0, 0, 0,
   0x20, 0x01, 0x48, 0x60, 0x48, 0x60, 0, 0, 0, 0, 0, 0, 0, 0, 0x88, 0x88,
   0, 0, 0, 0]

/-- The store of the concrete scenario of §8: one resolver (address 2, in the
list at address 1) with the nameservers `8.8.8.8` and `2001:4860:4860::8888`
(addresses 4 and 5, in the list at address 3), no domain, no search domains, no
sort rules, no options, `port = 53`, `timeout = 5`. -/
def storeScenario : World :=
  World.ofBlocks { n_resolver := 1, resolver := 1 }
    [ ⟨8, true, .slots [2]⟩,
      ⟨72, true, .resolver
        { domain := NULL, n_nameserver := 2, nameserver := 3, port := 53,
          n_search := 0, search := NULL, n_sortaddr := 0, sortaddr := NULL,
          options := NULL, timeout := 5, search_order := 0 }⟩,
      ⟨16, true, .slots [4, 5]⟩,
      ⟨16, true, .bytes sockaddr_8_8_8_8⟩,
      ⟨28, true, .bytes sockaddr_2001_4860_4860_8888⟩ ]

/-- The C string `"lan"`. -/
def str_lan : List Nat := [108, 97, 110, 0]

/-- The C string `"example.com"`. -/
def str_example_com : List Nat := [101, 120, 97, 109, 112, 108, 101, 46, 99, 111, 109, 0]

/-- A store with one resolver (address 2, in the list at address 1): domain
`"lan"` (address 5), the single nameserver `8.8.8.8` (address 4, in the list at
address 3), no search domains, no sort rules, no options, `port = 53`,
`timeout = 5`. -/
def storeOne : World :=
  World.ofBlocks { n_resolver := 1, resolver := 1 }
    [ ⟨8, true, .slots [2]⟩,
      ⟨72, true, .resolver
        { domain := 5, n_nameserver := 1, nameserver := 3, port := 53,
          n_search := 0, search := NULL, n_sortaddr := 0, sortaddr := NULL,
          options := NULL, timeout := 5, search_order := 0 }⟩,
      ⟨8, true, .slots [4]⟩,
      ⟨16, true, .bytes sockaddr_8_8_8_8⟩,
      ⟨4, true, .bytes str_lan⟩ ]

/-- A store with one resolver (address 2): no domain, the single nameserver
`8.8.8.8` (address 4), the single search domain `"example.com"` (address 6, in
the list at address 5), no sort rules, no options. -/
def storeSearch : World :=
  World.ofBlocks { n_resolver := 1, resolver := 1 }
    [ ⟨8, true, .slots [2]⟩,
      ⟨72, true, .resolver
        { domain := NULL, n_nameserver := 1, nameserver := 3, port := 53,
          n_search := 1, search := 5, n_sortaddr := 0, sortaddr := NULL,
          options := NULL, timeout := 5, search_order := 0 }⟩,
      ⟨8, true, .slots [4]⟩,
      ⟨16, true, .bytes sockaddr_8_8_8_8⟩,
      ⟨8, true, .slots [6]⟩,
      ⟨12, true, .bytes str_example_com⟩ ]

/-- A store with one resolver (address 2): domain `"lan"` (address 8), the
single nameserver `8.8.8.8`, the single search domain `"example.com"`, and a
sort-rule list (address 7) of declared count 1 whose only entry is absent. -/
def storeSort : World :=
  World.ofBlocks { n_resolver := 1, resolver := 1 }
    [ ⟨8, true, .slots [2]⟩,
      ⟨72, true, .resolver
        { domain := 8, n_nameserver := 1, nameserver := 3, port := 53,
          n_search := 1, search := 5, n_sortaddr := 1, sortaddr := 7,
          options := NULL, timeout := 5, search_order := 0 }⟩,
      ⟨8, true, .slots [4]⟩,
      ⟨16, true, .bytes sockaddr_8_8_8_8⟩,
      ⟨8, true, .slots [6]⟩,
      ⟨12, true, .bytes str_example_com⟩,
      ⟨8, true, .slots [NULL]⟩,
      ⟨4, true, .bytes str_lan⟩ ]

/-- A store with one resolver (address 2): domain `"lan"` (address 5) and a
single nameserver record (address 4) whose family tag is 0 (`AF_UNSPEC`). -/
def storeBadFamily : World :=
  World.ofBlocks { n_resolver := 1, resolver := 1 }
    [ ⟨8, true, .slots [2]⟩,
      ⟨72, true, .resolver
        { domain := 5, n_nameserver := 1, nameserver := 3, port := 53,
          n_search := 0, search := NULL, n_sortaddr := 0, sortaddr := NULL,
          options := NULL, timeout := 5, search_order := 0 }⟩,
      ⟨8, true, .slots [4]⟩,
      ⟨16, true, .bytes [0, 0, 0, 53, 8, 8, 8, 8, 0, 0, 0, 0, 0, 0, 0, 0]⟩,
      ⟨4, true, .bytes str_lan⟩ ]

/-- An allocator handing out zero-filled memory whose `k`-th attempt, and no
other, fails. -/
def envFailAt (k : Nat) : Env := { ok := fun i => i != k, junk := fun _ _ => 0 }

/-- An allocator that never fails and hands out zero-filled memory, except that
the first word of the block of attempt 4 holds the stale address 4. -/
def envAlias : Env :=
  { ok := fun _ => true, junk := fun k j => if k = 4 ∧ j = 0 then 4 else 0 }

/-- The record a run of `dns_resolver_copy` returned a non-null pointer to. -/
def copied : Except Fault (Nat × World) → Option dns_resolver_t
  | .ok (p, w) => if p = NULL then none else w.resolver? p
  | .error _ => none

/-- The pointer array behind one list field of the record a run of
`dns_resolver_copy` returned a pointer to. -/
def copiedSlots (run : Except Fault (Nat × World)) (list : dns_resolver_t → Nat) :
    Option (List Nat) :=
  match run with
  | .ok (p, w) => if p = NULL then none else (w.resolver? p).bind fun c => w.slots? (list c)
  | .error _ => none

/-- The snapshot a run of `dns_configuration_copy` returned a non-null pointer
to. -/
def snapshot : Except Fault (Nat × World) → Option dns_config_t
  | .ok (config, w) => if config = NULL then none else w.config? config
  | .error _ => none

/-- Resolver `i` of the snapshot a run of `dns_configuration_copy` returned. -/
def snapshotResolver (run : Except Fault (Nat × World)) (i : Nat) : Option dns_resolver_t :=
  match run with
  | .ok (config, w) =>
    if config = NULL then none
    else (w.config? config).bind fun c => (w.slots? c.resolver).bind fun ps =>
      (ps.get? i).bind fun p => w.resolver? p
  | .error _ => none

/-- Resolver `i` of the store: the record entry `i` of `configuration.resolver`
points to. -/
def storeResolver (w : World) (i : Nat) : Option dns_resolver_t :=
  (w.slots? w.configuration.resolver).bind fun ps => (ps.get? i).bind fun p => w.resolver? p

/-! ## Invariants of the copy -/

/-- The heap is well formed: no block lies at the null address, and none lies
beyond the highest address handed out so far. -/
def World.WF (w : World) : Prop := w.heap 0 = none ∧ ∀ q, w.brk < q → w.heap q = none

/-- The heap moved on by allocations and by writes outside the protected set. -/
structure Evolves (S : Nat → Prop) (w w' : World) : Prop where
  brk_le : w.brk ≤ w'.brk
  wf : w'.WF
  conf : w'.configuration = w.configuration
  frame : ∀ q, S q → w'.heap q = w.heap q

/-- The situation inside `dns_resolver_copy`: the source record `src` lies at
`resolver`, among the blocks up to address `b` that existed at entry, and the
record under construction holds `c` at the fresh address `copy`. -/
structure Ctx (b resolver copy : Nat) (src c : dns_resolver_t) (w : World) : Prop where
  wf : w.WF
  hb : b < copy
  hcopy : copy ≤ w.brk
  hres : resolver ≤ b
  hsrc : w.resolver? resolver = some src
  hc : w.resolver? copy = some c

/-- The scalar fields and the counts of two records agree. -/
def SameScalars (c src : dns_resolver_t) : Prop :=
  c.port = src.port ∧ c.timeout = src.timeout ∧ c.search_order = src.search_order ∧
  c.n_nameserver = src.n_nameserver ∧ c.n_search = src.n_search ∧
  c.n_sortaddr = src.n_sortaddr

/-- Entry `j` of the list `ps` in the state `w` points to a record that agrees,
on the scalar fields, with the record entry `j` of the store's list `srcs`
pointed to in the state `w0`. -/
def CopiedAt (w0 w : World) (srcs ps : List Nat) (j : Nat) : Prop :=
  ∃ sp src cp r, srcs.get? j = some sp ∧ w0.resolver? sp = some src ∧
    ps.get? j = some cp ∧ w.resolver? cp = some r ∧ SameScalars r src

/-- The source record of `storeOne`. -/
def srcOne : dns_resolver_t :=
  { domain := 5, n_nameserver := 1, nameserver := 3, port := 53,
    n_search := 0, search := NULL, n_sortaddr := 0, sortaddr := NULL,
    options := NULL, timeout := 5, search_order := 0 }

/-! ## The platform bootstrap (`dnsinfo.c`, lines 14-54) -/

/-- Value of `offsetof(dns_resolver_t, nameserver)` (LP64): the field follows
`domain` and `n_nameserver`. -/
def offsetof_nameserver : Nat := 16

/-- What `__system_property_get` and `inet_pton` make of one system property. -/
inductive DnsProperty where
  /-- The value is the empty string. -/
  | unset
  /-- The value parses with `inet_pton(AF_INET, ...)`, to these 4 bytes. -/
  | ipv4 (addr : List Nat)
  /-- The value does not parse as IPv4 and parses with
  `inet_pton(AF_INET6, ...)`, to these 16 bytes. -/
  | ipv6 (addr : List Nat)
  /-- The value is not empty and parses as neither. -/
  | other
deriving DecidableEq, Repr

/-- The build and the platform `dns_configuration_init` runs on. -/
structure Build where
  /-- Whether the macro `ANDROID` is defined. -/
  android : Bool
  /-- The system property `net.dns<idx>`. -/
  property : Nat → DnsProperty
  /-- Byte `j` of the stack memory the locals `addr4` and `addr6` occupy, before
  `inet_pton` writes the address into it. -/
  stack : Nat → Nat

/-- Assign to the static global `configuration`. -/
def store_configuration (f : dns_config_t → dns_config_t) : M Unit :=
  modify fun w => { w with configuration := f w.configuration }

/-- Entry into a function one of whose locals has its address taken: the local
is a block of automatic storage with `n` pointer slots. -/
def enter_frame (n : Nat) : M Nat := fun w =>
  let p := w.brk + 1
  .ok (p, { w with
    heap := fun q => if q = p then some ⟨n * sizeof_ptr, true, .slots (List.replicate n 0)⟩
      else w.heap q
    brk := p })

/-- Return from that function: the lifetime of the automatic block ends. -/
def leave_frame (p : Nat) : M Unit := do
  let b ← deref p
  modify fun w => w.put p { b with live := false }

/-- Read `p->field` for the field of `width` bytes at offset `off` of a
`dns_resolver_t`, in a block that may be smaller than the record. -/
def load_field (p off width : Nat) : M dns_resolver_t := do
  let b ← deref p
  match b.obj with
  | .resolver r => if off + width ≤ b.size then pure r else throw (.outOfBounds p off)
  | _ => throw (.badAccess p)

/-- Assign to the field of `width` bytes at offset `off` of the
`dns_resolver_t` at `p`, in a block that may be smaller than the record. -/
def store_field (p off width : Nat) (f : dns_resolver_t → dns_resolver_t) : M Unit := do
  let b ← deref p
  match b.obj with
  | .resolver r =>
    if off + width ≤ b.size then modify fun w => w.put p { b with obj := .resolver (f r) }
    else throw (.outOfBounds p off)
  | _ => throw (.badAccess p)

/-- The call `memcpy(dst, &local, len)` where the local holds the bytes `src`. -/
def memcpy_local (dst : Nat) (src : List Nat) (len : Nat) : M Unit := do
  let b ← deref dst
  match b.obj with
  | .bytes d =>
    if src.length < len then throw (.outOfBounds dst src.length)
    else if d.length < len then throw (.outOfBounds dst d.length)
    else modify fun w => w.put dst { b with obj := .bytes (src.take len ++ d.drop len) }
  | _ => throw (.badAccess dst)

/-- The local `struct sockaddr_in addr4` after `inet_pton(AF_INET, value,
&addr4.sin_addr)`: only bytes 4 to 7 were written. -/
def addr4_local (build : Build) (addr : List Nat) : List Nat :=
  ((List.range 4).map fun j => build.stack j % 256) ++ addr.take 4 ++
    ((List.range 8).map fun j => build.stack (8 + j) % 256)

/-- The local `struct sockaddr_in6 addr6` after `inet_pton(AF_INET6, value,
&addr6.sin6_addr)`: only bytes 8 to 23 were written. -/
def addr6_local (build : Build) (addr : List Nat) : List Nat :=
  ((List.range 8).map fun j => build.stack j % 256) ++ addr.take 16 ++
    ((List.range 4).map fun j => build.stack (24 + j) % 256)

/-- Lines 33-38 and 42-47: store a fresh block of `len` bytes in
`resolver->nameserver[ns_idx]` and fill it from the local.  The result is
whether the block was allocated. -/
def init_nameserver (env : Env) (frame ns_idx : Nat) (local_bytes : List Nat) (len : Nat) :
    M Bool := do
  let p ← malloc env len .bytes
  let resolver ← load_slot frame 0
  let r ← load_field resolver offsetof_nameserver sizeof_ptr
  store_slot r.nameserver ns_idx p
  if p ≠ NULL then
    memcpy_local p local_bytes len
    pure true
  else pure false

/-- Lines 21-51: the loop over `net.dns1` to `net.dns4`, at `idx` with `k`
iterations left.  The result is `ns_idx`. -/
def init_loop (build : Build) (env : Env) (frame : Nat) : Nat → Nat → Nat → M Nat
  | 0, _, ns_idx => pure ns_idx
  | k + 1, idx, ns_idx => do
    match build.property idx with
    | .unset => init_loop build env frame k (idx + 1) ns_idx
    | .other => init_loop build env frame k (idx + 1) ns_idx
    | .ipv4 addr =>
      let stored ← init_nameserver env frame ns_idx (addr4_local build addr) sizeof_sockaddr_in
      init_loop build env frame k (idx + 1) (if stored then ns_idx + 1 else ns_idx)
    | .ipv6 addr =>
      let stored ← init_nameserver env frame ns_idx (addr6_local build addr) sizeof_sockaddr_in6
      init_loop build env frame k (idx + 1) (if stored then ns_idx + 1 else ns_idx)

/-- The function `dns_configuration_init` (lines 14-54).  The local `resolver`
has its address taken at line 52, so it lives in a block of automatic storage
(`frame`) that ends with the call. -/
def dns_configuration_init (build : Build) (env : Env) : M Unit := do
  store_configuration fun g => { g with n_resolver := 1 }
  let frame ← enter_frame 1
  let p ← malloc env sizeof_ptr .resolver
  store_slot frame 0 p
  if build.android then
    let l ← malloc env (sizeof_ptr * 5) .slots
    let resolver ← load_slot frame 0
    store_field resolver offsetof_nameserver sizeof_ptr fun r => { r with nameserver := l }
    let _ ← init_loop build env frame 4 1 0
    store_configuration fun g => { g with resolver := frame }
  else pure ()
  leave_frame frame

/-! ## More example states -/

/-- The process before `dns_configuration_init`: the static `configuration` is
zero-initialised and the heap is empty. -/
def processStart : World := World.ofBlocks { n_resolver := 0, resolver := NULL } []

/-- A build without `ANDROID`. -/
def buildPlain : Build :=
  { android := false, property := fun _ => .unset, stack := fun _ => 0 }

/-- An `ANDROID` build on a device whose `net.dns1` is `8.8.8.8` and `net.dns2`
is `2001:4860:4860::8888`. -/
def buildAndroid : Build :=
  { android := true
    property := fun idx =>
      if idx = 1 then .ipv4 [8, 8, 8, 8]
      else if idx = 2 then
        .ipv6 [0x20, 0x01, 0x48, 0x60, 0x48, 0x60, 0, 0, 0, 0, 0, 0, 0, 0, 0x88, 0x88]
      else .unset
    stack := fun _ => 0 }

/-- An allocator that never fails and fills fresh memory with the word `j`. -/
def envWord (j : Nat) : Env := { ok := fun _ => true, junk := fun _ _ => j }

/-- Lines 61-170 of `dns_resolver_copy`: the record and the flag `success` as
they reach the test of line 171. -/
def dns_resolver_copy_until_rollback (env : Env) (resolver : Nat) : M (Nat × Bool) := do
  let copy ← malloc env sizeof_dns_resolver_t .resolver
  let success ← if copy = NULL then pure false else dns_resolver_copy_body env resolver copy
  pure (copy, success)

/-- A store with two resolvers (addresses 2 and 6, in the list at address 1),
each with the single nameserver `8.8.8.8`, no domain, no search domains, no
sort rules, no options. -/
def storeTwo : World :=
  World.ofBlocks { n_resolver := 2, resolver := 1 }
    [ ⟨16, true, .slots [2, 6]⟩,
      ⟨72, true, .resolver
        { domain := 5, n_nameserver := 1, nameserver := 3, port := 53,
          n_search := 0, search := NULL, n_sortaddr := 0, sortaddr := NULL,
          options := NULL, timeout := 5, search_order := 0 }⟩,
      ⟨8, true, .slots [4]⟩,
      ⟨16, true, .bytes sockaddr_8_8_8_8⟩,
      ⟨4, true, .bytes str_lan⟩,
      ⟨72, true, .resolver
        { domain := 5, n_nameserver := 1, nameserver := 3, port := 53,
          n_search := 0, search := NULL, n_sortaddr := 0, sortaddr := NULL,
          options := NULL, timeout := 5, search_order := 1 }⟩ ]

/-- An allocator handing out zero-filled memory, except that the first word of
the block of attempt 0 holds the stale address 6, and whose attempt 1, and no
other, fails. -/
def envFailAlias : Env :=
  { ok := fun i => i != 1, junk := fun k j => if k = 0 ∧ j = 0 then 6 else 0 }

/-- The sizes requested for the blocks a run allocated, oldest first. -/
def World.allocatedSizes (w : World) : List (Option Nat) :=
  w.allocated.map fun p => (w.heap p).map (·.size)

/-! ## Relations between states used in the proofs of the release engine and of the lock -/

/-- Every run of `m` that returns has appended to the trace only events
satisfying `P`. -/
def Appends (P : Event → Prop) {α : Type} (m : M α) : Prop :=
  ∀ w a w', m w = .ok (a, w') → ∃ new, w'.trace = new ++ w.trace ∧ ∀ e ∈ new, P e

/-- The events of the allocator: everything but the lock and the reads of the
global `configuration`. -/
def Event.isMemory : Event → Prop
  | .alloc _ => True
  | .allocFail => True
  | .free _ => True
  | .lock => False
  | .unlock => False
  | .readStore => False

/-- The events allowed while the lock is held: everything but the lock
operations themselves. -/
def Event.isInside : Event → Prop
  | .lock => False
  | .unlock => False
  | _ => True

/-- Between `w` and `w'` blocks were only released: every block live in `w'`
is the same block in `w`. -/
def Released (w w' : World) : Prop :=
  ∀ q b, w'.heap q = some b → b.live = true → w.heap q = some b

/-- The record `r` after `dns_resolver_free`: the five references are null, the
counts and the scalars are kept. -/
def dns_resolver_t.released (r : dns_resolver_t) : dns_resolver_t :=
  { r with domain := NULL, nameserver := NULL, search := NULL, sortaddr := NULL,
           options := NULL }

/-- A resolver record whose nameserver and sortaddr references are null while
their counts are 2 and 1, and whose search list (address 2) has count 3. -/
def recordHoles : dns_resolver_t :=
  { domain := NULL, n_nameserver := 2, nameserver := NULL, port := 53,
    n_search := 3, search := 2, n_sortaddr := 1, sortaddr := NULL,
    options := NULL, timeout := 5, search_order := 0 }

/-- A heap holding `recordHoles` at address 1; its search list (address 2)
holds a null entry, the string `"lan"` (address 3) and another null entry. -/
def storeHoles : World :=
  World.ofBlocks { n_resolver := 0, resolver := NULL }
    [ ⟨72, true, .resolver recordHoles⟩,
      ⟨24, true, .slots [NULL, 3, NULL]⟩,
      ⟨4, true, .bytes str_lan⟩ ]

/-! ## What the release engine frees -/

/-- Whether the block at an address is still allocated. -/
def World.live (w : World) (p : Nat) : Bool :=
  match w.heap p with
  | some b => b.live
  | none => false

/-- What `DNS_FREE_PTR` with the method `free` releases for a field holding
`p`: the block, unless the reference is null. -/
def ptrFrees (p : Nat) : List Nat := if p = NULL then [] else [p]

/-- What `DNS_FREE_LIST` with the method `free` releases for a list field
holding `l`, in order: nothing for a null reference, otherwise the non-null
elements and then the list. -/
def listFrees (w : World) (l : Nat) : List Nat :=
  if l = NULL then []
  else match w.slots? l with
    | some ps => ps.filter (· ≠ NULL) ++ [l]
    | none => [l]

/-- A list field is null, or refers to a live array with as many slots as the
count `n` declares. -/
def listOk (w : World) (l : Nat) (n : Int) : Bool :=
  if l = NULL then true
  else match w.slots? l with
    | some ps => decide (n = ps.length)
    | none => false

/-- What `dns_resolver_free` releases for the record `r`, in the order of lines
237-241. -/
def recordFrees (w : World) (r : dns_resolver_t) : List Nat :=
  ptrFrees r.domain ++ (listFrees w r.nameserver ++ (listFrees w r.search ++
    (listFrees w r.sortaddr ++ ptrFrees r.options)))

/-- Each of the three lists of the record is null or has as many slots as its
count declares. -/
def recordOk (w : World) (r : dns_resolver_t) : Bool :=
  listOk w r.nameserver r.n_nameserver && listOk w r.search r.n_search &&
    listOk w r.sortaddr r.n_sortaddr

/-- What `dns_resolver_free` releases for the reference `q`: nothing for a null
reference. -/
def resolverFrees (w : World) (q : Nat) : List Nat :=
  if q = NULL then []
  else match w.resolver? q with
    | some r => recordFrees w r
    | none => []

/-- An element of a resolver list is null, or refers to a live record whose
lists are null or as long as declared. -/
def resolverOk (w : World) (q : Nat) : Bool :=
  if q = NULL then true
  else match w.resolver? q with
    | some r => recordOk w r
    | none => false

/-- First record of `snapshotHoles`: domain `"lan"` (address 4) and a
nameserver list (address 5) whose first element is null. -/
def recordFirst : dns_resolver_t :=
  { domain := 4, n_nameserver := 2, nameserver := 5, port := 53,
    n_search := 0, search := NULL, n_sortaddr := 0, sortaddr := NULL,
    options := NULL, timeout := 5, search_order := 0 }

/-- Second record of `snapshotHoles`: a null nameserver list of declared count
1, a search list (address 8) whose second element is null, and an options
string (address 10). -/
def recordSecond : dns_resolver_t :=
  { domain := NULL, n_nameserver := 1, nameserver := NULL, port := 53,
    n_search := 2, search := 8, n_sortaddr := 0, sortaddr := NULL,
    options := 10, timeout := 5, search_order := 1 }

/-- A heap holding two snapshots.  The snapshot at address 1 declares four
resolvers; its list (address 2) holds a null element, `recordFirst` (address
3), another null element and `recordSecond` (address 7).  The snapshot at
address 11 declares three resolvers and has a null list. -/
def snapshotHoles : World :=
  World.ofBlocks { n_resolver := 0, resolver := NULL }
    [ ⟨16, true, .config { n_resolver := 4, resolver := 2 }⟩,
      ⟨32, true, .slots [NULL, 3, NULL, 7]⟩,
      ⟨72, true, .resolver recordFirst⟩,
      ⟨4, true, .bytes str_lan⟩,
      ⟨16, true, .slots [NULL, 6]⟩,
      ⟨16, true, .bytes sockaddr_8_8_8_8⟩,
      ⟨72, true, .resolver recordSecond⟩,
      ⟨16, true, .slots [9, NULL]⟩,
      ⟨12, true, .bytes str_example_com⟩,
      ⟨4, true, .bytes str_lan⟩,
      ⟨16, true, .config { n_resolver := 3, resolver := NULL }⟩ ]

/-! ## Relations between states used in the proof that the store is read under the lock -/

/-- The events of a release: calls of `free` on a live block. -/
def Event.isFree : Event → Prop
  | .free _ => True
  | _ => False

/-- The state with the store erased: the static `configuration` is zeroed and
every block at an address up to `b` is removed from the heap. -/
def World.forget (w : World) (b : Nat) : World :=
  { w with
    configuration := { n_resolver := 0, resolver := NULL }
    heap := fun q => if q ≤ b then none else w.heap q }

/-- Between `w` and `w'` the blocks at addresses up to `n` were at most
released: each of them that is live in `w'` is the same block in `w`. -/
structure Fades (n : Nat) (w w' : World) : Prop where
  wf : w'.WF
  keep : ∀ q b, q ≤ n → w'.heap q = some b → b.live = true → w.heap q = some b

/-- Every run of `m` that returns from a well-formed heap has at most released
the blocks at addresses up to `n`. -/
def Fading (n : Nat) {α : Type} (m : M α) : Prop :=
  ∀ w a w', m w = .ok (a, w') → w.WF → Fades n w w'

/-! ## Lemmas: the monad and the heap primitives, then the copy engine -/

theorem bind_ok {α β : Type} (m : M α) (f : α → M β) (w : World) (b : β) (w' : World) :
    (m >>= f) w = .ok (b, w') ↔ ∃ a w₁, m w = .ok (a, w₁) ∧ f a w₁ = .ok (b, w') := by
  show (StateT.bind m f) w = _ ↔ _
  unfold StateT.bind
  cases h : m w with
  | error e => simp [bind, Except.bind, h]
  | ok r =>
    obtain ⟨a, w₁⟩ := r
    simp only [bind, Except.bind, h]
    constructor
    · intro hf; exact ⟨a, w₁, rfl, hf⟩
    · rintro ⟨a', w₂, he, hf⟩
      cases he
      exact hf

theorem pure_ok {α : Type} (a b : α) (w w' : World) :
    (pure a : M α) w = .ok (b, w') ↔ a = b ∧ w = w' := by
  show (StateT.pure a) w = _ ↔ _
  simp [StateT.pure, pure, Except.pure]

theorem throw_ok {α : Type} (e : Fault) (b : α) (w w' : World) :
    (throw e : M α) w = .ok (b, w') ↔ False := by
  simp [throw, throwThe, MonadExceptOf.throw, StateT.lift, liftM, monadLift, MonadLift.monadLift, bind, Except.bind]

theorem modify_ok (f : World → World) (u : Unit) (w w' : World) :
    (modify f : M Unit) w = .ok (u, w') ↔ w' = f w := by
  simp [modify, modifyGet, MonadStateOf.modifyGet, StateT.modifyGet, pure, Except.pure, eq_comm]

theorem map_ok {α β : Type} (g : α → β) (m : M α) (w : World) (b : β) (w' : World) :
    (g <$> m) w = .ok (b, w') ↔ ∃ a, m w = .ok (a, w') ∧ g a = b := by
  show (StateT.map g m) w = _ ↔ _
  unfold StateT.map
  cases h : m w with
  | error e => simp [bind, Except.bind, h]
  | ok r =>
    obtain ⟨a, w₁⟩ := r
    simp only [bind, Except.bind, h, pure, Except.pure]
    constructor
    · intro he; cases he; exact ⟨a, rfl, rfl⟩
    · rintro ⟨a', he, hg⟩
      cases he
      rw [hg]

theorem deref_ok (p : Nat) (w : World) (b : Block) (w' : World) :
    deref p w = .ok (b, w') ↔ p ≠ NULL ∧ w.heap p = some b ∧ b.live = true ∧ w' = w := by
  unfold deref
  by_cases hp : p = NULL
  · simp [hp]
  · cases hh : w.heap p with
    | none => simp [hp, hh]
    | some b' =>
      by_cases hl : b'.live = true
      · simp only [hp, hh, hl, if_true, if_false]
        constructor
        · intro he; cases he; exact ⟨hp, rfl, hl, rfl⟩
        · rintro ⟨_, he, _, rfl⟩; cases he; rfl
      · simp only [hp, hh, hl, if_false]
        constructor
        · intro he; cases he
        · rintro ⟨_, he, hl', _⟩; cases he; exact absurd hl' hl

theorem load_resolver_ok (p : Nat) (w : World) (r : dns_resolver_t) (w' : World)
    (h : load_resolver p w = .ok (r, w')) : w' = w ∧ p ≠ NULL ∧ w.resolver? p = some r := by
  unfold load_resolver at h
  rw [bind_ok] at h
  obtain ⟨b, w₁, hd, h⟩ := h
  rw [deref_ok] at hd
  obtain ⟨hp, hh, hl, rfl⟩ := hd
  cases ho : b.obj <;> simp [ho, throw_ok, pure_ok] at h
  obtain ⟨rfl, rfl⟩ := h
  exact ⟨rfl, hp, by simp [World.resolver?, World.obj?, hh, hl, ho]⟩

theorem Evolves.refl {S : Nat → Prop} {w : World} (hwf : w.WF) : Evolves S w w :=
  ⟨le_refl _, hwf, rfl, fun _ _ => rfl⟩

theorem Evolves.trans {S : Nat → Prop} {w w₁ w₂ : World}
    (h₁ : Evolves S w w₁) (h₂ : Evolves S w₁ w₂) : Evolves S w w₂ :=
  ⟨le_trans h₁.brk_le h₂.brk_le, h₂.wf, h₂.conf.trans h₁.conf,
    fun q hq => (h₂.frame q hq).trans (h₁.frame q hq)⟩

theorem Evolves.mono {S T : Nat → Prop} {w w' : World} (h : Evolves S w w')
    (hT : ∀ q, T q → S q) : Evolves T w w' :=
  ⟨h.brk_le, h.wf, h.conf, fun q hq => h.frame q (hT q hq)⟩

theorem World.WF.le_brk {w : World} (hwf : w.WF) {p : Nat} {b : Block}
    (h : w.heap p = some b) : p ≤ w.brk := by
  by_contra hlt
  rw [hwf.2 p (by omega)] at h
  cases h

theorem World.WF.ne_null {w : World} (hwf : w.WF) {p : Nat} {b : Block}
    (h : w.heap p = some b) : p ≠ 0 := by
  rintro rfl
  rw [hwf.1] at h
  cases h

theorem put_evolves {S : Nat → Prop} {w : World} (hwf : w.WF) {p : Nat} {b : Block}
    (h : w.heap p = some b) (hp : ¬ S p) (b' : Block) : Evolves S w (w.put p b') := by
  refine ⟨le_refl _, ⟨?_, ?_⟩, rfl, ?_⟩
  · show (if (0 : Nat) = p then some b' else w.heap 0) = none
    rw [if_neg (fun h0 => hwf.ne_null h h0.symm)]
    exact hwf.1
  · intro q hq
    have hq' : w.brk < q := hq
    show (if q = p then some b' else w.heap q) = none
    have := hwf.le_brk h
    rw [if_neg (by omega)]
    exact hwf.2 q hq'
  · intro q hq
    show (if q = p then some b' else w.heap q) = w.heap q
    rw [if_neg (fun e : q = p => hp (e ▸ hq))]

theorem malloc_ok {S : Nat → Prop} (env : Env) (size : Nat) (kind : Kind) (w : World) (p : Nat)
    (w' : World) (h : malloc env size kind w = .ok (p, w')) (hwf : w.WF)
    (hS : ∀ q, S q → q ≤ w.brk) :
    Evolves S w w' ∧ (p ≠ NULL → p = w.brk + 1 ∧ w'.brk = w.brk + 1 ∧
      w'.heap p = some ⟨size, true, fresh env w.attempts size kind⟩) := by
  unfold malloc at h
  by_cases hok : env.ok w.attempts = true
  · simp only [hok, if_true] at h
    cases h
    refine ⟨⟨Nat.le_succ _, ⟨?_, ?_⟩, rfl, ?_⟩, fun _ => ⟨rfl, rfl, by simp⟩⟩
    · simp [hwf.1]
    · intro q hq
      have hq' : w.brk + 1 < q := hq
      simp only
      rw [if_neg (by omega)]
      exact hwf.2 q (by omega)
    · intro q hq
      have := hS q hq
      simp only
      rw [if_neg (by omega)]
  · simp only [hok] at h
    cases h
    exact ⟨⟨le_refl _, hwf, rfl, fun _ _ => rfl⟩, fun hp => absurd rfl hp⟩

theorem resolver?_congr {w w' : World} {q : Nat} (h : w'.heap q = w.heap q) :
    w'.resolver? q = w.resolver? q := by
  simp [World.resolver?, World.obj?, h]

theorem slots?_congr {w w' : World} {q : Nat} (h : w'.heap q = w.heap q) :
    w'.slots? q = w.slots? q := by
  simp [World.slots?, World.obj?, h]

theorem config?_congr {w w' : World} {q : Nat} (h : w'.heap q = w.heap q) :
    w'.config? q = w.config? q := by
  simp [World.config?, World.obj?, h]

theorem resolver?_heap {w : World} {q : Nat} {r : dns_resolver_t}
    (h : w.resolver? q = some r) : ∃ b, w.heap q = some b ∧ b.live = true ∧ b.obj = .resolver r := by
  unfold World.resolver? World.obj? at h
  cases hh : w.heap q with
  | none => simp [hh] at h
  | some b =>
    refine ⟨b, rfl, ?_⟩
    by_cases hl : b.live = true
    · cases ho : b.obj <;> simp [hh, hl, ho] at h
      exact ⟨hl, by rw [h]⟩
    · simp [hh, hl] at h

theorem slots?_heap {w : World} {q : Nat} {ps : List Nat}
    (h : w.slots? q = some ps) : ∃ b, w.heap q = some b ∧ b.live = true ∧ b.obj = .slots ps := by
  unfold World.slots? World.obj? at h
  cases hh : w.heap q with
  | none => simp [hh] at h
  | some b =>
    refine ⟨b, rfl, ?_⟩
    by_cases hl : b.live = true
    · cases ho : b.obj <;> simp [hh, hl, ho] at h
      exact ⟨hl, by rw [h]⟩
    · simp [hh, hl] at h

theorem config?_heap {w : World} {q : Nat} {c : dns_config_t}
    (h : w.config? q = some c) : ∃ b, w.heap q = some b ∧ b.live = true ∧ b.obj = .config c := by
  unfold World.config? World.obj? at h
  cases hh : w.heap q with
  | none => simp [hh] at h
  | some b =>
    refine ⟨b, rfl, ?_⟩
    by_cases hl : b.live = true
    · cases ho : b.obj <;> simp [hh, hl, ho] at h
      exact ⟨hl, by rw [h]⟩
    · simp [hh, hl] at h

theorem put_heap_self (w : World) (p : Nat) (b : Block) : (w.put p b).heap p = some b := by
  simp [World.put]

theorem store_resolver_ok {S : Nat → Prop} (p : Nat) (f : dns_resolver_t → dns_resolver_t)
    (w : World) (u : Unit) (w' : World) (h : store_resolver p f w = .ok (u, w'))
    (hwf : w.WF) (hp : ¬ S p) :
    ∃ r, w.resolver? p = some r ∧ Evolves S w w' ∧ w'.resolver? p = some (f r) := by
  unfold store_resolver at h
  rw [bind_ok] at h
  obtain ⟨b, w₁, hd, h⟩ := h
  rw [deref_ok] at hd
  obtain ⟨_, hh, hl, rfl⟩ := hd
  cases ho : b.obj <;> simp only [ho, throw_ok, modify_ok] at h
  rename_i r
  subst h
  refine ⟨r, by simp [World.resolver?, World.obj?, hh, hl, ho], put_evolves hwf hh hp _, ?_⟩
  simp [World.resolver?, World.obj?, World.put, hl]

theorem load_config_ok (p : Nat) (w : World) (c : dns_config_t) (w' : World)
    (h : load_config p w = .ok (c, w')) : w' = w ∧ w.config? p = some c := by
  unfold load_config at h
  rw [bind_ok] at h
  obtain ⟨b, w₁, hd, h⟩ := h
  rw [deref_ok] at hd
  obtain ⟨hp, hh, hl, rfl⟩ := hd
  cases ho : b.obj <;> simp [ho, throw_ok, pure_ok] at h
  obtain ⟨rfl, rfl⟩ := h
  exact ⟨rfl, by simp [World.config?, World.obj?, hh, hl, ho]⟩

theorem store_config_ok {S : Nat → Prop} (p : Nat) (f : dns_config_t → dns_config_t)
    (w : World) (u : Unit) (w' : World) (h : store_config p f w = .ok (u, w'))
    (hwf : w.WF) (hp : ¬ S p) :
    ∃ c, w.config? p = some c ∧ Evolves S w w' ∧ w'.config? p = some (f c) := by
  unfold store_config at h
  rw [bind_ok] at h
  obtain ⟨b, w₁, hd, h⟩ := h
  rw [deref_ok] at hd
  obtain ⟨_, hh, hl, rfl⟩ := hd
  cases ho : b.obj <;> simp only [ho, throw_ok, modify_ok] at h
  rename_i c
  subst h
  refine ⟨c, by simp [World.config?, World.obj?, hh, hl, ho], put_evolves hwf hh hp _, ?_⟩
  simp [World.config?, World.obj?, World.put, hl]

theorem load_slot_ok (p i : Nat) (w : World) (v : Nat) (w' : World)
    (h : load_slot p i w = .ok (v, w')) :
    w' = w ∧ ∃ ps, w.slots? p = some ps ∧ ps.get? i = some v := by
  unfold load_slot at h
  rw [bind_ok] at h
  obtain ⟨b, w₁, hd, h⟩ := h
  rw [deref_ok] at hd
  obtain ⟨hp, hh, hl, rfl⟩ := hd
  cases ho : b.obj <;> simp only [ho, throw_ok] at h
  rename_i ps
  cases hg : ps.get? i <;> simp only [hg, throw_ok, pure_ok] at h
  obtain ⟨rfl, rfl⟩ := h
  exact ⟨rfl, ps, by simp [World.slots?, World.obj?, hh, hl, ho], hg⟩

theorem store_slot_ok {S : Nat → Prop} (p i v : Nat) (w : World) (u : Unit) (w' : World)
    (h : store_slot p i v w = .ok (u, w')) (hwf : w.WF) (hp : ¬ S p) :
    ∃ ps, w.slots? p = some ps ∧ i < ps.length ∧ Evolves S w w' ∧
      w'.slots? p = some (ps.set i v) := by
  unfold store_slot at h
  rw [bind_ok] at h
  obtain ⟨b, w₁, hd, h⟩ := h
  rw [deref_ok] at hd
  obtain ⟨_, hh, hl, rfl⟩ := hd
  cases ho : b.obj <;> simp only [ho, throw_ok] at h
  rename_i ps
  by_cases hi : i < ps.length
  · simp only [hi, if_true, modify_ok] at h
    subst h
    refine ⟨ps, by simp [World.slots?, World.obj?, hh, hl, ho], hi, put_evolves hwf hh hp _, ?_⟩
    simp [World.slots?, World.obj?, World.put, hl]
  · simp only [hi, if_false, throw_ok] at h

theorem load_bytes_ok (p : Nat) (w : World) (bs : List Nat) (w' : World)
    (h : load_bytes p w = .ok (bs, w')) : w' = w := by
  unfold load_bytes at h
  rw [bind_ok] at h
  obtain ⟨b, w₁, hd, h⟩ := h
  rw [deref_ok] at hd
  obtain ⟨hp, hh, hl, rfl⟩ := hd
  cases ho : b.obj <;> simp [ho, throw_ok, pure_ok] at h
  exact h.2.symm

theorem load_sa_family_ok (p : Nat) (w : World) (fam : Nat) (w' : World)
    (h : load_sa_family p w = .ok (fam, w')) : w' = w := by
  unfold load_sa_family at h
  rw [bind_ok] at h
  obtain ⟨bs, w₁, hb, h⟩ := h
  have := load_bytes_ok _ _ _ _ hb
  subst this
  match bs, h with
  | [], h => simp [throw_ok] at h
  | [_], h => simp [throw_ok] at h
  | _ :: _ :: _, h =>
    simp only [pure_ok] at h
    exact h.2.symm

theorem memcpy_ok {S : Nat → Prop} (dst src len : Nat) (w : World) (u : Unit) (w' : World)
    (h : memcpy dst src len w = .ok (u, w')) (hwf : w.WF) (hp : ¬ S dst) :
    Evolves S w w' := by
  unfold memcpy at h
  rw [bind_ok] at h
  obtain ⟨s, w₁, hs, h⟩ := h
  have := load_bytes_ok _ _ _ _ hs
  subst this
  rw [bind_ok] at h
  obtain ⟨b, w₁, hd, h⟩ := h
  rw [deref_ok] at hd
  obtain ⟨_, hh, hl, rfl⟩ := hd
  cases ho : b.obj <;> simp only [ho, throw_ok] at h
  rename_i d
  by_cases h1 : s.length < len
  · simp only [h1, if_true, throw_ok] at h
  · by_cases h2 : d.length < len
    · simp only [h1, h2, if_true, if_false, throw_ok] at h
    · simp only [h1, h2, if_false, modify_ok] at h
      subst h
      exact put_evolves hwf hh hp _

theorem strdup_ok {S : Nat → Prop} (env : Env) (s : Nat) (w : World) (p : Nat) (w' : World)
    (h : strdup env s w = .ok (p, w')) (hwf : w.WF) (hS : ∀ q, S q → q ≤ w.brk) :
    Evolves S w w' := by
  unfold strdup at h
  rw [bind_ok] at h
  obtain ⟨bs, w₁, hb, h⟩ := h
  have := load_bytes_ok _ _ _ _ hb
  subst this
  cases hc : cstring bs <;> simp only [hc, throw_ok] at h
  rw [bind_ok] at h
  obtain ⟨q, w₁, hm, h⟩ := h
  obtain ⟨he, hq⟩ := malloc_ok (S := S) _ _ _ _ _ _ hm hwf hS
  by_cases hn : q = NULL
  · simp only [hn, if_true, pure_ok] at h
    obtain ⟨_, rfl⟩ := h
    exact he
  · simp only [hn, if_false] at h
    rw [bind_ok] at h
    obtain ⟨u, w₂, hcp, h⟩ := h
    rw [pure_ok] at h
    obtain ⟨_, rfl⟩ := h
    obtain ⟨hq1, _, _⟩ := hq hn
    refine he.trans (memcpy_ok _ _ _ _ _ _ hcp he.wf ?_)
    intro hSq
    have := hS q hSq
    omega

theorem load_configuration_ok {S : Nat → Prop} (w : World) (g : dns_config_t) (w' : World)
    (h : load_configuration w = .ok (g, w')) (hwf : w.WF) :
    g = w.configuration ∧ Evolves S w w' := by
  unfold load_configuration at h
  cases h
  exact ⟨rfl, le_refl _, hwf, rfl, fun _ _ => rfl⟩

theorem copy_nameserver_loop_ok (env : Env) (resolver copy : Nat) (S : Nat → Prop)
    (c : dns_resolver_t) (hl : ¬ S c.nameserver) (hSc : S copy) :
    ∀ (k i : Nat) (w : World) (fl : Bool) (w' : World),
      copy_nameserver_loop env resolver copy k i w = .ok (fl, w') → w.WF →
      (∀ q, S q → q ≤ w.brk) → w.resolver? copy = some c → Evolves S w w' := by
  intro k
  induction k with
  | zero =>
    intro i w fl w' h hwf _ _
    simp only [copy_nameserver_loop, pure_ok] at h
    obtain ⟨_, rfl⟩ := h
    exact Evolves.refl hwf
  | succ k ih =>
    intro i w fl w' h hwf hS hc
    simp only [copy_nameserver_loop, bind_ok] at h
    obtain ⟨r, w₁, h₁, ns, w₂, h₂, fam, w₃, h₃, h⟩ := h
    obtain ⟨rfl, _, _⟩ := load_resolver_ok _ _ _ _ h₁
    obtain ⟨rfl, _⟩ := load_slot_ok _ _ _ _ _ h₂
    have := load_sa_family_ok _ _ _ _ h₃
    subst this
    split at h
    · simp only [bind_ok] at h
      obtain ⟨p, w₁, hm, c', w₂, hc', u, w₃, hst, h⟩ := h
      obtain ⟨e₁, hp⟩ := malloc_ok (S := S) _ _ _ _ _ _ hm hwf hS
      obtain ⟨rfl, _, hc'⟩ := load_resolver_ok _ _ _ _ hc'
      rw [resolver?_congr (e₁.frame copy hSc), hc] at hc'
      cases hc'
      obtain ⟨_, _, _, e₂, _⟩ := store_slot_ok (S := S) _ _ _ _ _ _ hst e₁.wf hl
      split at h
      · rw [pure_ok] at h
        obtain ⟨_, rfl⟩ := h
        exact e₁.trans e₂
      · rename_i hpn
        simp only [bind_ok] at h
        obtain ⟨u, w₄, hcp, h⟩ := h
        obtain ⟨hp1, _, _⟩ := hp hpn
        have e₃ := memcpy_ok (S := S) _ _ _ _ _ _ hcp e₂.wf
          (fun hSp => by have := hS p hSp; omega)
        have e := (e₁.trans e₂).trans e₃
        refine e.trans (ih _ _ _ _ h e.wf (fun q hq => le_trans (hS q hq) e.brk_le) ?_)
        rw [resolver?_congr (e.frame copy hSc), hc]
    · rw [pure_ok] at h
      obtain ⟨_, rfl⟩ := h
      exact Evolves.refl hwf

theorem store_slot_ne_null (p i v : Nat) (w : World) (u : Unit) (w' : World)
    (h : store_slot p i v w = .ok (u, w')) : p ≠ NULL := by
  unfold store_slot at h
  rw [bind_ok] at h
  obtain ⟨b, w₁, hd, _⟩ := h
  rw [deref_ok] at hd
  exact hd.1

theorem copy_search_loop_ok (env : Env) (resolver copy : Nat) (S : Nat → Prop)
    (c : dns_resolver_t) (hl : ¬ S c.search) (hSc : S copy) :
    ∀ (k i : Nat) (w : World) (fl : Bool) (w' : World),
      copy_search_loop env resolver copy k i w = .ok (fl, w') → w.WF →
      (∀ q, S q → q ≤ w.brk) → w.resolver? copy = some c → Evolves S w w' := by
  intro k
  induction k with
  | zero =>
    intro i w fl w' h hwf _ _
    simp only [copy_search_loop, pure_ok] at h
    obtain ⟨_, rfl⟩ := h
    exact Evolves.refl hwf
  | succ k ih =>
    intro i w fl w' h hwf hS hc
    simp only [copy_search_loop, bind_ok] at h
    obtain ⟨r, w₁, h₁, s, w₂, h₂, h⟩ := h
    obtain ⟨rfl, _, _⟩ := load_resolver_ok _ _ _ _ h₁
    obtain ⟨rfl, _⟩ := load_slot_ok _ _ _ _ _ h₂
    split at h
    · simp only [bind_ok] at h
      obtain ⟨d, w₁, hm, c', w₂, hc', u, w₃, hst, h⟩ := h
      have e₁ := strdup_ok (S := S) _ _ _ _ _ hm hwf hS
      obtain ⟨rfl, _, hc'⟩ := load_resolver_ok _ _ _ _ hc'
      rw [resolver?_congr (e₁.frame copy hSc), hc] at hc'
      cases hc'
      obtain ⟨_, _, _, e₂, _⟩ := store_slot_ok (S := S) _ _ _ _ _ _ hst e₁.wf hl
      have e := e₁.trans e₂
      split at h
      · rw [pure_ok] at h
        obtain ⟨_, rfl⟩ := h
        exact e
      · refine e.trans (ih _ _ _ _ h e.wf (fun q hq => le_trans (hS q hq) e.brk_le) ?_)
        rw [resolver?_congr (e.frame copy hSc), hc]
    · simp only [bind_ok] at h
      obtain ⟨c', w₂, hc', u, w₃, hst, h⟩ := h
      obtain ⟨rfl, _, hc'⟩ := load_resolver_ok _ _ _ _ hc'
      rw [hc] at hc'
      cases hc'
      obtain ⟨_, _, _, e, _⟩ := store_slot_ok (S := S) _ _ _ _ _ _ hst hwf hl
      refine e.trans (ih _ _ _ _ h e.wf (fun q hq => le_trans (hS q hq) e.brk_le) ?_)
      rw [resolver?_congr (e.frame copy hSc), hc]

theorem copy_sortaddr_loop_ok (env : Env) (resolver copy : Nat) (S : Nat → Prop)
    (c : dns_resolver_t) (hl : ¬ S c.sortaddr) (hs : c.search = NULL ∨ ¬ S c.search)
    (hSc : S copy) :
    ∀ (k i : Nat) (w : World) (fl : Bool) (w' : World),
      copy_sortaddr_loop env resolver copy k i w = .ok (fl, w') → w.WF →
      (∀ q, S q → q ≤ w.brk) → w.resolver? copy = some c → Evolves S w w' := by
  intro k
  induction k with
  | zero =>
    intro i w fl w' h hwf _ _
    simp only [copy_sortaddr_loop, pure_ok] at h
    obtain ⟨_, rfl⟩ := h
    exact Evolves.refl hwf
  | succ k ih =>
    intro i w fl w' h hwf hS hc
    simp only [copy_sortaddr_loop, bind_ok] at h
    obtain ⟨r, w₁, h₁, s, w₂, h₂, h⟩ := h
    obtain ⟨rfl, _, _⟩ := load_resolver_ok _ _ _ _ h₁
    obtain ⟨rfl, _⟩ := load_slot_ok _ _ _ _ _ h₂
    split at h
    · simp only [bind_ok] at h
      obtain ⟨p, w₁, hm, c', w₂, hc', u, w₃, hst, h⟩ := h
      obtain ⟨e₁, hp⟩ := malloc_ok (S := S) _ _ _ _ _ _ hm hwf hS
      obtain ⟨rfl, _, hc'⟩ := load_resolver_ok _ _ _ _ hc'
      rw [resolver?_congr (e₁.frame copy hSc), hc] at hc'
      cases hc'
      obtain ⟨_, _, _, e₂, _⟩ := store_slot_ok (S := S) _ _ _ _ _ _ hst e₁.wf hl
      split at h
      · rw [pure_ok] at h
        obtain ⟨_, rfl⟩ := h
        exact e₁.trans e₂
      · rename_i hpn
        simp only [bind_ok] at h
        obtain ⟨u, w₄, hcp, h⟩ := h
        obtain ⟨hp1, _, _⟩ := hp hpn
        have e₃ := memcpy_ok (S := S) _ _ _ _ _ _ hcp e₂.wf
          (fun hSp => by have := hS p hSp; omega)
        have e := (e₁.trans e₂).trans e₃
        refine e.trans (ih _ _ _ _ h e.wf (fun q hq => le_trans (hS q hq) e.brk_le) ?_)
        rw [resolver?_congr (e.frame copy hSc), hc]
    · simp only [bind_ok] at h
      obtain ⟨c', w₂, hc', u, w₃, hst, h⟩ := h
      obtain ⟨rfl, _, hc'⟩ := load_resolver_ok _ _ _ _ hc'
      rw [hc] at hc'
      cases hc'
      have hne := store_slot_ne_null _ _ _ _ _ _ hst
      have hs' : ¬ S c.search := hs.resolve_left hne
      obtain ⟨_, _, _, e, _⟩ := store_slot_ok (S := S) _ _ _ _ _ _ hst hwf hs'
      refine e.trans (ih _ _ _ _ h e.wf (fun q hq => le_trans (hS q hq) e.brk_le) ?_)
      rw [resolver?_congr (e.frame copy hSc), hc]

theorem Ctx.step {b resolver copy : Nat} {src c c' : dns_resolver_t} {w w' : World}
    (x : Ctx b resolver copy src c w) (e : Evolves (fun q => q ≤ b) w w')
    (hc' : w'.resolver? copy = some c') : Ctx b resolver copy src c' w' :=
  ⟨e.wf, x.hb, le_trans x.hcopy e.brk_le, x.hres,
    by rw [resolver?_congr (e.frame resolver x.hres), x.hsrc], hc'⟩

theorem Ctx.old_le {b resolver copy : Nat} {src c : dns_resolver_t} {w : World}
    (x : Ctx b resolver copy src c w) : ∀ q, q ≤ b → q ≤ w.brk :=
  fun _ hq => le_trans hq (le_trans (Nat.le_of_lt x.hb) x.hcopy)

theorem Ctx.oldc_le {b resolver copy : Nat} {src c : dns_resolver_t} {w : World}
    (x : Ctx b resolver copy src c w) : ∀ q, (q ≤ b ∨ q = copy) → q ≤ w.brk := by
  intro q hq
  have := x.hb
  have := x.hcopy
  omega

theorem Ctx.set {b resolver copy : Nat} {src c : dns_resolver_t} {w : World}
    (x : Ctx b resolver copy src c w) (f : dns_resolver_t → dns_resolver_t) (u : Unit)
    (w' : World) (h : store_resolver copy f w = .ok (u, w')) :
    Ctx b resolver copy src (f c) w' ∧ Evolves (fun q => q ≤ b) w w' := by
  obtain ⟨r, hr, e, hr'⟩ := store_resolver_ok (S := fun q => q ≤ b) _ _ _ _ _ h x.wf
    (by have := x.hb; simp only [not_le]; exact this)
  rw [x.hc] at hr
  cases hr
  exact ⟨x.step e hr', e⟩

theorem Ctx.load_src {b resolver copy : Nat} {src c : dns_resolver_t} {w : World}
    (x : Ctx b resolver copy src c w) (r : dns_resolver_t) (w' : World)
    (h : load_resolver resolver w = .ok (r, w')) : w' = w ∧ r = src := by
  obtain ⟨rfl, _, hr⟩ := load_resolver_ok _ _ _ _ h
  rw [x.hsrc] at hr
  cases hr
  exact ⟨rfl, rfl⟩

theorem Ctx.load_copy {b resolver copy : Nat} {src c : dns_resolver_t} {w : World}
    (x : Ctx b resolver copy src c w) (r : dns_resolver_t) (w' : World)
    (h : load_resolver copy w = .ok (r, w')) : w' = w ∧ r = c := by
  obtain ⟨rfl, _, hr⟩ := load_resolver_ok _ _ _ _ h
  rw [x.hc] at hr
  cases hr
  exact ⟨rfl, rfl⟩

theorem Ctx.evolve {b resolver copy : Nat} {src c : dns_resolver_t} {w w' : World}
    (x : Ctx b resolver copy src c w) (e : Evolves (fun q => q ≤ b ∨ q = copy) w w') :
    Ctx b resolver copy src c w' ∧ Evolves (fun q => q ≤ b) w w' :=
  ⟨x.step (e.mono fun _ hq => Or.inl hq)
      (by rw [resolver?_congr (e.frame copy (Or.inr rfl)), x.hc]),
    e.mono fun _ hq => Or.inl hq⟩

theorem copy_domain_ok {b resolver copy : Nat} {src c : dns_resolver_t} {w : World}
    (x : Ctx b resolver copy src c w) (env : Env) (go : Bool) (w' : World)
    (h : copy_domain env resolver copy w = .ok (go, w')) :
    ∃ d, Ctx b resolver copy src { c with domain := d } w' ∧
      Evolves (fun q => q ≤ b) w w' := by
  simp only [copy_domain, bind_ok] at h
  obtain ⟨r, w₁, h₁, h⟩ := h
  obtain ⟨rfl, rfl⟩ := x.load_src _ _ h₁
  split at h
  · simp only [bind_ok] at h
    obtain ⟨d, w₁, hd, u, w₂, hst, h⟩ := h
    obtain ⟨x₁, e₁⟩ := x.evolve (strdup_ok _ _ _ _ _ hd x.wf x.oldc_le)
    obtain ⟨x₂, e₂⟩ := x₁.set _ _ _ hst
    have hw : w₂ = w' := by
      split at h <;> rw [pure_ok] at h <;> exact h.2
    subst hw
    exact ⟨d, x₂, e₁.trans e₂⟩
  · rw [pure_ok] at h
    obtain ⟨_, rfl⟩ := h
    exact ⟨c.domain, x, Evolves.refl x.wf⟩

theorem copy_options_ok {b resolver copy : Nat} {src c : dns_resolver_t} {w : World}
    (x : Ctx b resolver copy src c w) (env : Env) (go : Bool) (w' : World)
    (h : copy_options env resolver copy w = .ok (go, w')) :
    ∃ o, Ctx b resolver copy src { c with options := o } w' ∧
      Evolves (fun q => q ≤ b) w w' := by
  simp only [copy_options, bind_ok] at h
  obtain ⟨r, w₁, h₁, h⟩ := h
  obtain ⟨rfl, rfl⟩ := x.load_src _ _ h₁
  split at h
  · simp only [bind_ok] at h
    obtain ⟨d, w₁, hd, u, w₂, hst, h⟩ := h
    obtain ⟨x₁, e₁⟩ := x.evolve (strdup_ok _ _ _ _ _ hd x.wf x.oldc_le)
    obtain ⟨x₂, e₂⟩ := x₁.set _ _ _ hst
    have hw : w₂ = w' := by
      split at h <;> rw [pure_ok] at h <;> exact h.2
    subst hw
    exact ⟨d, x₂, e₁.trans e₂⟩
  · simp only [bind_ok, pure_ok] at h
    obtain ⟨u, w₂, hst, _, rfl⟩ := h
    obtain ⟨x₂, e₂⟩ := x.set _ _ _ hst
    exact ⟨NULL, x₂, e₂⟩

theorem copy_nameserver_ok {b resolver copy : Nat} {src c : dns_resolver_t} {w : World}
    (x : Ctx b resolver copy src c w) (env : Env) (go : Bool) (w' : World)
    (h : copy_nameserver env resolver copy w = .ok (go, w')) :
    ∃ l, Ctx b resolver copy src
        { c with n_nameserver := src.n_nameserver, nameserver := l } w' ∧
      Evolves (fun q => q ≤ b) w w' := by
  simp only [copy_nameserver, bind_ok] at h
  obtain ⟨r, w₁, h₁, u, w₂, hst, c₁, w₃, hc₁, h⟩ := h
  obtain ⟨rfl, rfl⟩ := x.load_src _ _ h₁
  obtain ⟨x₁, e₁⟩ := x.set _ _ _ hst
  obtain ⟨rfl, rfl⟩ := x₁.load_copy _ _ hc₁
  split at h
  · simp only [bind_ok] at h
    obtain ⟨l, w₃, hm, u, w₄, hst₂, h⟩ := h
    obtain ⟨e₂, hl⟩ := malloc_ok _ _ _ _ _ _ hm x₁.wf x₁.oldc_le
    obtain ⟨x₂, e₂⟩ := x₁.evolve e₂
    obtain ⟨x₃, e₃⟩ := x₂.set _ _ _ hst₂
    have e := (e₁.trans e₂).trans e₃
    split at h
    · rw [pure_ok] at h
      obtain ⟨_, rfl⟩ := h
      exact ⟨l, x₃, e⟩
    · rename_i hln
      simp only [bind_ok, pure_ok] at h
      obtain ⟨fl, w₅, hloop, _, rfl⟩ := h
      obtain ⟨hl1, _, _⟩ := hl hln
      have hnot : ¬ (l ≤ b ∨ l = copy) := by
        have := x₁.hb
        have := x₁.hcopy
        omega
      obtain ⟨x₄, e₄⟩ := x₃.evolve (copy_nameserver_loop_ok env resolver copy _ _ hnot
        (Or.inr rfl) _ _ _ _ _ hloop x₃.wf x₃.oldc_le x₃.hc)
      exact ⟨l, x₄, e.trans e₄⟩
  · simp only [bind_ok, pure_ok] at h
    obtain ⟨u, w₃, hst₂, _, rfl⟩ := h
    obtain ⟨x₂, e₂⟩ := x₁.set _ _ _ hst₂
    exact ⟨NULL, x₂, e₁.trans e₂⟩

theorem copy_search_ok {b resolver copy : Nat} {src c : dns_resolver_t} {w : World}
    (x : Ctx b resolver copy src c w) (env : Env) (go : Bool) (w' : World)
    (h : copy_search env resolver copy w = .ok (go, w')) :
    ∃ l, Ctx b resolver copy src { c with n_search := src.n_search, search := l } w' ∧
      Evolves (fun q => q ≤ b) w w' ∧ (l = NULL ∨ ¬ (l ≤ b ∨ l = copy)) := by
  simp only [copy_search, bind_ok] at h
  obtain ⟨r, w₁, h₁, u, w₂, hst, c₁, w₃, hc₁, h⟩ := h
  obtain ⟨rfl, rfl⟩ := x.load_src _ _ h₁
  obtain ⟨x₁, e₁⟩ := x.set _ _ _ hst
  obtain ⟨rfl, rfl⟩ := x₁.load_copy _ _ hc₁
  split at h
  · simp only [bind_ok] at h
    obtain ⟨l, w₃, hm, u, w₄, hst₂, h⟩ := h
    obtain ⟨e₂, hl⟩ := malloc_ok _ _ _ _ _ _ hm x₁.wf x₁.oldc_le
    obtain ⟨x₂, e₂⟩ := x₁.evolve e₂
    obtain ⟨x₃, e₃⟩ := x₂.set _ _ _ hst₂
    have e := (e₁.trans e₂).trans e₃
    split at h
    · rename_i hln
      rw [pure_ok] at h
      obtain ⟨_, rfl⟩ := h
      exact ⟨l, x₃, e, Or.inl hln⟩
    · rename_i hln
      simp only [bind_ok, pure_ok] at h
      obtain ⟨fl, w₅, hloop, _, rfl⟩ := h
      obtain ⟨hl1, _, _⟩ := hl hln
      have hnot : ¬ (l ≤ b ∨ l = copy) := by
        have := x₁.hb
        have := x₁.hcopy
        omega
      obtain ⟨x₄, e₄⟩ := x₃.evolve (copy_search_loop_ok env resolver copy _ _ hnot
        (Or.inr rfl) _ _ _ _ _ hloop x₃.wf x₃.oldc_le x₃.hc)
      exact ⟨l, x₄, e.trans e₄, Or.inr hnot⟩
  · simp only [bind_ok, pure_ok] at h
    obtain ⟨u, w₃, hst₂, _, rfl⟩ := h
    obtain ⟨x₂, e₂⟩ := x₁.set _ _ _ hst₂
    exact ⟨NULL, x₂, e₁.trans e₂, Or.inl rfl⟩

theorem copy_sortaddr_ok {b resolver copy : Nat} {src c : dns_resolver_t} {w : World}
    (x : Ctx b resolver copy src c w) (hs : c.search = NULL ∨ ¬ (c.search ≤ b ∨ c.search = copy))
    (env : Env) (go : Bool) (w' : World)
    (h : copy_sortaddr env resolver copy w = .ok (go, w')) :
    ∃ l s, Ctx b resolver copy src
        { c with n_sortaddr := src.n_sortaddr, sortaddr := l, search := s } w' ∧
      Evolves (fun q => q ≤ b) w w' := by
  simp only [copy_sortaddr, bind_ok] at h
  obtain ⟨r, w₁, h₁, u, w₂, hst, c₁, w₃, hc₁, h⟩ := h
  obtain ⟨rfl, rfl⟩ := x.load_src _ _ h₁
  obtain ⟨x₁, e₁⟩ := x.set _ _ _ hst
  obtain ⟨rfl, rfl⟩ := x₁.load_copy _ _ hc₁
  split at h
  · simp only [bind_ok] at h
    obtain ⟨l, w₃, hm, u, w₄, hst₂, h⟩ := h
    obtain ⟨e₂, hl⟩ := malloc_ok _ _ _ _ _ _ hm x₁.wf x₁.oldc_le
    obtain ⟨x₂, e₂⟩ := x₁.evolve e₂
    obtain ⟨x₃, e₃⟩ := x₂.set _ _ _ hst₂
    have e := (e₁.trans e₂).trans e₃
    split at h
    · rw [pure_ok] at h
      obtain ⟨_, rfl⟩ := h
      exact ⟨l, c.search, x₃, e⟩
    · rename_i hln
      simp only [bind_ok, pure_ok] at h
      obtain ⟨fl, w₅, hloop, _, rfl⟩ := h
      obtain ⟨hl1, _, _⟩ := hl hln
      have hnot : ¬ (l ≤ b ∨ l = copy) := by
        have := x₁.hb
        have := x₁.hcopy
        omega
      have key := fun (c' : dns_resolver_t) (hc : w₄.resolver? copy = some c')
          (h₁ : ¬ (c'.sortaddr ≤ b ∨ c'.sortaddr = copy))
          (h₂ : c'.search = NULL ∨ ¬ (c'.search ≤ b ∨ c'.search = copy)) =>
        copy_sortaddr_loop_ok env resolver copy (fun q => q ≤ b ∨ q = copy) c' h₁ h₂
          (Or.inr rfl) _ _ _ _ _ hloop x₃.wf x₃.oldc_le hc
      obtain ⟨x₄, e₄⟩ := x₃.evolve (key _ x₃.hc hnot hs)
      exact ⟨l, c.search, x₄, e.trans e₄⟩
  · simp only [bind_ok, pure_ok] at h
    obtain ⟨u, w₃, hst₂, _, rfl⟩ := h
    obtain ⟨x₂, e₂⟩ := x₁.set _ _ _ hst₂
    exact ⟨c.sortaddr, NULL, x₂, e₁.trans e₂⟩

theorem dns_resolver_copy_body_ok {b resolver copy : Nat} {src c : dns_resolver_t} {w : World}
    (x : Ctx b resolver copy src c w) (env : Env) (w' : World)
    (h : dns_resolver_copy_body env resolver copy w = .ok (true, w')) :
    ∃ c', Ctx b resolver copy src c' w' ∧ Evolves (fun q => q ≤ b) w w' ∧
      SameScalars c' src := by
  simp only [dns_resolver_copy_body, bind_ok] at h
  obtain ⟨go₁, w₁, h₁, h⟩ := h
  obtain ⟨d, x₁, e₁⟩ := copy_domain_ok x env _ _ h₁
  cases go₁
  · simp [pure_ok] at h
  simp only [Bool.not_true, Bool.false_eq_true, if_false, bind_ok] at h
  obtain ⟨go₂, w₂, h₂, h⟩ := h
  obtain ⟨l₂, x₂, e₂⟩ := copy_nameserver_ok x₁ env _ _ h₂
  cases go₂
  · simp [pure_ok] at h
  simp only [Bool.not_true, Bool.false_eq_true, if_false, bind_ok] at h
  obtain ⟨r, w₃, hr, u, w₄, hst, go₃, w₅, h₃, h⟩ := h
  obtain ⟨rfl, rfl⟩ := x₂.load_src _ _ hr
  obtain ⟨x₃, e₃⟩ := x₂.set _ _ _ hst
  obtain ⟨l₃, x₄, e₄, hl₃⟩ := copy_search_ok x₃ env _ _ h₃
  cases go₃
  · simp [pure_ok] at h
  simp only [Bool.not_true, Bool.false_eq_true, if_false, bind_ok] at h
  obtain ⟨go₄, w₆, h₄, h⟩ := h
  obtain ⟨l₄, s₄, x₅, e₅⟩ := copy_sortaddr_ok x₄ hl₃ env _ _ h₄
  cases go₄
  · simp [pure_ok] at h
  simp only [Bool.not_true, Bool.false_eq_true, if_false, bind_ok] at h
  obtain ⟨go₅, w₇, h₅, h⟩ := h
  obtain ⟨o, x₆, e₆⟩ := copy_options_ok x₅ env _ _ h₅
  cases go₅
  · simp [pure_ok] at h
  simp only [Bool.not_true, Bool.false_eq_true, if_false, bind_ok, pure_ok] at h
  obtain ⟨r₁, w₈, hr₁, u₁, w₉, hst₁, r₂, w₁₀, hr₂, u₂, w₁₁, hst₂, _, rfl⟩ := h
  obtain ⟨rfl, rfl⟩ := x₆.load_src _ _ hr₁
  obtain ⟨x₇, e₇⟩ := x₆.set _ _ _ hst₁
  obtain ⟨rfl, rfl⟩ := x₇.load_src _ _ hr₂
  obtain ⟨x₈, e₈⟩ := x₇.set _ _ _ hst₂
  exact ⟨_, x₈, ((((((e₁.trans e₂).trans e₃).trans e₄).trans e₅).trans e₆).trans e₇).trans e₈,
    rfl, rfl, rfl, rfl, rfl, rfl⟩

theorem dns_resolver_copy_ok (env : Env) (resolver : Nat) (w : World) (p : Nat) (w' : World)
    (h : dns_resolver_copy env resolver w = .ok (p, w')) (hp : p ≠ NULL) (hwf : w.WF)
    (src : dns_resolver_t) (hsrc : w.resolver? resolver = some src) :
    p = w.brk + 1 ∧ Evolves (fun q => q ≤ w.brk) w w' ∧
      ∃ c, w'.resolver? p = some c ∧ SameScalars c src := by
  simp only [dns_resolver_copy, bind_ok] at h
  obtain ⟨copy, w₁, hm, h⟩ := h
  obtain ⟨e₁, hc⟩ := malloc_ok (S := fun q => q ≤ w.brk) _ _ _ _ _ _ hm hwf (fun _ hq => hq)
  by_cases hcn : copy = NULL
  · simp only [hcn, if_true, bind_ok, pure_ok] at h
    obtain ⟨success, w₂, ⟨rfl, rfl⟩, h⟩ := h
    simp only [Bool.not_false, if_true, bind_ok, pure_ok] at h
    obtain ⟨_, _, _, he, _⟩ := h
    exact absurd he.symm hp
  simp only [hcn, if_false, bind_ok] at h
  obtain ⟨success, w₂, hb, h⟩ := h
  cases success
  · simp only [Bool.not_false, if_true, bind_ok, pure_ok] at h
    obtain ⟨_, _, _, he, _⟩ := h
    exact absurd he.symm hp
  simp only [Bool.not_true, Bool.false_eq_true, if_false, pure_ok] at h
  obtain ⟨rfl, rfl⟩ := h
  obtain ⟨hc1, hc2, hc3⟩ := hc hp
  obtain ⟨b₀, hb₀, _, _⟩ := resolver?_heap hsrc
  have hres : resolver ≤ w.brk := hwf.le_brk hb₀
  have x : Ctx w.brk resolver copy src _ w₁ :=
    ⟨e₁.wf, by omega, by omega, hres,
      by rw [resolver?_congr (e₁.frame resolver hres), hsrc],
      by simp [World.resolver?, World.obj?, hc3, fresh]; rfl⟩
  obtain ⟨c', x', e₂, hs⟩ := dns_resolver_copy_body_ok x env _ hb
  exact ⟨hc1, e₁.trans e₂, c', x'.hc, hs⟩

theorem resolver?_le_brk {w : World} (hwf : w.WF) {q : Nat} {r : dns_resolver_t}
    (h : w.resolver? q = some r) : q ≤ w.brk := by
  obtain ⟨b, hb, _, _⟩ := resolver?_heap h
  exact hwf.le_brk hb

theorem slots?_le_brk {w : World} (hwf : w.WF) {q : Nat} {ps : List Nat}
    (h : w.slots? q = some ps) : q ≤ w.brk := by
  obtain ⟨b, hb, _, _⟩ := slots?_heap h
  exact hwf.le_brk hb

theorem config?_le_brk {w : World} (hwf : w.WF) {q : Nat} {c : dns_config_t}
    (h : w.config? q = some c) : q ≤ w.brk := by
  obtain ⟨b, hb, _, _⟩ := config?_heap h
  exact hwf.le_brk hb

theorem resolver?_ne_slots? {w : World} {p q : Nat} {r : dns_resolver_t} {ps : List Nat}
    (hr : w.resolver? p = some r) (hs : w.slots? q = some ps) : p ≠ q := by
  rintro rfl
  obtain ⟨b, hb, _, ho⟩ := resolver?_heap hr
  obtain ⟨b', hb', _, ho'⟩ := slots?_heap hs
  rw [hb] at hb'
  cases hb'
  rw [ho] at ho'
  cases ho'

theorem config?_ne_slots? {w : World} {p q : Nat} {c : dns_config_t} {ps : List Nat}
    (hr : w.config? p = some c) (hs : w.slots? q = some ps) : p ≠ q := by
  rintro rfl
  obtain ⟨b, hb, _, ho⟩ := config?_heap hr
  obtain ⟨b', hb', _, ho'⟩ := slots?_heap hs
  rw [hb] at hb'
  cases hb'
  rw [ho] at ho'
  cases ho'

theorem copy_resolver_loop_ok (env : Env) (config : Nat) (w0 : World) (srcs : List Nat)
    (cc : dns_config_t) (n : Nat) (hwf0 : w0.WF)
    (hsrcs : w0.slots? w0.configuration.resolver = some srcs)
    (hrec : ∀ j sp, j < n → srcs.get? j = some sp → ∃ src, w0.resolver? sp = some src)
    (hl : w0.brk < cc.resolver) :
    ∀ (k i : Nat) (w w' : World), i + k = n →
      copy_resolver_loop env config k i w = .ok (false, w') →
      Evolves (fun q => q ≤ w0.brk) w0 w → w.config? config = some cc →
      (∃ ps, w.slots? cc.resolver = some ps ∧ ∀ j, j < i → CopiedAt w0 w srcs ps j) →
      Evolves (fun q => q ≤ w0.brk) w0 w' ∧ w'.config? config = some cc ∧
        ∃ ps, w'.slots? cc.resolver = some ps ∧ ∀ j, j < n → CopiedAt w0 w' srcs ps j := by
  intro k
  induction k with
  | zero =>
    intro i w w' hik h e hcc hps
    simp only [copy_resolver_loop, pure_ok] at h
    obtain ⟨_, rfl⟩ := h
    have : i = n := by omega
    subst this
    exact ⟨e, hcc, hps⟩
  | succ k ih =>
    intro i w w' hik h e hcc hps
    obtain ⟨ps, hps, hcop⟩ := hps
    simp only [copy_resolver_loop, bind_ok] at h
    obtain ⟨g, w₁, hg, sp, w₂, hsp, p, w₃, hcp, c, w₄, hc, u, w₅, hst, h⟩ := h
    obtain ⟨rfl, e₁⟩ := load_configuration_ok (S := fun _ => True) _ _ _ hg e.wf
    have e' := e.trans (e₁.mono fun _ _ => trivial)
    obtain ⟨rfl, srcs', hsrcs', hget⟩ := load_slot_ok _ _ _ _ _ hsp
    have hle : w0.configuration.resolver ≤ w0.brk := slots?_le_brk hwf0 hsrcs
    rw [e.conf, slots?_congr (e'.frame _ hle), hsrcs] at hsrcs'
    cases hsrcs'
    by_cases hp : p = NULL
    · simp only [hp, if_true, pure_ok] at h
      exact absurd h.1 (by simp)
    simp only [hp, if_false] at h
    obtain ⟨src, hsrc⟩ := hrec i sp (by omega) hget
    have hsple : sp ≤ w0.brk := resolver?_le_brk hwf0 hsrc
    have hsrc₁ : w₂.resolver? sp = some src := by
      rw [resolver?_congr (e'.frame _ hsple), hsrc]
    obtain ⟨hw₄, hc⟩ := load_config_ok _ _ _ _ hc
    subst hw₄
    obtain ⟨hp1, e₂, r, hr, hsame⟩ := dns_resolver_copy_ok _ _ _ _ _ hcp hp e'.wf src hsrc₁
    have keep : ∀ q, q ≤ w.brk → w₄.heap q = w.heap q := by
      intro q hq
      have hq₁ : q ≤ w₂.brk := le_trans hq e₁.brk_le
      rw [e₂.frame q hq₁, e₁.frame q trivial]
    have hcfgle := config?_le_brk e.wf hcc
    have hlle := slots?_le_brk e.wf hps
    rw [config?_congr (keep _ hcfgle), hcc] at hc
    cases hc
    have hps₃ : w₄.slots? cc.resolver = some ps := by
      rw [slots?_congr (keep _ hlle), hps]
    obtain ⟨ps', hps', hi, e₃, hset⟩ := store_slot_ok (S := fun q => q ≠ cc.resolver)
      _ _ _ _ _ _ hst e₂.wf (fun hne => hne rfl)
    rw [hps₃] at hps'
    cases hps'
    have e₄ : Evolves (fun q => q ≤ w0.brk) w0 w₅ :=
      (e'.trans (e₂.mono fun q hq => le_trans hq e'.brk_le)).trans
        (e₃.mono fun q hq => by
          show q ≠ cc.resolver
          have : q ≤ w0.brk := hq
          omega)
    have hr₅ : w₅.resolver? p = some r := by
      rw [resolver?_congr (e₃.frame p (resolver?_ne_slots? hr hps₃)), hr]
    refine ih (i + 1) w₅ w' (by omega) h e₄ ?_ ⟨_, hset, ?_⟩
    · rw [config?_congr (e₃.frame config (config?_ne_slots? (by
        rw [config?_congr (keep _ hcfgle), hcc]) hps₃)),
        config?_congr (keep _ hcfgle), hcc]
    · intro j hj
      by_cases hji : j = i
      · subst hji
        refine ⟨sp, src, p, r, hget, hsrc, ?_, hr₅, hsame⟩
        simp [List.get?_eq_getElem?, List.getElem?_set, hi]
      · obtain ⟨sp', src', cp, r', h1, h2, h3, h4, h5⟩ := hcop j (by omega)
        refine ⟨sp', src', cp, r', h1, h2, ?_, ?_, h5⟩
        · simp only [List.get?_eq_getElem?] at h3 ⊢
          rw [List.getElem?_set_ne (fun e => hji e.symm)]
          exact h3
        · have hcple := resolver?_le_brk e.wf h4
          have h4₃ : w₄.resolver? cp = some r' := by
            rw [resolver?_congr (keep _ hcple), h4]
          rw [resolver?_congr (e₃.frame cp (resolver?_ne_slots? h4₃ hps₃)), h4₃]

theorem storeResolver_eq_some {w : World} {i : Nat} {src : dns_resolver_t}
    (h : storeResolver w i = some src) :
    ∃ srcs sp, w.slots? w.configuration.resolver = some srcs ∧ srcs.get? i = some sp ∧
      w.resolver? sp = some src := by
  unfold storeResolver at h
  simp only [Option.bind_eq_some] at h
  obtain ⟨srcs, h₁, sp, h₂, h₃⟩ := h
  exact ⟨srcs, sp, h₁, h₂, h₃⟩

theorem dns_configuration_copy_body_ok (env : Env) (config : Nat) (w0 w w' : World)
    (hwf0 : w0.WF) (e : Evolves (fun q => q ≤ w0.brk) w0 w) (hcfg : w0.brk < config)
    (c0 : dns_config_t) (hc0 : w.config? config = some c0)
    (hstore : ∀ i : Nat, (i : Int) < w0.configuration.n_resolver →
      ∃ src, storeResolver w0 i = some src)
    (h : dns_configuration_copy_body env config w = .ok ((true, false), w')) :
    ∃ c, w'.config? config = some c ∧ c.n_resolver = w0.configuration.n_resolver ∧
      ∀ i : Nat, (i : Int) < c.n_resolver →
        ∃ srcs ps, w0.slots? w0.configuration.resolver = some srcs ∧
          w'.slots? c.resolver = some ps ∧ CopiedAt w0 w' srcs ps i := by
  have hS : ¬ (fun q => q ≤ w0.brk) config := by
    show ¬ config ≤ w0.brk
    omega
  simp only [dns_configuration_copy_body, bind_ok] at h
  obtain ⟨g, w₁, hg, u, w₂, hst, c, w₃, hc, h⟩ := h
  obtain ⟨rfl, e₁⟩ := load_configuration_ok (S := fun q => q ≤ w0.brk ∨ q = config) _ _ _ hg e.wf
  have hc₁ : w₁.config? config = some c0 := by
    rw [config?_congr (e₁.frame config (Or.inr rfl)), hc0]
  have e₁' := e.trans (e₁.mono fun _ hq => Or.inl hq)
  obtain ⟨c₁, hc₁', e₂, hc₂⟩ := store_config_ok (S := fun q => q ≤ w0.brk) _ _ _ _ _ hst e₁.wf hS
  rw [hc₁] at hc₁'
  cases hc₁'
  obtain ⟨hw, hc⟩ := load_config_ok _ _ _ _ hc
  subst hw
  rw [hc₂] at hc
  cases hc
  have e₂' := e₁'.trans e₂
  have hconf : w.configuration = w0.configuration := e.conf
  have hnr : w.configuration.n_resolver = w0.configuration.n_resolver := by rw [hconf]
  split at h
  · rename_i hpos
    simp only [bind_ok] at h
    obtain ⟨l, w₄, hm, u₂, w₅, hst₂, h⟩ := h
    have hcle := config?_le_brk e₂.wf hc₂
    obtain ⟨e₃, hl⟩ := malloc_ok (S := fun q => q ≤ w0.brk ∨ q = config) _ _ _ _ _ _ hm e₂.wf
      (fun q hq => by
        have := e₂'.brk_le
        rcases hq with hq | hq <;> omega)
    by_cases hln : l = NULL
    · simp only [hln, if_true, pure_ok] at h
      exact absurd h.1 (by simp)
    simp only [hln, if_false, bind_ok] at h
    obtain ⟨fl, w₆, hloop, h⟩ := h
    cases fl
    swap
    · simp only [if_true, pure_ok] at h
      exact absurd h.1 (by simp)
    simp only [Bool.false_eq_true, if_false, pure_ok] at h
    obtain ⟨_, rfl⟩ := h
    obtain ⟨hl1, hl2, hl3⟩ := hl hln
    have hc₄ : w₄.config? config = some { c0 with n_resolver := w.configuration.n_resolver } := by
      rw [config?_congr (e₃.frame config (Or.inr rfl)), hc₂]
    obtain ⟨c₄, hc₄', e₄, hc₅⟩ := store_config_ok (S := fun q => q ≠ config)
      _ _ _ _ _ hst₂ e₃.wf (fun hne => hne rfl)
    rw [hc₄] at hc₄'
    cases hc₄'
    have hlne : l ≠ config := by omega
    have hl₅ : ∃ ps₀, w₅.slots? l = some ps₀ := by
      rw [slots?_congr (e₄.frame l hlne)]
      simp [World.slots?, World.obj?, hl3, fresh]
    obtain ⟨ps₀, hl₅⟩ := hl₅
    have e₅ : Evolves (fun q => q ≤ w0.brk) w0 w₅ :=
      (e₂'.trans (e₃.mono fun _ hq => Or.inl hq)).trans
        (e₄.mono fun q hq => by
          show q ≠ config
          have : q ≤ w0.brk := hq
          omega)
    have hlgt : w0.brk < l := by
      have := e₂'.brk_le
      omega
    have hn : (0 : Int) < w0.configuration.n_resolver := by
      rw [← hconf]
      exact hpos
    obtain ⟨src₀, hsrc₀⟩ := hstore 0 (by simpa using hn)
    obtain ⟨srcs, _, hsrcs, _, _⟩ := storeResolver_eq_some hsrc₀
    have hrec : ∀ j sp, j < w0.configuration.n_resolver.toNat → srcs.get? j = some sp →
        ∃ src, w0.resolver? sp = some src := by
      intro j sp hj hget
      obtain ⟨src, hsrc⟩ := hstore j (by omega)
      obtain ⟨srcs', sp', h₁, h₂, h₃⟩ := storeResolver_eq_some hsrc
      rw [hsrcs] at h₁
      cases h₁
      rw [hget] at h₂
      cases h₂
      exact ⟨src, h₃⟩
    have hloop' : copy_resolver_loop env config w0.configuration.n_resolver.toNat 0 w₅
        = .ok (false, w₆) := by
      rw [← hconf]
      exact hloop
    obtain ⟨e₆, hc₆, ps, hps, hcop⟩ := copy_resolver_loop_ok env config w0 srcs
      { c0 with n_resolver := w.configuration.n_resolver, resolver := l }
      w0.configuration.n_resolver.toNat hwf0 hsrcs hrec hlgt
      _ 0 w₅ w₆ (by omega) hloop' e₅ hc₅ ⟨_, hl₅, fun j hj => absurd hj (by omega)⟩
    refine ⟨_, hc₆, hnr, ?_⟩
    intro i hi
    refine ⟨srcs, ps, hsrcs, hps, hcop i ?_⟩
    have : (i : Int) < w0.configuration.n_resolver := by
      rw [← hconf]
      exact hi
    omega
  · rename_i hpos
    simp only [bind_ok, pure_ok] at h
    obtain ⟨u₂, w₄, hst₂, _, rfl⟩ := h
    obtain ⟨c₄, hc₄', e₄, hc₅⟩ := store_config_ok (S := fun q => q ≤ w0.brk)
      _ _ _ _ _ hst₂ e₂.wf hS
    rw [hc₂] at hc₄'
    cases hc₄'
    refine ⟨_, hc₅, hnr, ?_⟩
    intro i hi
    exact absurd (lt_of_le_of_lt (Int.ofNat_nonneg i) hi) hpos

theorem log_evolves {S : Nat → Prop} {w : World} (hwf : w.WF) (ev : Event) :
    Evolves S w (w.log ev) :=
  ⟨le_refl _, hwf, rfl, fun _ _ => rfl⟩

theorem World.ofBlocks_wf (configuration : dns_config_t) (blocks : List Block) :
    (World.ofBlocks configuration blocks).WF := by
  refine ⟨by simp [World.ofBlocks], ?_⟩
  intro q hq
  have hq' : blocks.length < q := hq
  show (if q = 0 then none else blocks.get? (q - 1)) = none
  rw [if_neg (by omega)]
  simp only [List.get?_eq_getElem?]
  exact List.getElem?_eq_none (by omega)

theorem dns_configuration_copy_ok (env : Env) (w : World) (config : Nat) (w' : World)
    (hwf : w.WF)
    (hstore : ∀ i : Nat, (i : Int) < w.configuration.n_resolver →
      ∃ src, storeResolver w i = some src)
    (h : dns_configuration_copy env w = .ok (config, w')) (hcfg : config ≠ NULL) :
    ∃ c, w'.config? config = some c ∧ c.n_resolver = w.configuration.n_resolver ∧
      ∀ i : Nat, (i : Int) < c.n_resolver →
        ∃ srcs ps, w.slots? w.configuration.resolver = some srcs ∧
          w'.slots? c.resolver = some ps ∧ CopiedAt w w' srcs ps i := by
  simp only [dns_configuration_copy, pthread_mutex_lock, pthread_mutex_unlock, bind_ok,
    modify_ok] at h
  obtain ⟨u, w₁, rfl, cfg, w₂, hm, h⟩ := h
  have e₁ : Evolves (fun q => q ≤ w.brk) w (w.log .lock) := log_evolves hwf _
  obtain ⟨e₂, hc⟩ := malloc_ok (S := fun q => q ≤ w.brk) _ _ _ _ _ _ hm e₁.wf (fun _ hq => hq)
  by_cases hcn : cfg = NULL
  · simp only [hcn, if_true, bind_ok, pure_ok, modify_ok] at h
    obtain ⟨sf, w₃, ⟨rfl, rfl⟩, u₂, w₄, rfl, h⟩ := h
    simp only [Bool.not_false, Bool.true_or, if_true, bind_ok, pure_ok] at h
    obtain ⟨_, _, _, he, _⟩ := h
    exact absurd he.symm hcfg
  simp only [hcn, if_false, bind_ok, modify_ok] at h
  obtain ⟨sf, w₃, hb, u₂, w₄, rfl, h⟩ := h
  obtain ⟨success, failure⟩ := sf
  have hsf : success = true ∧ failure = false := by
    cases success <;> cases failure <;>
      simp only [Bool.not_false, Bool.not_true, Bool.true_or, Bool.or_true, Bool.or_false,
        if_true, bind_ok, pure_ok] at h
    · obtain ⟨_, _, _, he, _⟩ := h
      exact absurd he.symm hcfg
    · obtain ⟨_, _, _, he, _⟩ := h
      exact absurd he.symm hcfg
    · exact ⟨rfl, rfl⟩
    · obtain ⟨_, _, _, he, _⟩ := h
      exact absurd he.symm hcfg
  obtain ⟨rfl, rfl⟩ := hsf
  simp only [Bool.not_true, Bool.or_false, Bool.false_eq_true, if_false, pure_ok] at h
  obtain ⟨rfl, rfl⟩ := h
  obtain ⟨hc1, _, hc3⟩ := hc hcn
  have hc₂ : ∃ c0, w₂.config? cfg = some c0 := by
    simp [World.config?, World.obj?, hc3, fresh]
  obtain ⟨c0, hc₂⟩ := hc₂
  have hlt : w.brk < cfg := by
    have : (w.log Event.lock).brk = w.brk := rfl
    omega
  obtain ⟨c, hc', hn, hall⟩ := dns_configuration_copy_body_ok env cfg w w₂ w₃ hwf
    (e₁.trans e₂) hlt c0 hc₂ hstore hb
  exact ⟨c, hc', hn, hall⟩

/-! ## Lemmas: traces, the release engine -/

theorem Appends.pure {P : Event → Prop} {α : Type} (a : α) : Appends P (pure a : M α) := by
  intro w b w' h
  rw [pure_ok] at h
  obtain ⟨_, rfl⟩ := h
  exact ⟨[], rfl, fun _ he => absurd he (List.not_mem_nil _)⟩

theorem Appends.throw {P : Event → Prop} {α : Type} (f : Fault) :
    Appends P (throw f : M α) := by
  intro w b w' h
  rw [throw_ok] at h
  exact h.elim

theorem Appends.bind {P : Event → Prop} {α β : Type} {m : M α} {f : α → M β}
    (hm : Appends P m) (hf : ∀ a, Appends P (f a)) : Appends P (m >>= f) := by
  intro w b w' h
  rw [bind_ok] at h
  obtain ⟨a, w₁, h₁, h₂⟩ := h
  obtain ⟨n₁, e₁, p₁⟩ := hm _ _ _ h₁
  obtain ⟨n₂, e₂, p₂⟩ := hf a _ _ _ h₂
  refine ⟨n₂ ++ n₁, by rw [e₂, e₁, List.append_assoc], ?_⟩
  intro e he
  rcases List.mem_append.1 he with h | h
  · exact p₂ e h
  · exact p₁ e h

theorem Appends.map {P : Event → Prop} {α β : Type} {m : M α} (g : α → β)
    (hm : Appends P m) : Appends P (g <$> m) := by
  intro w b w' h
  rw [map_ok] at h
  obtain ⟨a, h₁, _⟩ := h
  exact hm _ _ _ h₁

theorem Appends.ite {P : Event → Prop} {α : Type} {c : Prop} [Decidable c] {m₁ m₂ : M α}
    (h₁ : Appends P m₁) (h₂ : Appends P m₂) : Appends P (if c then m₁ else m₂) := by
  split
  · exact h₁
  · exact h₂

theorem Appends.weaken {P Q : Event → Prop} {α : Type} {m : M α} (hm : Appends P m)
    (hPQ : ∀ e, P e → Q e) : Appends Q m := by
  intro w a w' h
  obtain ⟨n, e, p⟩ := hm _ _ _ h
  exact ⟨n, e, fun x hx => hPQ x (p x hx)⟩

theorem Appends.modify {P : Event → Prop} (f : World → World)
    (hf : ∀ w, (f w).trace = w.trace) : Appends P (modify f : M Unit) := by
  intro w a w' h
  rw [modify_ok] at h
  subst h
  exact ⟨[], by simp [hf], fun _ he => absurd he (List.not_mem_nil _)⟩

theorem deref_appends {P : Event → Prop} (p : Nat) : Appends P (deref p) := by
  intro w b w' h
  rw [deref_ok] at h
  obtain ⟨_, _, _, rfl⟩ := h
  exact ⟨[], rfl, fun _ he => absurd he (List.not_mem_nil _)⟩

theorem load_resolver_appends {P : Event → Prop} (p : Nat) : Appends P (load_resolver p) := by
  unfold load_resolver
  refine Appends.bind (deref_appends p) fun b => ?_
  split
  · exact Appends.pure _
  · exact Appends.throw _

theorem store_resolver_appends {P : Event → Prop} (p : Nat)
    (f : dns_resolver_t → dns_resolver_t) : Appends P (store_resolver p f) := by
  unfold store_resolver
  refine Appends.bind (deref_appends p) fun b => ?_
  split
  · exact Appends.modify _ fun _ => rfl
  · exact Appends.throw _

theorem load_config_appends {P : Event → Prop} (p : Nat) : Appends P (load_config p) := by
  unfold load_config
  refine Appends.bind (deref_appends p) fun b => ?_
  split
  · exact Appends.pure _
  · exact Appends.throw _

theorem store_config_appends {P : Event → Prop} (p : Nat)
    (f : dns_config_t → dns_config_t) : Appends P (store_config p f) := by
  unfold store_config
  refine Appends.bind (deref_appends p) fun b => ?_
  split
  · exact Appends.modify _ fun _ => rfl
  · exact Appends.throw _

theorem load_slot_appends {P : Event → Prop} (p i : Nat) : Appends P (load_slot p i) := by
  unfold load_slot
  refine Appends.bind (deref_appends p) fun b => ?_
  split
  · split
    · exact Appends.pure _
    · exact Appends.throw _
  · exact Appends.throw _

theorem store_slot_appends {P : Event → Prop} (p i v : Nat) : Appends P (store_slot p i v) := by
  unfold store_slot
  refine Appends.bind (deref_appends p) fun b => ?_
  split
  · split
    · exact Appends.modify _ fun _ => rfl
    · exact Appends.throw _
  · exact Appends.throw _

theorem load_bytes_appends {P : Event → Prop} (p : Nat) : Appends P (load_bytes p) := by
  unfold load_bytes
  refine Appends.bind (deref_appends p) fun b => ?_
  split
  · exact Appends.pure _
  · exact Appends.throw _

theorem load_sa_family_appends {P : Event → Prop} (p : Nat) :
    Appends P (load_sa_family p) := by
  unfold load_sa_family
  refine Appends.bind (load_bytes_appends p) fun b => ?_
  split
  · exact Appends.pure _
  · exact Appends.throw _

theorem memcpy_appends {P : Event → Prop} (dst src len : Nat) :
    Appends P (memcpy dst src len) := by
  unfold memcpy
  refine Appends.bind (load_bytes_appends src) fun s => ?_
  refine Appends.bind (deref_appends dst) fun b => ?_
  split
  · split
    · exact Appends.throw _
    · split
      · exact Appends.throw _
      · exact Appends.modify _ fun _ => rfl
  · exact Appends.throw _

theorem malloc_appends (env : Env) (size : Nat) (kind : Kind) :
    Appends Event.isMemory (malloc env size kind) := by
  intro w p w' h
  unfold malloc at h
  split at h
  · cases h
    exact ⟨[.alloc (w.brk + 1)], rfl, fun e he => by
      rw [List.mem_singleton] at he
      subst he
      trivial⟩
  · cases h
    exact ⟨[.allocFail], rfl, fun e he => by
      rw [List.mem_singleton] at he
      subst he
      trivial⟩

theorem free_appends (p : Nat) : Appends Event.isMemory (free p) := by
  intro w u w' h
  unfold free at h
  split at h
  · cases h
    exact ⟨[], rfl, fun _ he => absurd he (List.not_mem_nil _)⟩
  · split at h
    · cases h
    · split at h
      · cases h
        exact ⟨[.free p], rfl, fun e he => by
          rw [List.mem_singleton] at he
          subst he
          trivial⟩
      · cases h

theorem strdup_appends (env : Env) (s : Nat) : Appends Event.isMemory (strdup env s) := by
  unfold strdup
  refine Appends.bind (load_bytes_appends s) fun bs => ?_
  split
  · exact Appends.throw _
  · refine Appends.bind (malloc_appends _ _ _) fun p => ?_
    split
    · exact Appends.pure _
    · exact Appends.bind (memcpy_appends _ _ _) fun _ => Appends.pure _

theorem DNS_FREE_LIST_loop_appends {P : Event → Prop} (name : M Nat) (method : Nat → M Unit)
    (hn : Appends P name) (hm : ∀ p, Appends P (method p)) :
    ∀ k i, Appends P (DNS_FREE_LIST_loop name method k i) := by
  intro k
  induction k with
  | zero => intro i; exact Appends.pure _
  | succ k ih =>
    intro i
    unfold DNS_FREE_LIST_loop
    exact Appends.bind hn fun l => Appends.bind (load_slot_appends _ _) fun e =>
      Appends.bind (hm e) fun _ => ih _

theorem DNS_FREE_PTR_appends {P : Event → Prop} (name : M Nat) (clear : M Unit)
    (method : Nat → M Unit) (hn : Appends P name) (hc : Appends P clear)
    (hm : ∀ p, Appends P (method p)) : Appends P (DNS_FREE_PTR name clear method) := by
  unfold DNS_FREE_PTR
  refine Appends.bind hn fun p => Appends.ite ?_ (Appends.pure _)
  exact Appends.bind (hm p) fun _ => hc

theorem DNS_FREE_LIST_appends (name : M Nat) (n_name : M Int) (clear : M Unit)
    (method : Nat → M Unit) (hn : Appends Event.isMemory name)
    (hc : Appends Event.isMemory n_name) (hcl : Appends Event.isMemory clear)
    (hm : ∀ p, Appends Event.isMemory (method p)) :
    Appends Event.isMemory (DNS_FREE_LIST name n_name clear method) := by
  unfold DNS_FREE_LIST
  refine Appends.bind hn fun p => Appends.ite ?_ (Appends.pure _)
  exact Appends.bind hc fun n => Appends.bind (DNS_FREE_LIST_loop_appends _ _ hn hm _ _) fun _ =>
    Appends.bind hn fun q => Appends.bind (free_appends q) fun _ => hcl

theorem dns_resolver_free_appends (resolver : Nat) :
    Appends Event.isMemory (dns_resolver_free resolver) := by
  unfold dns_resolver_free
  refine Appends.ite ?_ (Appends.pure _)
  have hl : ∀ g : dns_resolver_t → Nat,
      Appends Event.isMemory (g <$> load_resolver resolver) :=
    fun g => Appends.map g (load_resolver_appends _)
  have hi : ∀ g : dns_resolver_t → Int,
      Appends Event.isMemory (g <$> load_resolver resolver) :=
    fun g => Appends.map g (load_resolver_appends _)
  have hs : ∀ f, Appends Event.isMemory (store_resolver resolver f) :=
    fun f => store_resolver_appends _ f
  exact Appends.bind (DNS_FREE_PTR_appends _ _ _ (hl _) (hs _) free_appends) fun _ =>
    Appends.bind (DNS_FREE_LIST_appends _ _ _ _ (hl _) (hi _) (hs _) free_appends) fun _ =>
    Appends.bind (DNS_FREE_LIST_appends _ _ _ _ (hl _) (hi _) (hs _) free_appends) fun _ =>
    Appends.bind (DNS_FREE_LIST_appends _ _ _ _ (hl _) (hi _) (hs _) free_appends) fun _ =>
    DNS_FREE_PTR_appends _ _ _ (hl _) (hs _) free_appends

theorem dns_configuration_free_appends (config : Nat) :
    Appends Event.isMemory (dns_configuration_free config) := by
  unfold dns_configuration_free
  refine Appends.ite ?_ (Appends.pure _)
  exact Appends.bind (DNS_FREE_LIST_appends _ _ _ _ (Appends.map _ (load_config_appends _))
    (Appends.map _ (load_config_appends _)) (store_config_appends _ _)
    dns_resolver_free_appends) fun _ => free_appends _

theorem copy_domain_appends (env : Env) (resolver copy : Nat) :
    Appends Event.isMemory (copy_domain env resolver copy) := by
  unfold copy_domain
  refine Appends.bind (load_resolver_appends _) fun r => Appends.ite ?_ (Appends.pure _)
  exact Appends.bind (strdup_appends _ _) fun d =>
    Appends.bind (store_resolver_appends _ _) fun _ =>
    Appends.ite (Appends.pure _) (Appends.pure _)

theorem copy_options_appends (env : Env) (resolver copy : Nat) :
    Appends Event.isMemory (copy_options env resolver copy) := by
  unfold copy_options
  refine Appends.bind (load_resolver_appends _) fun r => Appends.ite ?_ ?_
  · exact Appends.bind (strdup_appends _ _) fun d =>
      Appends.bind (store_resolver_appends _ _) fun _ =>
      Appends.ite (Appends.pure _) (Appends.pure _)
  · exact Appends.bind (store_resolver_appends _ _) fun _ => Appends.pure _

theorem copy_nameserver_loop_appends (env : Env) (resolver copy : Nat) :
    ∀ k i, Appends Event.isMemory (copy_nameserver_loop env resolver copy k i) := by
  intro k
  induction k with
  | zero => intro i; exact Appends.pure _
  | succ k ih =>
    intro i
    unfold copy_nameserver_loop
    refine Appends.bind (load_resolver_appends _) fun r =>
      Appends.bind (load_slot_appends _ _) fun ns =>
      Appends.bind (load_sa_family_appends _) fun fam => Appends.ite ?_ (Appends.pure _)
    exact Appends.bind (malloc_appends _ _ _) fun p =>
      Appends.bind (load_resolver_appends _) fun c =>
      Appends.bind (store_slot_appends _ _ _) fun _ =>
      Appends.ite (Appends.pure _) (Appends.bind (memcpy_appends _ _ _) fun _ => ih _)

theorem copy_nameserver_appends (env : Env) (resolver copy : Nat) :
    Appends Event.isMemory (copy_nameserver env resolver copy) := by
  unfold copy_nameserver
  refine Appends.bind (load_resolver_appends _) fun r =>
    Appends.bind (store_resolver_appends _ _) fun _ =>
    Appends.bind (load_resolver_appends _) fun c => Appends.ite ?_ ?_
  · exact Appends.bind (malloc_appends _ _ _) fun l =>
      Appends.bind (store_resolver_appends _ _) fun _ =>
      Appends.ite (Appends.pure _)
        (Appends.bind (copy_nameserver_loop_appends _ _ _ _ _) fun _ => Appends.pure _)
  · exact Appends.bind (store_resolver_appends _ _) fun _ => Appends.pure _

theorem copy_search_loop_appends (env : Env) (resolver copy : Nat) :
    ∀ k i, Appends Event.isMemory (copy_search_loop env resolver copy k i) := by
  intro k
  induction k with
  | zero => intro i; exact Appends.pure _
  | succ k ih =>
    intro i
    unfold copy_search_loop
    refine Appends.bind (load_resolver_appends _) fun r =>
      Appends.bind (load_slot_appends _ _) fun s => Appends.ite ?_ ?_
    · exact Appends.bind (strdup_appends _ _) fun d =>
        Appends.bind (load_resolver_appends _) fun c =>
        Appends.bind (store_slot_appends _ _ _) fun _ =>
        Appends.ite (Appends.pure _) (ih _)
    · exact Appends.bind (load_resolver_appends _) fun c =>
        Appends.bind (store_slot_appends _ _ _) fun _ => ih _

theorem copy_search_appends (env : Env) (resolver copy : Nat) :
    Appends Event.isMemory (copy_search env resolver copy) := by
  unfold copy_search
  refine Appends.bind (load_resolver_appends _) fun r =>
    Appends.bind (store_resolver_appends _ _) fun _ =>
    Appends.bind (load_resolver_appends _) fun c => Appends.ite ?_ ?_
  · exact Appends.bind (malloc_appends _ _ _) fun l =>
      Appends.bind (store_resolver_appends _ _) fun _ =>
      Appends.ite (Appends.pure _)
        (Appends.bind (copy_search_loop_appends _ _ _ _ _) fun _ => Appends.pure _)
  · exact Appends.bind (store_resolver_appends _ _) fun _ => Appends.pure _

theorem copy_sortaddr_loop_appends (env : Env) (resolver copy : Nat) :
    ∀ k i, Appends Event.isMemory (copy_sortaddr_loop env resolver copy k i) := by
  intro k
  induction k with
  | zero => intro i; exact Appends.pure _
  | succ k ih =>
    intro i
    unfold copy_sortaddr_loop
    refine Appends.bind (load_resolver_appends _) fun r =>
      Appends.bind (load_slot_appends _ _) fun s => Appends.ite ?_ ?_
    · exact Appends.bind (malloc_appends _ _ _) fun p =>
        Appends.bind (load_resolver_appends _) fun c =>
        Appends.bind (store_slot_appends _ _ _) fun _ =>
        Appends.ite (Appends.pure _) (Appends.bind (memcpy_appends _ _ _) fun _ => ih _)
    · exact Appends.bind (load_resolver_appends _) fun c =>
        Appends.bind (store_slot_appends _ _ _) fun _ => ih _

theorem copy_sortaddr_appends (env : Env) (resolver copy : Nat) :
    Appends Event.isMemory (copy_sortaddr env resolver copy) := by
  unfold copy_sortaddr
  refine Appends.bind (load_resolver_appends _) fun r =>
    Appends.bind (store_resolver_appends _ _) fun _ =>
    Appends.bind (load_resolver_appends _) fun c => Appends.ite ?_ ?_
  · exact Appends.bind (malloc_appends _ _ _) fun l =>
      Appends.bind (store_resolver_appends _ _) fun _ =>
      Appends.ite (Appends.pure _)
        (Appends.bind (copy_sortaddr_loop_appends _ _ _ _ _) fun _ => Appends.pure _)
  · exact Appends.bind (store_resolver_appends _ _) fun _ => Appends.pure _

theorem dns_resolver_copy_body_appends (env : Env) (resolver copy : Nat) :
    Appends Event.isMemory (dns_resolver_copy_body env resolver copy) := by
  unfold dns_resolver_copy_body
  refine Appends.bind (copy_domain_appends _ _ _) fun _ => Appends.ite (Appends.pure _) ?_
  refine Appends.bind (copy_nameserver_appends _ _ _) fun _ => Appends.ite (Appends.pure _) ?_
  refine Appends.bind (load_resolver_appends _) fun _ =>
    Appends.bind (store_resolver_appends _ _) fun _ => ?_
  refine Appends.bind (copy_search_appends _ _ _) fun _ => Appends.ite (Appends.pure _) ?_
  refine Appends.bind (copy_sortaddr_appends _ _ _) fun _ => Appends.ite (Appends.pure _) ?_
  refine Appends.bind (copy_options_appends _ _ _) fun _ => Appends.ite (Appends.pure _) ?_
  exact Appends.bind (load_resolver_appends _) fun _ =>
    Appends.bind (store_resolver_appends _ _) fun _ =>
    Appends.bind (load_resolver_appends _) fun _ =>
    Appends.bind (store_resolver_appends _ _) fun _ => Appends.pure _

theorem dns_resolver_copy_appends (env : Env) (resolver : Nat) :
    Appends Event.isMemory (dns_resolver_copy env resolver) := by
  unfold dns_resolver_copy
  refine Appends.bind (malloc_appends _ _ _) fun copy => ?_
  have tail : ∀ success : Bool, Appends Event.isMemory
      (if (!success) = true then (do dns_resolver_free copy; Pure.pure NULL : M Nat)
        else Pure.pure copy) :=
    fun _ => Appends.ite
      (Appends.bind (dns_resolver_free_appends _) fun _ => Appends.pure _) (Appends.pure _)
  split
  · exact Appends.bind (Appends.pure _) tail
  · exact Appends.bind (dns_resolver_copy_body_appends _ _ _) tail

theorem Event.isMemory.isInside {e : Event} (h : e.isMemory) : e.isInside := by
  cases e <;> trivial

theorem load_configuration_appends : Appends Event.isInside load_configuration := by
  intro w g w' h
  unfold load_configuration at h
  cases h
  exact ⟨[.readStore], rfl, fun e he => by
    rw [List.mem_singleton] at he
    subst he
    trivial⟩

theorem copy_resolver_loop_appends (env : Env) (config : Nat) :
    ∀ k i, Appends Event.isInside (copy_resolver_loop env config k i) := by
  intro k
  induction k with
  | zero => intro i; exact Appends.pure _
  | succ k ih =>
    intro i
    unfold copy_resolver_loop
    exact Appends.bind load_configuration_appends fun g =>
      Appends.bind (load_slot_appends _ _) fun src =>
      Appends.bind ((dns_resolver_copy_appends _ _).weaken fun _ => Event.isMemory.isInside)
        fun r =>
      Appends.bind (load_config_appends _) fun c =>
      Appends.bind (store_slot_appends _ _ _) fun _ =>
      Appends.ite (Appends.pure _) (ih _)

theorem dns_configuration_copy_body_appends (env : Env) (config : Nat) :
    Appends Event.isInside (dns_configuration_copy_body env config) := by
  unfold dns_configuration_copy_body
  refine Appends.bind load_configuration_appends fun g =>
    Appends.bind (store_config_appends _ _) fun _ =>
    Appends.bind (load_config_appends _) fun c => Appends.ite ?_ ?_
  · refine Appends.bind ((malloc_appends _ _ _).weaken fun _ => Event.isMemory.isInside) fun l =>
      Appends.bind (store_config_appends _ _) fun _ => Appends.ite (Appends.pure _) ?_
    exact Appends.bind (copy_resolver_loop_appends _ _ _ _) fun _ =>
      Appends.ite (Appends.pure _) (Appends.pure _)
  · exact Appends.bind (store_config_appends _ _) fun _ => Appends.pure _

theorem ok_of_returned {α : Type} {r : Except Fault (α × World)} {a : α}
    (h : returned r = some a) : ∃ w', r = .ok (a, w') := by
  cases r with
  | error f => cases h
  | ok p =>
    obtain ⟨b, w'⟩ := p
    simp only [returned, Option.some.injEq] at h
    subst h
    exact ⟨w', rfl⟩

theorem bind_error {α β : Type} (m : M α) (f : α → M β) (w : World) (e : Fault)
    (h : m w = .error e) : (m >>= f) w = .error e := by
  show (StateT.bind m f) w = _
  unfold StateT.bind
  simp only [bind, Except.bind, h]

theorem bind_eq_of_ok {α β : Type} (m : M α) (f : α → M β) (w : World) (a : α) (w₁ : World)
    (h : m w = .ok (a, w₁)) : (m >>= f) w = f a w₁ := by
  show (StateT.bind m f) w = _
  unfold StateT.bind
  simp only [bind, Except.bind, h]

theorem map_error {α β : Type} (g : α → β) (m : M α) (w : World) (e : Fault)
    (h : m w = .error e) : (g <$> m) w = .error e := by
  show (StateT.map g m) w = _
  unfold StateT.map
  simp only [bind, Except.bind, h]

theorem map_eq_of_ok {α β : Type} (g : α → β) (m : M α) (w : World) (a : α) (w₁ : World)
    (h : m w = .ok (a, w₁)) : (g <$> m) w = .ok (g a, w₁) := by
  show (StateT.map g m) w = _
  unfold StateT.map
  simp only [bind, Except.bind, h, pure, Except.pure]

theorem free_ok (p : Nat) (w : World) (u : Unit) (w' : World) (h : free p w = .ok (u, w')) :
    (p = NULL ∧ w' = w) ∨
    (p ≠ NULL ∧ ∃ b, w.heap p = some b ∧ b.live = true ∧
      w' = (w.put p { b with live := false }).log (.free p)) := by
  unfold free at h
  split at h
  · rename_i hp
    cases h
    exact Or.inl ⟨hp, rfl⟩
  · rename_i hp
    split at h
    · cases h
    · rename_i b hb
      split at h
      · rename_i hl
        cases h
        exact Or.inr ⟨hp, b, hb, hl, rfl⟩
      · cases h

theorem deref_dead (p : Nat) (w : World) (b : Block) (hp : p ≠ NULL)
    (hb : w.heap p = some b) (hl : b.live = false) : deref p w = .error (.useAfterFree p) := by
  unfold deref
  simp [hp, hb, hl]

theorem free_null (w : World) : free NULL w = .ok ((), w) := by
  simp [free]

theorem dns_resolver_free_null (w : World) : dns_resolver_free NULL w = .ok ((), w) := by
  simp [dns_resolver_free, pure, StateT.pure, Except.pure]

theorem dns_configuration_free_null (w : World) :
    dns_configuration_free NULL w = .ok ((), w) := by
  simp [dns_configuration_free, pure, StateT.pure, Except.pure]

theorem Released.same (w : World) : Released w w := fun _ _ h _ => h

theorem Released.chain {w w₁ w₂ : World} (h₁ : Released w w₁) (h₂ : Released w₁ w₂) :
    Released w w₂ := fun q b hb hl => h₁ q b (h₂ q b hb hl) hl

theorem free_released (p : Nat) (w : World) (u : Unit) (w' : World)
    (h : free p w = .ok (u, w')) : Released w w' := by
  rcases free_ok _ _ _ _ h with ⟨_, rfl⟩ | ⟨_, b, hb, _, rfl⟩
  · exact Released.same _
  · intro q b' hb' hl'
    have hq : (if q = p then some { b with live := false } else w.heap q) = some b' := hb'
    by_cases hqp : q = p
    · rw [if_pos hqp] at hq
      cases hq
      cases hl'
    · rw [if_neg hqp] at hq
      exact hq

theorem Released.resolver? {w w' : World} (h : Released w w') {p : Nat} {r : dns_resolver_t}
    (hr : w'.resolver? p = some r) : w.resolver? p = some r := by
  obtain ⟨b, hb, hl, ho⟩ := resolver?_heap hr
  have := h p b hb hl
  simp [World.resolver?, World.obj?, this, hl, ho]

theorem load_resolver_eq {w : World} {p : Nat} {r : dns_resolver_t} (hp : p ≠ NULL)
    (h : w.resolver? p = some r) : load_resolver p w = .ok (r, w) := by
  obtain ⟨b, hb, hl, ho⟩ := resolver?_heap h
  have hd : deref p w = .ok (b, w) := (deref_ok p w b w).2 ⟨hp, hb, hl, rfl⟩
  unfold load_resolver
  rw [bind_eq_of_ok _ _ _ _ _ hd]
  simp only [ho]
  rfl

theorem store_resolver_inv (p : Nat) (f : dns_resolver_t → dns_resolver_t) (w : World)
    (u : Unit) (w' : World) (h : store_resolver p f w = .ok (u, w')) :
    ∃ r, w.resolver? p = some r ∧ w'.resolver? p = some (f r) := by
  unfold store_resolver at h
  rw [bind_ok] at h
  obtain ⟨b, w₁, hd, h⟩ := h
  rw [deref_ok] at hd
  obtain ⟨_, hh, hl, rfl⟩ := hd
  cases ho : b.obj <;> simp only [ho, throw_ok, modify_ok] at h
  rename_i r
  subst h
  exact ⟨r, by simp [World.resolver?, World.obj?, hh, hl, ho],
    by simp [World.resolver?, World.obj?, World.put, hl]⟩

theorem DNS_FREE_LIST_loop_released (p : Nat) (get : dns_resolver_t → Nat) :
    ∀ (k i : Nat) (w : World) (u : Unit) (w' : World),
      DNS_FREE_LIST_loop (get <$> load_resolver p) free k i w = .ok (u, w') →
      Released w w' := by
  intro k
  induction k with
  | zero =>
    intro i w u w' h
    simp only [DNS_FREE_LIST_loop, pure_ok] at h
    obtain ⟨_, rfl⟩ := h
    exact Released.same _
  | succ k ih =>
    intro i w u w' h
    simp only [DNS_FREE_LIST_loop, bind_ok, map_ok] at h
    obtain ⟨l, w₁, ⟨r, hr, _⟩, e, w₂, he, u₁, w₃, hf, h⟩ := h
    obtain ⟨hw₁, _, _⟩ := load_resolver_ok _ _ _ _ hr
    subst hw₁
    obtain ⟨hw₂, _⟩ := load_slot_ok _ _ _ _ _ he
    subst hw₂
    exact (free_released _ _ _ _ hf).chain (ih _ _ _ _ h)

theorem DNS_FREE_PTR_skip (name : M Nat) (clear : M Unit) (method : Nat → M Unit) (w : World)
    (h : name w = .ok (NULL, w)) : DNS_FREE_PTR name clear method w = .ok ((), w) := by
  unfold DNS_FREE_PTR
  rw [bind_eq_of_ok _ _ _ _ _ h]
  simp only [ne_eq, not_true_eq_false, if_false]
  rfl

theorem DNS_FREE_LIST_skip (name : M Nat) (n_name : M Int) (clear : M Unit)
    (method : Nat → M Unit) (w : World) (h : name w = .ok (NULL, w)) :
    DNS_FREE_LIST name n_name clear method w = .ok ((), w) := by
  unfold DNS_FREE_LIST
  rw [bind_eq_of_ok _ _ _ _ _ h]
  simp only [ne_eq, not_true_eq_false, if_false]
  rfl

theorem DNS_FREE_LIST_loop_skip (name : M Nat) (method : Nat → M Unit) (k i l : Nat)
    (w : World) (hn : name w = .ok (l, w)) (he : load_slot l i w = .ok (NULL, w))
    (hm : method NULL w = .ok ((), w)) :
    DNS_FREE_LIST_loop name method (k + 1) i w = DNS_FREE_LIST_loop name method k (i + 1) w := by
  rw [DNS_FREE_LIST_loop, bind_eq_of_ok _ _ _ _ _ hn, bind_eq_of_ok _ _ _ _ _ he,
    bind_eq_of_ok _ _ _ _ _ hm]

theorem DNS_FREE_PTR_resolver (p : Nat) (get : dns_resolver_t → Nat)
    (set : dns_resolver_t → dns_resolver_t) (hset : ∀ r, get r = NULL → set r = r)
    (w : World) (u : Unit) (w' : World)
    (h : DNS_FREE_PTR (get <$> load_resolver p) (store_resolver p set) free w = .ok (u, w')) :
    ∃ r, w.resolver? p = some r ∧ w'.resolver? p = some (set r) := by
  simp only [DNS_FREE_PTR, bind_ok, map_ok] at h
  obtain ⟨q, w₁, ⟨r, hr, rfl⟩, h⟩ := h
  obtain ⟨hw₁, _, hr⟩ := load_resolver_ok _ _ _ _ hr
  subst hw₁
  split at h
  · simp only [bind_ok] at h
    obtain ⟨u₁, w₂, hf, hst⟩ := h
    obtain ⟨r₂, hr₂, hr'⟩ := store_resolver_inv _ _ _ _ _ hst
    have := (free_released _ _ _ _ hf).resolver? hr₂
    rw [hr] at this
    cases this
    exact ⟨r, hr, hr'⟩
  · rename_i hq
    rw [pure_ok] at h
    obtain ⟨_, rfl⟩ := h
    refine ⟨r, hr, ?_⟩
    rw [hset r (by simpa using hq)]
    exact hr

theorem DNS_FREE_LIST_resolver (p : Nat) (get : dns_resolver_t → Nat)
    (cnt : dns_resolver_t → Int)
    (set : dns_resolver_t → dns_resolver_t) (hset : ∀ r, get r = NULL → set r = r)
    (w : World) (u : Unit) (w' : World)
    (h : DNS_FREE_LIST (get <$> load_resolver p) (cnt <$> load_resolver p)
      (store_resolver p set) free w = .ok (u, w')) :
    ∃ r, w.resolver? p = some r ∧ w'.resolver? p = some (set r) := by
  simp only [DNS_FREE_LIST, bind_ok, map_ok] at h
  obtain ⟨q, w₁, ⟨r, hr, rfl⟩, h⟩ := h
  obtain ⟨hw₁, _, hr⟩ := load_resolver_ok _ _ _ _ hr
  subst hw₁
  split at h
  · simp only [bind_ok, map_ok] at h
    obtain ⟨n, w₂, ⟨r₁, hr₁, _⟩, u₁, w₃, hloop, q₂, w₄, ⟨r₂, hr₂, _⟩, u₂, w₅, hf, hst⟩ := h
    obtain ⟨hw₂, _, _⟩ := load_resolver_ok _ _ _ _ hr₁
    subst hw₂
    obtain ⟨hw₄, _, _⟩ := load_resolver_ok _ _ _ _ hr₂
    subst hw₄
    obtain ⟨r₃, hr₃, hr'⟩ := store_resolver_inv _ _ _ _ _ hst
    have := ((DNS_FREE_LIST_loop_released _ _ _ _ _ _ _ hloop).chain
      (free_released _ _ _ _ hf)).resolver? hr₃
    rw [hr] at this
    cases this
    exact ⟨r, hr, hr'⟩
  · rename_i hq
    rw [pure_ok] at h
    obtain ⟨_, rfl⟩ := h
    refine ⟨r, hr, ?_⟩
    rw [hset r (by simpa using hq)]
    exact hr

theorem dns_resolver_free_all_null (p : Nat) (w : World) (r : dns_resolver_t)
    (hp : p ≠ NULL) (hr : w.resolver? p = some r) (h₁ : r.domain = NULL)
    (h₂ : r.nameserver = NULL) (h₃ : r.search = NULL) (h₄ : r.sortaddr = NULL)
    (h₅ : r.options = NULL) : dns_resolver_free p w = .ok ((), w) := by
  have hl := load_resolver_eq hp hr
  have hn : ∀ g : dns_resolver_t → Nat, g r = NULL →
      (g <$> load_resolver p) w = .ok (NULL, w) := by
    intro g hg
    rw [map_eq_of_ok _ _ _ _ _ hl, hg]
  unfold dns_resolver_free
  rw [if_pos hp,
    bind_eq_of_ok _ _ _ _ _ (DNS_FREE_PTR_skip _ _ _ _ (hn _ h₁)),
    bind_eq_of_ok _ _ _ _ _ (DNS_FREE_LIST_skip _ _ _ _ _ (hn _ h₂)),
    bind_eq_of_ok _ _ _ _ _ (DNS_FREE_LIST_skip _ _ _ _ _ (hn _ h₃)),
    bind_eq_of_ok _ _ _ _ _ (DNS_FREE_LIST_skip _ _ _ _ _ (hn _ h₄))]
  exact DNS_FREE_PTR_skip _ _ _ _ (hn _ h₅)

theorem load_slot_eq {w : World} {l i e : Nat} {ps : List Nat} (hl : l ≠ NULL)
    (h : w.slots? l = some ps) (he : ps.get? i = some e) : load_slot l i w = .ok (e, w) := by
  obtain ⟨b, hb, hlive, ho⟩ := slots?_heap h
  have hd : deref l w = .ok (b, w) := (deref_ok l w b w).2 ⟨hl, hb, hlive, rfl⟩
  unfold load_slot
  rw [bind_eq_of_ok _ _ _ _ _ hd]
  simp only [ho, he]
  rfl

theorem free_eq {w : World} {p : Nat} {b : Block} (hp : p ≠ NULL) (hb : w.heap p = some b)
    (hl : b.live = true) :
    free p w = .ok ((), (w.put p { b with live := false }).log (.free p)) := by
  unfold free
  simp [hp, hb, hl]

theorem store_resolver_eq {w : World} {p : Nat} {r : dns_resolver_t} (hp : p ≠ NULL)
    (h : w.resolver? p = some r) (f : dns_resolver_t → dns_resolver_t) :
    ∃ w', store_resolver p f w = .ok ((), w') ∧ w'.resolver? p = some (f r) ∧
      w'.trace = w.trace := by
  obtain ⟨b, hb, hl, ho⟩ := resolver?_heap h
  have hd : deref p w = .ok (b, w) := (deref_ok p w b w).2 ⟨hp, hb, hl, rfl⟩
  refine ⟨w.put p { b with obj := .resolver (f r) }, ?_, ?_, rfl⟩
  · unfold store_resolver
    rw [bind_eq_of_ok _ _ _ _ _ hd]
    simp only [ho]
    rfl
  · simp [World.resolver?, World.obj?, World.put, hl]

theorem freed_log_free (w : World) (p : Nat) (b : Block) :
    ((w.put p b).log (.free p)).freed = w.freed ++ [p] := by
  simp [World.freed, World.log, World.put]

theorem freed_congr {w w' : World} (h : w'.trace = w.trace) : w'.freed = w.freed := by
  simp [World.freed, h]

theorem DNS_FREE_LIST_loop_frees (item : Nat) (get : dns_resolver_t → Nat)
    (r : dns_resolver_t) (hi : item ≠ NULL) (hg : get r ≠ NULL) :
    ∀ (rest pre : List Nat) (w : World),
      w.resolver? item = some r → w.slots? (get r) = some (pre ++ rest) →
      (∀ q ∈ rest, q ≠ NULL →
        q ≠ item ∧ q ≠ get r ∧ ∃ b, w.heap q = some b ∧ b.live = true) →
      (rest.filter (· ≠ NULL)).Nodup →
      ∃ w', DNS_FREE_LIST_loop (get <$> load_resolver item) free rest.length pre.length w
          = .ok ((), w') ∧
        w'.freed = w.freed ++ rest.filter (· ≠ NULL) ∧
        ∀ q, q ∉ rest.filter (· ≠ NULL) → w'.heap q = w.heap q := by
  intro rest
  induction rest with
  | nil =>
    intro pre w _ _ _ _
    exact ⟨w, rfl, by simp, fun _ _ => rfl⟩
  | cons e rest ih =>
    intro pre w hr hs hel hnd
    have hname : (get <$> load_resolver item) w = .ok (get r, w) :=
      map_eq_of_ok _ _ _ _ _ (load_resolver_eq hi hr)
    have hget : (pre ++ e :: rest).get? pre.length = some e := by
      rw [List.get?_eq_getElem?, List.getElem?_append_right (le_refl _)]
      simp
    have hslot := load_slot_eq hg hs hget
    have hs' : w.slots? (get r) = some ((pre ++ [e]) ++ rest) := by
      rw [hs, List.append_assoc]
      rfl
    have hlen : (pre ++ [e]).length = pre.length + 1 := by simp
    by_cases he : e = NULL
    · subst he
      have hnd' : (rest.filter (· ≠ NULL)).Nodup := by simpa using hnd
      obtain ⟨w', hrun, hfreed, hframe⟩ := ih (pre ++ [NULL]) w hr hs'
        (fun q hq => hel q (List.mem_cons_of_mem _ hq)) hnd'
      refine ⟨w', ?_, by simpa using hfreed, fun q hq => hframe q (by simpa using hq)⟩
      rw [List.length_cons, DNS_FREE_LIST_loop_skip _ _ _ _ _ _ hname hslot (free_null w),
        ← hlen]
      exact hrun
    · obtain ⟨hei, heg, b, hb, hlive⟩ := hel e (List.mem_cons_self _ _) he
      have hfilter : (e :: rest).filter (· ≠ NULL) = e :: rest.filter (· ≠ NULL) := by
        simp [he]
      rw [hfilter] at hnd
      obtain ⟨hnotin, hnd'⟩ := List.nodup_cons.1 hnd
      have hfree := free_eq he hb hlive
      have hheap : ∀ q, q ≠ e →
          ((w.put e { b with live := false }).log (.free e)).heap q = w.heap q := by
        intro q hq
        show (if q = e then _ else w.heap q) = w.heap q
        rw [if_neg hq]
      obtain ⟨w', hrun, hfreed, hframe⟩ := ih (pre ++ [e])
        ((w.put e { b with live := false }).log (.free e))
        (by rw [resolver?_congr (hheap item (Ne.symm hei)), hr])
        (by rw [slots?_congr (hheap (get r) (Ne.symm heg)), hs'])
        (fun q hq hqn => by
          obtain ⟨h₁, h₂, b', hb', hl'⟩ := hel q (List.mem_cons_of_mem _ hq) hqn
          have hqe : q ≠ e := by
            rintro rfl
            exact hnotin (List.mem_filter.2 ⟨hq, by simpa using hqn⟩)
          exact ⟨h₁, h₂, b', by rw [hheap q hqe, hb'], hl'⟩)
        hnd'
      refine ⟨w', ?_, ?_, ?_⟩
      · rw [List.length_cons, DNS_FREE_LIST_loop, bind_eq_of_ok _ _ _ _ _ hname,
          bind_eq_of_ok _ _ _ _ _ hslot, bind_eq_of_ok _ _ _ _ _ hfree, ← hlen]
        exact hrun
      · rw [hfreed, freed_log_free, hfilter, List.append_assoc]
        rfl
      · intro q hq
        rw [hfilter] at hq
        have hqe : q ≠ e := fun h => hq (h ▸ List.mem_cons_self _ _)
        rw [hframe q (fun h => hq (List.mem_cons_of_mem _ h)), hheap q hqe]

theorem DNS_FREE_LIST_frees (item : Nat) (get : dns_resolver_t → Nat)
    (cnt : dns_resolver_t → Int) (set : dns_resolver_t → dns_resolver_t)
    (w : World) (r : dns_resolver_t) (ps : List Nat)
    (hi : item ≠ NULL) (hr : w.resolver? item = some r) (hg : get r ≠ NULL)
    (hgi : get r ≠ item) (hs : w.slots? (get r) = some ps) (hc : cnt r = ps.length)
    (hel : ∀ q ∈ ps, q ≠ NULL →
      q ≠ item ∧ q ≠ get r ∧ ∃ b, w.heap q = some b ∧ b.live = true)
    (hnd : (ps.filter (· ≠ NULL)).Nodup) :
    ∃ w', DNS_FREE_LIST (get <$> load_resolver item) (cnt <$> load_resolver item)
        (store_resolver item set) free w = .ok ((), w') ∧
      w'.freed = w.freed ++ ps.filter (· ≠ NULL) ++ [get r] ∧
      w'.resolver? item = some (set r) := by
  have hl := load_resolver_eq hi hr
  obtain ⟨w₁, hloop, hfreed, hframe⟩ :=
    DNS_FREE_LIST_loop_frees item get r hi hg ps [] w hr (by simpa using hs) hel hnd
  have hitem : item ∉ ps.filter (· ≠ NULL) := by
    intro hmem
    obtain ⟨hin, hne⟩ := List.mem_filter.1 hmem
    exact (hel item hin (by simpa using hne)).1 rfl
  have hlist : get r ∉ ps.filter (· ≠ NULL) := by
    intro hmem
    obtain ⟨hin, hne⟩ := List.mem_filter.1 hmem
    exact (hel (get r) hin (by simpa using hne)).2.1 rfl
  have hr₁ : w₁.resolver? item = some r := by
    rw [resolver?_congr (hframe item hitem), hr]
  obtain ⟨b, hb, hlive, _⟩ := slots?_heap hs
  have hb₁ : w₁.heap (get r) = some b := by rw [hframe _ hlist, hb]
  have hfree := free_eq hg hb₁ hlive
  have hr₂ : ((w₁.put (get r) { b with live := false }).log (.free (get r))).resolver? item
      = some r := by
    rw [← hr₁]
    apply resolver?_congr
    show (if item = get r then _ else w₁.heap item) = w₁.heap item
    rw [if_neg (Ne.symm hgi)]
  obtain ⟨w₂, hst, hr₃, htr⟩ := store_resolver_eq hi hr₂ set
  refine ⟨w₂, ?_, ?_, hr₃⟩
  · unfold DNS_FREE_LIST
    rw [bind_eq_of_ok _ _ _ _ _ (map_eq_of_ok get _ _ _ _ hl), if_pos hg,
      bind_eq_of_ok _ _ _ _ _ (map_eq_of_ok cnt _ _ _ _ hl), hc, Int.toNat_ofNat]
    have hloop' : DNS_FREE_LIST_loop (get <$> load_resolver item) free ps.length 0 w
        = .ok ((), w₁) := hloop
    rw [bind_eq_of_ok _ _ _ _ _ hloop',
      bind_eq_of_ok _ _ _ _ _ (map_eq_of_ok get _ _ _ _ (load_resolver_eq hi hr₁)),
      bind_eq_of_ok _ _ _ _ _ hfree]
    exact hst
  · rw [freed_congr htr, freed_log_free, hfreed]

/-! ## Lemmas: what the release engine frees -/

theorem mem_ptrFrees {p q : Nat} (h : q ∈ ptrFrees p) : q = p ∧ p ≠ NULL := by
  unfold ptrFrees at h
  split at h
  · cases h
  · rename_i hp
    exact ⟨List.mem_singleton.1 h, hp⟩

theorem live_heap {w : World} {p : Nat} (h : w.live p = true) :
    ∃ b, w.heap p = some b ∧ b.live = true := by
  unfold World.live at h
  split at h
  · rename_i b hb
    exact ⟨b, hb, h⟩
  · cases h

theorem live_congr {w w' : World} {p : Nat} (h : w'.heap p = w.heap p) :
    w'.live p = w.live p := by
  simp [World.live, h]

theorem listFrees_congr {w w' : World} {l : Nat} (h : l ≠ NULL → w'.heap l = w.heap l) :
    listFrees w' l = listFrees w l := by
  by_cases hl : l = NULL
  · simp [listFrees, hl]
  · simp [listFrees, hl, slots?_congr (h hl)]

theorem listOk_congr {w w' : World} {l : Nat} (n : Int)
    (h : l ≠ NULL → w'.heap l = w.heap l) : listOk w' l n = listOk w l n := by
  by_cases hl : l = NULL
  · simp [listOk, hl]
  · simp [listOk, hl, slots?_congr (h hl)]

theorem self_mem_listFrees (w : World) {l : Nat} (hl : l ≠ NULL) : l ∈ listFrees w l := by
  unfold listFrees
  rw [if_neg hl]
  split <;> simp

theorem store_resolver_frame {w : World} {p : Nat} {r : dns_resolver_t} (hp : p ≠ NULL)
    (h : w.resolver? p = some r) (f : dns_resolver_t → dns_resolver_t) :
    ∃ w', store_resolver p f w = .ok ((), w') ∧ w'.resolver? p = some (f r) ∧
      w'.trace = w.trace ∧ ∀ q, q ≠ p → w'.heap q = w.heap q := by
  obtain ⟨b, hb, hl, ho⟩ := resolver?_heap h
  have hd : deref p w = .ok (b, w) := (deref_ok p w b w).2 ⟨hp, hb, hl, rfl⟩
  refine ⟨w.put p { b with obj := .resolver (f r) }, ?_, ?_, rfl, ?_⟩
  · unfold store_resolver
    rw [bind_eq_of_ok _ _ _ _ _ hd]
    simp only [ho]
    rfl
  · simp [World.resolver?, World.obj?, World.put, hl]
  · intro q hq
    show (if q = p then _ else w.heap q) = w.heap q
    rw [if_neg hq]

theorem free_frame {w : World} {p : Nat} (hp : p ≠ NULL) (hl : w.live p = true) :
    ∃ w', free p w = .ok ((), w') ∧ w'.freed = w.freed ++ [p] ∧
      ∀ q, q ≠ p → w'.heap q = w.heap q := by
  obtain ⟨b, hb, hbl⟩ := live_heap hl
  refine ⟨_, free_eq hp hb hbl, freed_log_free _ _ _, ?_⟩
  intro q hq
  show (if q = p then _ else w.heap q) = w.heap q
  rw [if_neg hq]

theorem DNS_FREE_PTR_releases (item : Nat) (get : dns_resolver_t → Nat)
    (set : dns_resolver_t → dns_resolver_t) (hset : ∀ r, get r = NULL → set r = r)
    (w0 w : World) (r : dns_resolver_t) (hi : item ≠ NULL) (hr : w.resolver? item = some r)
    (hag : ∀ q ∈ ptrFrees (get r), w.heap q = w0.heap q)
    (hel : ∀ q ∈ ptrFrees (get r), q ≠ item ∧ w0.live q = true) :
    ∃ w', DNS_FREE_PTR (get <$> load_resolver item) (store_resolver item set) free w
        = .ok ((), w') ∧
      w'.freed = w.freed ++ ptrFrees (get r) ∧ w'.resolver? item = some (set r) ∧
      ∀ q, q ∉ ptrFrees (get r) → q ≠ item → w'.heap q = w.heap q := by
  have hname : (get <$> load_resolver item) w = .ok (get r, w) :=
    map_eq_of_ok _ _ _ _ _ (load_resolver_eq hi hr)
  by_cases hg : get r = NULL
  · refine ⟨w, ?_, ?_, ?_, fun _ _ _ => rfl⟩
    · rw [hg] at hname
      exact DNS_FREE_PTR_skip _ _ _ _ hname
    · simp [ptrFrees, hg]
    · rw [hset r hg]
      exact hr
  · have hF : ptrFrees (get r) = [get r] := by simp [ptrFrees, hg]
    have hmem : get r ∈ ptrFrees (get r) := by
      rw [hF]
      exact List.mem_singleton_self _
    obtain ⟨hne, hlive⟩ := hel (get r) hmem
    have hlive' : w.live (get r) = true := by rw [live_congr (hag _ hmem), hlive]
    obtain ⟨w₁, hfree, hfreed, hheap⟩ := free_frame hg hlive'
    have hr₁ : w₁.resolver? item = some r := by
      rw [resolver?_congr (hheap item (Ne.symm hne)), hr]
    obtain ⟨w₂, hst, hr₂, htr, hfr⟩ := store_resolver_frame hi hr₁ set
    refine ⟨w₂, ?_, ?_, hr₂, ?_⟩
    · unfold DNS_FREE_PTR
      rw [bind_eq_of_ok _ _ _ _ _ hname, if_pos hg, bind_eq_of_ok _ _ _ _ _ hfree]
      exact hst
    · rw [freed_congr htr, hfreed, hF]
    · intro q hq hqi
      rw [hF] at hq
      rw [hfr q hqi, hheap q (fun h => hq (h ▸ List.mem_singleton_self _))]

theorem DNS_FREE_LIST_releases (item : Nat) (get : dns_resolver_t → Nat)
    (cnt : dns_resolver_t → Int) (set : dns_resolver_t → dns_resolver_t)
    (hset : ∀ r, get r = NULL → set r = r)
    (w0 w : World) (r : dns_resolver_t) (hi : item ≠ NULL) (hr : w.resolver? item = some r)
    (hag : ∀ q ∈ listFrees w0 (get r), w.heap q = w0.heap q)
    (hok : listOk w0 (get r) (cnt r) = true)
    (hel : ∀ q ∈ listFrees w0 (get r), q ≠ item ∧ w0.live q = true)
    (hnd : (listFrees w0 (get r)).Nodup) :
    ∃ w', DNS_FREE_LIST (get <$> load_resolver item) (cnt <$> load_resolver item)
        (store_resolver item set) free w = .ok ((), w') ∧
      w'.freed = w.freed ++ listFrees w0 (get r) ∧ w'.resolver? item = some (set r) ∧
      ∀ q, q ∉ listFrees w0 (get r) → q ≠ item → w'.heap q = w.heap q := by
  have hl := load_resolver_eq hi hr
  by_cases hg : get r = NULL
  · refine ⟨w, ?_, ?_, ?_, fun _ _ _ => rfl⟩
    · have hname := map_eq_of_ok get _ _ _ _ hl
      rw [hg] at hname
      exact DNS_FREE_LIST_skip _ _ _ _ _ hname
    · simp [listFrees, hg]
    · rw [hset r hg]
      exact hr
  · have hself := self_mem_listFrees w0 hg
    have hcongr : listFrees w (get r) = listFrees w0 (get r) :=
      listFrees_congr fun _ => hag _ hself
    have hs0 : w.slots? (get r) = w0.slots? (get r) := slots?_congr (hag _ hself)
    unfold listOk at hok
    rw [if_neg hg] at hok
    cases hs : w0.slots? (get r) with
    | none => simp [hs] at hok
    | some ps =>
      simp only [hs, decide_eq_true_eq] at hok
      rw [hs] at hs0
      have hF : listFrees w0 (get r) = ps.filter (· ≠ NULL) ++ [get r] := by
        simp [listFrees, hg, hs]
      rw [hF] at hel hnd hag ⊢
      obtain ⟨hnd₁, -, hdj⟩ := List.nodup_append.1 hnd
      have hgi : get r ≠ item := (hel (get r) (by simp)).1
      have hlist : get r ∉ ps.filter (· ≠ NULL) := fun h => hdj h (by simp)
      have helw : ∀ q ∈ ps, q ≠ NULL →
          q ≠ item ∧ q ≠ get r ∧ ∃ b, w.heap q = some b ∧ b.live = true := by
        intro q hq hqn
        have hqf : q ∈ ps.filter (· ≠ NULL) := List.mem_filter.2 ⟨hq, by simpa using hqn⟩
        have hqF : q ∈ ps.filter (· ≠ NULL) ++ [get r] := List.mem_append_left _ hqf
        obtain ⟨h₁, h₂⟩ := hel q hqF
        rw [← live_congr (hag q hqF)] at h₂
        exact ⟨h₁, fun h => hlist (h ▸ hqf), live_heap h₂⟩
      obtain ⟨w₁, hloop, hfreed, hframe⟩ :=
        DNS_FREE_LIST_loop_frees item get r hi hg ps [] w hr (by simpa using hs0) helw hnd₁
      have hitem : item ∉ ps.filter (· ≠ NULL) := by
        intro hmem
        obtain ⟨hin, hne⟩ := List.mem_filter.1 hmem
        exact (helw item hin (by simpa using hne)).1 rfl
      have hr₁ : w₁.resolver? item = some r := by
        rw [resolver?_congr (hframe item hitem), hr]
      obtain ⟨b, hb, hlive, _⟩ := slots?_heap hs0
      have hlive₁ : w₁.live (get r) = true := by
        rw [live_congr (hframe _ hlist)]
        simp [World.live, hb, hlive]
      obtain ⟨w₂, hfree, hfreed₂, hheap₂⟩ := free_frame hg hlive₁
      have hr₂ : w₂.resolver? item = some r := by
        rw [resolver?_congr (hheap₂ item (Ne.symm hgi)), hr₁]
      obtain ⟨w₃, hst, hr₃, htr, hfr⟩ := store_resolver_frame hi hr₂ set
      refine ⟨w₃, ?_, ?_, hr₃, ?_⟩
      · unfold DNS_FREE_LIST
        rw [bind_eq_of_ok _ _ _ _ _ (map_eq_of_ok get _ _ _ _ hl), if_pos hg,
          bind_eq_of_ok _ _ _ _ _ (map_eq_of_ok cnt _ _ _ _ hl), hok, Int.toNat_ofNat]
        have hloop' : DNS_FREE_LIST_loop (get <$> load_resolver item) free ps.length 0 w
            = .ok ((), w₁) := hloop
        rw [bind_eq_of_ok _ _ _ _ _ hloop',
          bind_eq_of_ok _ _ _ _ _ (map_eq_of_ok get _ _ _ _ (load_resolver_eq hi hr₁)),
          bind_eq_of_ok _ _ _ _ _ hfree]
        exact hst
      · rw [freed_congr htr, hfreed₂, hfreed, List.append_assoc]
      · intro q hq hqi
        have hq₁ : q ∉ ps.filter (· ≠ NULL) := fun h => hq (List.mem_append_left _ h)
        have hq₂ : q ≠ get r := fun h => hq (by simp [h])
        rw [hfr q hqi, hheap₂ q hq₂, hframe q hq₁]

theorem dns_resolver_free_releases (w : World) (q : Nat) (r : dns_resolver_t) (hq : q ≠ NULL)
    (hr : w.resolver? q = some r) (hok : recordOk w r = true)
    (hel : ∀ p ∈ recordFrees w r, p ≠ q ∧ w.live p = true)
    (hnd : (recordFrees w r).Nodup) :
    ∃ w', dns_resolver_free q w = .ok ((), w') ∧ w'.freed = w.freed ++ recordFrees w r ∧
      w'.resolver? q = some r.released ∧
      ∀ p, p ∉ recordFrees w r → p ≠ q → w'.heap p = w.heap p := by
  unfold recordOk at hok
  simp only [Bool.and_eq_true] at hok
  obtain ⟨⟨ok₂, ok₃⟩, ok₄⟩ := hok
  have hF : recordFrees w r = ptrFrees r.domain ++ (listFrees w r.nameserver ++
      (listFrees w r.search ++ (listFrees w r.sortaddr ++ ptrFrees r.options))) := rfl
  rw [hF] at hel hnd ⊢
  obtain ⟨-, n₂, d₁⟩ := List.nodup_append.1 hnd
  obtain ⟨nd₂, n₃, d₂⟩ := List.nodup_append.1 n₂
  obtain ⟨nd₃, n₄, d₃⟩ := List.nodup_append.1 n₃
  obtain ⟨nd₄, -, d₄⟩ := List.nodup_append.1 n₄
  have e₁ : ∀ p ∈ ptrFrees r.domain, p ≠ q ∧ w.live p = true :=
    fun p hp => hel p (by simp [hp])
  have e₂ : ∀ p ∈ listFrees w r.nameserver, p ≠ q ∧ w.live p = true :=
    fun p hp => hel p (by simp [hp])
  have e₃ : ∀ p ∈ listFrees w r.search, p ≠ q ∧ w.live p = true :=
    fun p hp => hel p (by simp [hp])
  have e₄ : ∀ p ∈ listFrees w r.sortaddr, p ≠ q ∧ w.live p = true :=
    fun p hp => hel p (by simp [hp])
  have e₅ : ∀ p ∈ ptrFrees r.options, p ≠ q ∧ w.live p = true :=
    fun p hp => hel p (by simp [hp])
  obtain ⟨w₁, run₁, fr₁, r₁, f₁⟩ := DNS_FREE_PTR_releases q (·.domain)
    (fun r => { r with domain := NULL })
    (fun r hr => by cases r; simp only at hr; subst hr; rfl) w w r hq hr
    (fun _ _ => rfl) e₁
  have a₂ : ∀ p ∈ listFrees w r.nameserver, w₁.heap p = w.heap p := fun p hp =>
    f₁ p (fun h => d₁ h (by simp [hp])) (e₂ p hp).1
  obtain ⟨w₂, run₂, fr₂, r₂, f₂⟩ := DNS_FREE_LIST_releases q (·.nameserver) (·.n_nameserver)
    (fun r => { r with nameserver := NULL })
    (fun r hr => by cases r; simp only at hr; subst hr; rfl) w w₁ _ hq r₁
    a₂ ok₂ e₂ nd₂
  have a₃ : ∀ p ∈ listFrees w r.search, w₂.heap p = w.heap p := fun p hp => by
    rw [f₂ p (fun h => d₂ h (by simp [hp])) (e₃ p hp).1,
      f₁ p (fun h => d₁ h (by simp [hp])) (e₃ p hp).1]
  obtain ⟨w₃, run₃, fr₃, r₃, f₃⟩ := DNS_FREE_LIST_releases q (·.search) (·.n_search)
    (fun r => { r with search := NULL })
    (fun r hr => by cases r; simp only at hr; subst hr; rfl) w w₂ _ hq r₂
    a₃ ok₃ e₃ nd₃
  have a₄ : ∀ p ∈ listFrees w r.sortaddr, w₃.heap p = w.heap p := fun p hp => by
    rw [f₃ p (fun h => d₃ h (by simp [hp])) (e₄ p hp).1,
      f₂ p (fun h => d₂ h (by simp [hp])) (e₄ p hp).1,
      f₁ p (fun h => d₁ h (by simp [hp])) (e₄ p hp).1]
  obtain ⟨w₄, run₄, fr₄, r₄, f₄⟩ := DNS_FREE_LIST_releases q (·.sortaddr) (·.n_sortaddr)
    (fun r => { r with sortaddr := NULL })
    (fun r hr => by cases r; simp only at hr; subst hr; rfl) w w₃ _ hq r₃
    a₄ ok₄ e₄ nd₄
  have a₅ : ∀ p ∈ ptrFrees r.options, w₄.heap p = w.heap p := fun p hp => by
    rw [f₄ p (fun h => d₄ h hp) (e₅ p hp).1,
      f₃ p (fun h => d₃ h (by simp [hp])) (e₅ p hp).1,
      f₂ p (fun h => d₂ h (by simp [hp])) (e₅ p hp).1,
      f₁ p (fun h => d₁ h (by simp [hp])) (e₅ p hp).1]
  obtain ⟨w₅, run₅, fr₅, r₅, f₅⟩ := DNS_FREE_PTR_releases q (·.options)
    (fun r => { r with options := NULL })
    (fun r hr => by cases r; simp only at hr; subst hr; rfl) w w₄ _ hq r₄
    a₅ e₅
  refine ⟨w₅, ?_, ?_, r₅, ?_⟩
  · unfold dns_resolver_free
    rw [if_pos hq, bind_eq_of_ok _ _ _ _ _ run₁, bind_eq_of_ok _ _ _ _ _ run₂,
      bind_eq_of_ok _ _ _ _ _ run₃, bind_eq_of_ok _ _ _ _ _ run₄]
    exact run₅
  · rw [fr₅, fr₄, fr₃, fr₂, fr₁]
    simp only [List.append_assoc]
  · intro p hp hpq
    simp only [List.mem_append, not_or] at hp
    obtain ⟨p₁, p₂, p₃, p₄, p₅⟩ := hp
    rw [f₅ p p₅ hpq, f₄ p p₄ hpq, f₃ p p₃ hpq, f₂ p p₂ hpq, f₁ p p₁ hpq]

theorem mem_listFrees_ne_null {w : World} {l p : Nat} (h : p ∈ listFrees w l) : p ≠ NULL := by
  unfold listFrees at h
  split at h
  · cases h
  · rename_i hl
    split at h
    · rcases List.mem_append.1 h with h | h
      · simpa using (List.mem_filter.1 h).2
      · rw [List.mem_singleton.1 h]
        exact hl
    · rw [List.mem_singleton.1 h]
      exact hl

theorem mem_recordFrees_ne_null {w : World} {r : dns_resolver_t} {p : Nat}
    (h : p ∈ recordFrees w r) : p ≠ NULL := by
  unfold recordFrees at h
  simp only [List.mem_append] at h
  rcases h with h | h | h | h | h
  · obtain ⟨rfl, hp⟩ := mem_ptrFrees h
    exact hp
  · exact mem_listFrees_ne_null h
  · exact mem_listFrees_ne_null h
  · exact mem_listFrees_ne_null h
  · obtain ⟨rfl, hp⟩ := mem_ptrFrees h
    exact hp

theorem recordFrees_congr {w w' : World} {r : dns_resolver_t}
    (h : ∀ p ∈ recordFrees w r, w'.heap p = w.heap p) :
    recordFrees w' r = recordFrees w r ∧ recordOk w' r = recordOk w r := by
  have h₂ : r.nameserver ≠ NULL → w'.heap r.nameserver = w.heap r.nameserver := fun hl =>
    h _ (by simp [recordFrees, self_mem_listFrees w hl])
  have h₃ : r.search ≠ NULL → w'.heap r.search = w.heap r.search := fun hl =>
    h _ (by simp [recordFrees, self_mem_listFrees w hl])
  have h₄ : r.sortaddr ≠ NULL → w'.heap r.sortaddr = w.heap r.sortaddr := fun hl =>
    h _ (by simp [recordFrees, self_mem_listFrees w hl])
  constructor
  · unfold recordFrees
    rw [listFrees_congr h₂, listFrees_congr h₃, listFrees_congr h₄]
  · unfold recordOk
    rw [listOk_congr _ h₂, listOk_congr _ h₃, listOk_congr _ h₄]

theorem resolverFrees_congr {w w' : World} {q : Nat}
    (hq : q ≠ NULL → w'.heap q = w.heap q)
    (h : ∀ p ∈ resolverFrees w q, w'.heap p = w.heap p) :
    resolverFrees w' q = resolverFrees w q ∧ resolverOk w' q = resolverOk w q := by
  by_cases hn : q = NULL
  · simp [resolverFrees, resolverOk, hn]
  · have hr := resolver?_congr (hq hn)
    unfold resolverFrees resolverOk at *
    rw [if_neg hn] at h ⊢
    rw [if_neg hn, if_neg hn, if_neg hn, hr]
    cases hw : w.resolver? q with
    | none => exact ⟨rfl, rfl⟩
    | some r =>
      rw [hw] at h
      exact recordFrees_congr h

theorem flatMap_congr_mem {α β : Type} {f g : α → List β} :
    ∀ {l : List α}, (∀ a ∈ l, f a = g a) → l.flatMap f = l.flatMap g := by
  intro l
  induction l with
  | nil => intro _; rfl
  | cons a l ih =>
    intro h
    rw [List.flatMap_cons, List.flatMap_cons, h a (List.mem_cons_self _ _),
      ih fun b hb => h b (List.mem_cons_of_mem _ hb)]

theorem load_config_eq {w : World} {p : Nat} {c : dns_config_t} (hp : p ≠ NULL)
    (h : w.config? p = some c) : load_config p w = .ok (c, w) := by
  obtain ⟨b, hb, hl, ho⟩ := config?_heap h
  have hd : deref p w = .ok (b, w) := (deref_ok p w b w).2 ⟨hp, hb, hl, rfl⟩
  unfold load_config
  rw [bind_eq_of_ok _ _ _ _ _ hd]
  simp only [ho]
  rfl

theorem store_config_frame {w : World} {p : Nat} {c : dns_config_t} (hp : p ≠ NULL)
    (h : w.config? p = some c) (f : dns_config_t → dns_config_t) :
    ∃ w', store_config p f w = .ok ((), w') ∧ w'.config? p = some (f c) ∧
      w'.trace = w.trace ∧ ∀ q, q ≠ p → w'.heap q = w.heap q := by
  obtain ⟨b, hb, hl, ho⟩ := config?_heap h
  have hd : deref p w = .ok (b, w) := (deref_ok p w b w).2 ⟨hp, hb, hl, rfl⟩
  refine ⟨w.put p { b with obj := .config (f c) }, ?_, ?_, rfl, ?_⟩
  · unfold store_config
    rw [bind_eq_of_ok _ _ _ _ _ hd]
    simp only [ho]
    rfl
  · simp [World.config?, World.obj?, World.put, hl]
  · intro q hq
    show (if q = p then _ else w.heap q) = w.heap q
    rw [if_neg hq]

theorem config?_live {w : World} {p : Nat} {c : dns_config_t} (h : w.config? p = some c) :
    w.live p = true := by
  obtain ⟨b, hb, hl, _⟩ := config?_heap h
  simp [World.live, hb, hl]

theorem slots?_live {w : World} {p : Nat} {ps : List Nat} (h : w.slots? p = some ps) :
    w.live p = true := by
  obtain ⟨b, hb, hl, _⟩ := slots?_heap h
  simp [World.live, hb, hl]

theorem DNS_FREE_LIST_loop_resolvers (c : Nat) (cfg : dns_config_t) (hc : c ≠ NULL)
    (hl : cfg.resolver ≠ NULL) :
    ∀ (rest pre : List Nat) (w : World),
      w.config? c = some cfg → w.slots? cfg.resolver = some (pre ++ rest) →
      (∀ q ∈ rest, resolverOk w q = true) →
      (rest.filter (· ≠ NULL)).Nodup →
      (∀ q ∈ rest, q ≠ NULL → q ∉ rest.flatMap (resolverFrees w) ++ [cfg.resolver, c]) →
      (∀ p ∈ rest.flatMap (resolverFrees w), w.live p = true) →
      (rest.flatMap (resolverFrees w) ++ [cfg.resolver, c]).Nodup →
      ∃ w', DNS_FREE_LIST_loop ((·.resolver) <$> load_config c) dns_resolver_free
          rest.length pre.length w = .ok ((), w') ∧
        w'.freed = w.freed ++ rest.flatMap (resolverFrees w) ∧
        (∀ q ∈ rest, q ≠ NULL →
          ∃ r, w.resolver? q = some r ∧ w'.resolver? q = some r.released) ∧
        ∀ p, p ∉ rest.flatMap (resolverFrees w) → p ∉ rest → w'.heap p = w.heap p := by
  intro rest
  induction rest with
  | nil =>
    intro pre w _ _ _ _ _ _ _
    exact ⟨w, rfl, by simp, fun _ h => absurd h (List.not_mem_nil _), fun _ _ _ => rfl⟩
  | cons e rest ih =>
    intro pre w hcfg hs hrec hdist hsep hlive hnd
    have hname : ((·.resolver) <$> load_config c) w = .ok (cfg.resolver, w) :=
      map_eq_of_ok _ _ _ _ _ (load_config_eq hc hcfg)
    have hget : (pre ++ e :: rest).get? pre.length = some e := by
      rw [List.get?_eq_getElem?, List.getElem?_append_right (le_refl _)]
      simp
    have hslot := load_slot_eq hl hs hget
    have hs' : w.slots? cfg.resolver = some ((pre ++ [e]) ++ rest) := by
      rw [hs, List.append_assoc]
      rfl
    have hlen : (pre ++ [e]).length = pre.length + 1 := by simp
    rw [List.flatMap_cons] at hsep hlive hnd ⊢
    by_cases he : e = NULL
    · subst he
      have hnil : resolverFrees w NULL = [] := by simp [resolverFrees]
      rw [hnil, List.nil_append] at hsep hlive hnd ⊢
      obtain ⟨w', hrun, hfreed, hrel, hframe⟩ := ih (pre ++ [NULL]) w hcfg hs'
        (fun q hq => hrec q (List.mem_cons_of_mem _ hq)) (by simpa using hdist)
        (fun q hq => hsep q (List.mem_cons_of_mem _ hq)) hlive hnd
      refine ⟨w', ?_, hfreed, ?_, fun p hp hpr => hframe p hp
        (fun h => hpr (List.mem_cons_of_mem _ h))⟩
      · rw [List.length_cons,
          DNS_FREE_LIST_loop_skip _ _ _ _ _ _ hname hslot (dns_resolver_free_null w), ← hlen]
        exact hrun
      · intro q hq hqn
        rcases List.mem_cons.1 hq with h | h
        · exact absurd h hqn
        · exact hrel q h hqn
    · have hok := hrec e (List.mem_cons_self _ _)
      unfold resolverOk at hok
      rw [if_neg he] at hok
      cases hr : w.resolver? e with
      | none => simp [hr] at hok
      | some r =>
        simp only [hr] at hok
        have hFe : resolverFrees w e = recordFrees w r := by simp [resolverFrees, he, hr]
        rw [hFe] at hsep hlive hnd ⊢
        have hfilter : (e :: rest).filter (· ≠ NULL) = e :: rest.filter (· ≠ NULL) := by
          simp [he]
        rw [hfilter] at hdist
        obtain ⟨hnotin, hdist'⟩ := List.nodup_cons.1 hdist
        rw [List.append_assoc] at hnd
        obtain ⟨ndFe, ndRest, dj⟩ := List.nodup_append.1 hnd
        have hesep := hsep e (List.mem_cons_self _ _) he
        obtain ⟨w₁, hrun₁, hfreed₁, hrel₁, hframe₁⟩ := dns_resolver_free_releases w e r he hr hok
          (fun p hp => ⟨fun h => hesep (by simp [← h, hp]),
            hlive p (List.mem_append_left _ hp)⟩) ndFe
        have hne : ∀ q ∈ rest, q ≠ NULL → q ≠ e := by
          rintro q hq hqn rfl
          exact hnotin (List.mem_filter.2 ⟨hq, by simpa using hqn⟩)
        have hout : ∀ p ∈ rest.flatMap (resolverFrees w) ++ [cfg.resolver, c],
            w₁.heap p = w.heap p := fun p hp =>
          hframe₁ p (fun h => dj h hp) (fun h => hesep (by
            rw [← h]
            simp only [List.mem_append] at hp ⊢
            rcases hp with hp | hp
            · exact Or.inl (Or.inr hp)
            · exact Or.inr hp))
        have hrest : ∀ q ∈ rest, q ≠ NULL → w₁.heap q = w.heap q := fun q hq hqn =>
          hframe₁ q (fun h => hsep q (List.mem_cons_of_mem _ hq) hqn (by simp [h]))
            (hne q hq hqn)
        have hcg : ∀ q ∈ rest, resolverFrees w₁ q = resolverFrees w q ∧
            resolverOk w₁ q = resolverOk w q := fun q hq =>
          resolverFrees_congr (hrest q hq) fun p hp =>
            hout p (List.mem_append_left _ (List.mem_flatMap.2 ⟨q, hq, hp⟩))
        have hfm : rest.flatMap (resolverFrees w₁) = rest.flatMap (resolverFrees w) :=
          flatMap_congr_mem fun q hq => (hcg q hq).1
        obtain ⟨w', hrun, hfreed, hrel, hframe⟩ := ih (pre ++ [e]) w₁
          (by rw [config?_congr (hout c (by simp)), hcfg])
          (by rw [slots?_congr (hout cfg.resolver (by simp)), hs'])
          (fun q hq => by rw [(hcg q hq).2]; exact hrec q (List.mem_cons_of_mem _ hq))
          hdist'
          (fun q hq hqn => by
            rw [hfm]
            intro h
            exact hsep q (List.mem_cons_of_mem _ hq) hqn (by
              simp only [List.mem_append] at h ⊢
              rcases h with h | h
              · exact Or.inl (Or.inr h)
              · exact Or.inr h))
          (fun p hp => by
            rw [hfm] at hp
            rw [live_congr (hout p (List.mem_append_left _ hp))]
            exact hlive p (List.mem_append_right _ hp))
          (by rw [hfm]; exact ndRest)
        rw [hfm] at hfreed hframe
        refine ⟨w', ?_, ?_, ?_, ?_⟩
        · rw [List.length_cons, DNS_FREE_LIST_loop, bind_eq_of_ok _ _ _ _ _ hname,
            bind_eq_of_ok _ _ _ _ _ hslot, bind_eq_of_ok _ _ _ _ _ hrun₁, ← hlen]
          exact hrun
        · rw [hfreed, hfreed₁, List.append_assoc]
        · intro q hq hqn
          rcases List.mem_cons.1 hq with h | h
          · subst h
            refine ⟨r, hr, ?_⟩
            rw [resolver?_congr (hframe q (fun h => hesep (by simp [h])) ?_), hrel₁]
            intro h
            exact hnotin (List.mem_filter.2 ⟨h, by simpa using hqn⟩)
          · obtain ⟨r', hr', hrel'⟩ := hrel q h hqn
            rw [resolver?_congr (hrest q h hqn)] at hr'
            exact ⟨r', hr', hrel'⟩
        · intro p hp hpr
          simp only [List.mem_append, not_or] at hp
          rw [hframe p hp.2 (fun h => hpr (List.mem_cons_of_mem _ h)),
            hframe₁ p hp.1 (fun h => hpr (h ▸ List.mem_cons_self _ _))]

theorem dns_configuration_free_releases (w : World) (c : Nat) (cfg : dns_config_t)
    (rs : List Nat) (hc : c ≠ NULL) (hcfg : w.config? c = some cfg)
    (hl : cfg.resolver ≠ NULL) (hrs : w.slots? cfg.resolver = some rs)
    (hn : cfg.n_resolver = rs.length)
    (hrec : ∀ q ∈ rs, resolverOk w q = true)
    (hdist : (rs.filter (· ≠ NULL)).Nodup)
    (hsep : ∀ q ∈ rs, q ≠ NULL → q ∉ rs.flatMap (resolverFrees w) ++ [cfg.resolver, c])
    (hlive : ∀ p ∈ rs.flatMap (resolverFrees w), w.live p = true)
    (hnd : (rs.flatMap (resolverFrees w) ++ [cfg.resolver, c]).Nodup) :
    ∃ w', dns_configuration_free c w = .ok ((), w') ∧
      w'.freed = w.freed ++ (rs.flatMap (resolverFrees w) ++ [cfg.resolver, c]) ∧
      (∀ q ∈ rs, q ≠ NULL →
        ∃ r, w.resolver? q = some r ∧ w'.resolver? q = some r.released) ∧
      ∀ p, p ∉ rs.flatMap (resolverFrees w) ++ [cfg.resolver, c] → p ∉ rs →
        w'.heap p = w.heap p := by
  obtain ⟨w₁, hloop, hfreed₁, hrel₁, hframe₁⟩ :=
    DNS_FREE_LIST_loop_resolvers c cfg hc hl rs [] w hcfg (by simpa using hrs) hrec hdist hsep
      hlive hnd
  obtain ⟨-, ndlc, dj⟩ := List.nodup_append.1 hnd
  have hlc : cfg.resolver ≠ c := by
    intro h
    rw [h] at ndlc
    simp at ndlc
  have hkeep : ∀ p ∈ [cfg.resolver, c], w₁.heap p = w.heap p := by
    intro p hp
    refine hframe₁ p (fun h => dj h hp) (fun h => ?_)
    have hpn : p ≠ NULL := by
      simp only [List.mem_cons, List.mem_singleton, List.not_mem_nil, or_false] at hp
      rcases hp with rfl | rfl
      · exact hl
      · exact hc
    exact hsep p h hpn (List.mem_append_right _ hp)
  have hcfg₁ : w₁.config? c = some cfg := by
    rw [config?_congr (hkeep c (by simp)), hcfg]
  have hlive₁ : w₁.live cfg.resolver = true := by
    rw [live_congr (hkeep cfg.resolver (by simp))]
    exact slots?_live hrs
  obtain ⟨w₂, hfree₂, hfreed₂, hframe₂⟩ := free_frame hl hlive₁
  have hcfg₂ : w₂.config? c = some cfg := by
    rw [config?_congr (hframe₂ c (Ne.symm hlc)), hcfg₁]
  obtain ⟨w₃, hst, hcfg₃, htr, hframe₃⟩ :=
    store_config_frame hc hcfg₂ fun c => { c with resolver := NULL }
  obtain ⟨w₄, hfree₄, hfreed₄, hframe₄⟩ := free_frame hc (config?_live hcfg₃)
  refine ⟨w₄, ?_, ?_, ?_, ?_⟩
  · unfold dns_configuration_free
    rw [if_pos hc]
    have hlist : DNS_FREE_LIST ((·.resolver) <$> load_config c)
        ((·.n_resolver) <$> load_config c)
        (store_config c fun c => { c with resolver := NULL }) dns_resolver_free w
        = .ok ((), w₃) := by
      unfold DNS_FREE_LIST
      rw [bind_eq_of_ok _ _ _ _ _ (map_eq_of_ok _ _ _ _ _ (load_config_eq hc hcfg)),
        if_pos hl,
        bind_eq_of_ok _ _ _ _ _ (map_eq_of_ok _ _ _ _ _ (load_config_eq hc hcfg)), hn,
        Int.toNat_ofNat]
      have hloop' : DNS_FREE_LIST_loop ((·.resolver) <$> load_config c) dns_resolver_free
          rs.length 0 w = .ok ((), w₁) := hloop
      rw [bind_eq_of_ok _ _ _ _ _ hloop',
        bind_eq_of_ok _ _ _ _ _ (map_eq_of_ok _ _ _ _ _ (load_config_eq hc hcfg₁)),
        bind_eq_of_ok _ _ _ _ _ hfree₂]
      exact hst
    rw [bind_eq_of_ok _ _ _ _ _ hlist]
    exact hfree₄
  · rw [hfreed₄, freed_congr htr, hfreed₂, hfreed₁]
    simp only [List.append_assoc, List.singleton_append]
  · intro q hq hqn
    obtain ⟨r, hr, hrel⟩ := hrel₁ q hq hqn
    refine ⟨r, hr, ?_⟩
    have hqF := hsep q hq hqn
    simp only [List.mem_append, List.mem_cons, List.mem_singleton, List.not_mem_nil,
      or_false, not_or] at hqF
    rw [resolver?_congr (hframe₄ q hqF.2.2), resolver?_congr (hframe₃ q hqF.2.2),
      resolver?_congr (hframe₂ q hqF.2.1), hrel]
  · intro p hp hpr
    simp only [List.mem_append, List.mem_cons, List.mem_singleton, List.not_mem_nil,
      or_false, not_or] at hp
    rw [hframe₄ p hp.2.2, hframe₃ p hp.2.2, hframe₂ p hp.2.1, hframe₁ p hp.1 hpr]

theorem dns_configuration_free_null_list (w : World) (c : Nat) (cfg : dns_config_t)
    (hc : c ≠ NULL) (hcfg : w.config? c = some cfg) (hl : cfg.resolver = NULL) :
    ∃ w', dns_configuration_free c w = .ok ((), w') ∧ w'.freed = w.freed ++ [c] ∧
      ∀ p, p ≠ c → w'.heap p = w.heap p := by
  obtain ⟨w₁, hfree, hfreed, hframe⟩ := free_frame hc (config?_live hcfg)
  refine ⟨w₁, ?_, hfreed, hframe⟩
  unfold dns_configuration_free
  rw [if_pos hc]
  have hname : ((·.resolver) <$> load_config c) w = .ok (NULL, w) := by
    rw [map_eq_of_ok _ _ _ _ _ (load_config_eq hc hcfg), hl]
  rw [bind_eq_of_ok _ _ _ _ _ (DNS_FREE_LIST_skip _ _ _ _ _ hname)]
  exact hfree

/-! ## Lemmas: the two parts of `dns_configuration_copy`, before and after the unlock -/

theorem dns_configuration_copy_split (env : Env) :
    dns_configuration_copy env
      = (dns_configuration_copy_locked env >>= dns_configuration_copy_unlocked) := by
  simp only [dns_configuration_copy, dns_configuration_copy_locked, bind_assoc]
  congr 1
  funext _
  congr 1
  funext config
  split
  · simp only [bind_assoc, pure_bind, dns_configuration_copy_unlocked]
  · simp only [bind_assoc, pure_bind, dns_configuration_copy_unlocked]

theorem free_only_frees (p : Nat) : Appends Event.isFree (free p) := by
  intro w u w' h
  rcases free_ok _ _ _ _ h with ⟨_, rfl⟩ | ⟨_, b, _, _, rfl⟩
  · exact ⟨[], rfl, fun _ he => absurd he (List.not_mem_nil _)⟩
  · exact ⟨[.free p], rfl, fun e he => by
      rw [List.mem_singleton] at he
      subst he
      trivial⟩

theorem DNS_FREE_LIST_only_frees (name : M Nat) (n_name : M Int) (clear : M Unit)
    (method : Nat → M Unit) (hn : Appends Event.isFree name)
    (hc : Appends Event.isFree n_name) (hcl : Appends Event.isFree clear)
    (hm : ∀ p, Appends Event.isFree (method p)) :
    Appends Event.isFree (DNS_FREE_LIST name n_name clear method) := by
  unfold DNS_FREE_LIST
  refine Appends.bind hn fun p => Appends.ite ?_ (Appends.pure _)
  exact Appends.bind hc fun n => Appends.bind (DNS_FREE_LIST_loop_appends _ _ hn hm _ _) fun _ =>
    Appends.bind hn fun q => Appends.bind (free_only_frees q) fun _ => hcl

theorem dns_resolver_free_only_frees (resolver : Nat) :
    Appends Event.isFree (dns_resolver_free resolver) := by
  unfold dns_resolver_free
  refine Appends.ite ?_ (Appends.pure _)
  have hl : ∀ g : dns_resolver_t → Nat,
      Appends Event.isFree (g <$> load_resolver resolver) :=
    fun g => Appends.map g (load_resolver_appends _)
  have hi : ∀ g : dns_resolver_t → Int,
      Appends Event.isFree (g <$> load_resolver resolver) :=
    fun g => Appends.map g (load_resolver_appends _)
  have hs : ∀ f, Appends Event.isFree (store_resolver resolver f) :=
    fun f => store_resolver_appends _ f
  exact Appends.bind (DNS_FREE_PTR_appends _ _ _ (hl _) (hs _) free_only_frees) fun _ =>
    Appends.bind (DNS_FREE_LIST_only_frees _ _ _ _ (hl _) (hi _) (hs _) free_only_frees) fun _ =>
    Appends.bind (DNS_FREE_LIST_only_frees _ _ _ _ (hl _) (hi _) (hs _) free_only_frees) fun _ =>
    Appends.bind (DNS_FREE_LIST_only_frees _ _ _ _ (hl _) (hi _) (hs _) free_only_frees) fun _ =>
    DNS_FREE_PTR_appends _ _ _ (hl _) (hs _) free_only_frees

theorem dns_configuration_free_only_frees (config : Nat) :
    Appends Event.isFree (dns_configuration_free config) := by
  unfold dns_configuration_free
  refine Appends.ite ?_ (Appends.pure _)
  exact Appends.bind (DNS_FREE_LIST_only_frees _ _ _ _ (Appends.map _ (load_config_appends _))
    (Appends.map _ (load_config_appends _)) (store_config_appends _ _)
    dns_resolver_free_only_frees) fun _ => free_only_frees _

theorem dns_configuration_copy_unlocked_only_frees (r : Nat × Bool × Bool) :
    Appends Event.isFree (dns_configuration_copy_unlocked r) := by
  obtain ⟨config, success, failure⟩ := r
  unfold dns_configuration_copy_unlocked
  exact Appends.ite
    (Appends.bind (dns_configuration_free_only_frees _) fun _ => Appends.pure _)
    (Appends.pure _)

theorem dns_configuration_copy_locked_trace (env : Env) (w : World) (r : Nat × Bool × Bool)
    (w₁ : World) (h : dns_configuration_copy_locked env w = .ok (r, w₁)) :
    ∃ inside, w₁.trace = [Event.unlock] ++ inside ++ [Event.lock] ++ w.trace ∧
      ∀ e ∈ inside, e.isInside := by
  simp only [dns_configuration_copy_locked, pthread_mutex_lock, pthread_mutex_unlock, bind_ok,
    modify_ok] at h
  obtain ⟨u, w₀, hw₀, cfg, w₂, hm, h⟩ := h
  obtain ⟨n₁, e₁, p₁⟩ := malloc_appends _ _ _ _ _ _ hm
  by_cases hcn : cfg = NULL
  · simp only [hcn, if_true, bind_ok, pure_ok, modify_ok] at h
    obtain ⟨sf, w₃, ⟨_, rfl⟩, u₂, w₄, rfl, _, rfl⟩ := h
    refine ⟨n₁, ?_, fun e he => (p₁ e he).isInside⟩
    show Event.unlock :: w₂.trace = _
    rw [e₁, hw₀]
    simp [World.log]
  · simp only [hcn, if_false, bind_ok, modify_ok, pure_ok] at h
    obtain ⟨sf, w₃, hb, u₂, w₄, rfl, _, rfl⟩ := h
    obtain ⟨n₂, e₂, p₂⟩ := dns_configuration_copy_body_appends _ _ _ _ _ hb
    refine ⟨n₂ ++ n₁, ?_, ?_⟩
    · show Event.unlock :: w₃.trace = _
      rw [e₂, e₁, hw₀]
      simp [World.log]
    · intro e he
      rcases List.mem_append.1 he with h | h
      · exact p₂ e h
      · exact (p₁ e h).isInside

theorem forget_heap (w : World) {b p : Nat} (hp : b < p) : (w.forget b).heap p = w.heap p := by
  show (if p ≤ b then none else w.heap p) = w.heap p
  rw [if_neg (by omega)]

theorem forget_put (w : World) {b p : Nat} (x : Block) (hp : b < p) :
    (w.forget b).put p x = (w.put p x).forget b := by
  simp only [World.forget, World.put, World.mk.injEq, true_and, and_true]
  funext q
  by_cases hq : q = p
  · subst hq
    rw [if_pos rfl, if_neg (by omega), if_pos rfl]
  · rw [if_neg hq]
    by_cases hqb : q ≤ b
    · rw [if_pos hqb, if_pos hqb]
    · rw [if_neg hqb, if_neg hqb, if_neg hq]

theorem forget_log (w : World) (b : Nat) (e : Event) :
    (w.forget b).log e = (w.log e).forget b := rfl

theorem free_forget {w w' : World} {b p : Nat} (h : free p w = .ok ((), w'))
    (hp : p = NULL ∨ b < p) : free p (w.forget b) = .ok ((), w'.forget b) := by
  rcases free_ok _ _ _ _ h with ⟨hn, rfl⟩ | ⟨hn, blk, hb, hl, rfl⟩
  · rw [hn]
    exact free_null _
  · have hbp : b < p := hp.resolve_left hn
    rw [free_eq hn (by rw [forget_heap w hbp, hb]) hl, forget_put _ _ hbp, forget_log]

theorem store_config_forget {w w' : World} {b p : Nat} {f : dns_config_t → dns_config_t}
    (h : store_config p f w = .ok ((), w')) (hp : b < p) :
    store_config p f (w.forget b) = .ok ((), w'.forget b) := by
  unfold store_config at h
  rw [bind_ok] at h
  obtain ⟨blk, w₁, hd, h⟩ := h
  rw [deref_ok] at hd
  obtain ⟨hn, hh, hl, hw⟩ := hd
  rw [hw] at h
  have hd' : deref p (w.forget b) = .ok (blk, w.forget b) :=
    (deref_ok _ _ _ _).2 ⟨hn, by rw [forget_heap w hp, hh], hl, rfl⟩
  unfold store_config
  rw [bind_eq_of_ok _ _ _ _ _ hd']
  cases ho : blk.obj <;> simp only [ho, throw_ok, modify_ok] at h
  rw [h]
  simp only [ho]
  show Except.ok ((), (w.forget b).put p _) = _
  rw [forget_put _ _ hp]

theorem load_slot_out_of_bounds {w : World} {l i : Nat} {ps : List Nat} (hl : l ≠ NULL)
    (h : w.slots? l = some ps) (hi : ps.length ≤ i) :
    load_slot l i w = .error (.outOfBounds l i) := by
  obtain ⟨b, hb, hlive, ho⟩ := slots?_heap h
  have hd : deref l w = .ok (b, w) := (deref_ok l w b w).2 ⟨hl, hb, hlive, rfl⟩
  have hnone : ps.get? i = none := by
    rw [List.get?_eq_getElem?]
    exact List.getElem?_eq_none hi
  unfold load_slot
  rw [bind_eq_of_ok _ _ _ _ _ hd]
  simp only [ho, hnone]
  rfl

theorem DNS_FREE_LIST_loop_null_slot (c : Nat) (cfg : dns_config_t) (w : World)
    (hc : c ≠ NULL) (hcfg : w.config? c = some cfg) (hl : cfg.resolver ≠ NULL)
    (hs : w.slots? cfg.resolver = some [NULL]) (k : Nat) :
    (k ≤ 1 → DNS_FREE_LIST_loop ((·.resolver) <$> load_config c) dns_resolver_free k 0 w
      = .ok ((), w)) ∧
    (2 ≤ k → DNS_FREE_LIST_loop ((·.resolver) <$> load_config c) dns_resolver_free k 0 w
      = .error (.outOfBounds cfg.resolver 1)) := by
  have hname : ((·.resolver) <$> load_config c) w = .ok (cfg.resolver, w) :=
    map_eq_of_ok _ _ _ _ _ (load_config_eq hc hcfg)
  have hslot : load_slot cfg.resolver 0 w = .ok (NULL, w) := load_slot_eq hl hs rfl
  have hskip : ∀ j, DNS_FREE_LIST_loop ((·.resolver) <$> load_config c) dns_resolver_free
      (j + 1) 0 w
      = DNS_FREE_LIST_loop ((·.resolver) <$> load_config c) dns_resolver_free j 1 w :=
    fun j => DNS_FREE_LIST_loop_skip _ _ _ _ _ _ hname hslot (dns_resolver_free_null w)
  constructor
  · intro hk
    match k, hk with
    | 0, _ => rfl
    | 1, _ =>
      rw [hskip 0]
      rfl
  · intro hk
    obtain ⟨j, rfl⟩ : ∃ j, k = j + 2 := ⟨k - 2, by omega⟩
    rw [hskip (j + 1), DNS_FREE_LIST_loop, bind_eq_of_ok _ _ _ _ _ hname]
    exact bind_error _ _ _ _ (load_slot_out_of_bounds hl hs (by simp))

theorem dns_configuration_free_forget (w₁ : World) (b config : Nat) (cc : dns_config_t)
    (hb : b < config) (hcc : w₁.config? config = some cc)
    (hl : cc.resolver = NULL ∨ (b < cc.resolver ∧ w₁.slots? cc.resolver = some [NULL]))
    (w' : World) (h : dns_configuration_free config w₁ = .ok ((), w')) :
    dns_configuration_free config (w₁.forget b) = .ok ((), w'.forget b) := by
  have hc : config ≠ NULL := by
    show config ≠ 0
    omega
  have hccf : (w₁.forget b).config? config = some cc := by
    rw [config?_congr (forget_heap w₁ hb), hcc]
  have hname : ((·.resolver) <$> load_config config) w₁ = .ok (cc.resolver, w₁) :=
    map_eq_of_ok (·.resolver) _ _ _ _ (load_config_eq hc hcc)
  have hnamef : ((·.resolver) <$> load_config config) (w₁.forget b)
      = .ok (cc.resolver, w₁.forget b) :=
    map_eq_of_ok (·.resolver) _ _ _ _ (load_config_eq hc hccf)
  have hcnt : ((·.n_resolver) <$> load_config config) w₁ = .ok (cc.n_resolver, w₁) :=
    map_eq_of_ok (·.n_resolver) _ _ _ _ (load_config_eq hc hcc)
  have hcntf : ((·.n_resolver) <$> load_config config) (w₁.forget b)
      = .ok (cc.n_resolver, w₁.forget b) :=
    map_eq_of_ok (·.n_resolver) _ _ _ _ (load_config_eq hc hccf)
  unfold dns_configuration_free at h ⊢
  rw [if_pos hc] at h ⊢
  rw [bind_ok] at h
  obtain ⟨u, w₂, hlist, hfree⟩ := h
  have key : DNS_FREE_LIST ((·.resolver) <$> load_config config)
      ((·.n_resolver) <$> load_config config)
      (store_config config fun c => { c with resolver := NULL }) dns_resolver_free
      (w₁.forget b) = .ok ((), w₂.forget b) := by
    by_cases hln : cc.resolver = NULL
    · rw [hln] at hname hnamef
      rw [DNS_FREE_LIST_skip _ _ _ _ _ hname] at hlist
      cases hlist
      exact DNS_FREE_LIST_skip _ _ _ _ _ hnamef
    · obtain ⟨hlb, hs⟩ := hl.resolve_left hln
      have hsf : (w₁.forget b).slots? cc.resolver = some [NULL] := by
        rw [slots?_congr (forget_heap w₁ hlb), hs]
      have d := DNS_FREE_LIST_loop_null_slot config cc w₁ hc hcc hln hs cc.n_resolver.toNat
      have df := DNS_FREE_LIST_loop_null_slot config cc (w₁.forget b) hc hccf hln hsf
        cc.n_resolver.toNat
      unfold DNS_FREE_LIST at hlist ⊢
      rw [bind_eq_of_ok _ _ _ _ _ hname, if_pos hln, bind_eq_of_ok _ _ _ _ _ hcnt] at hlist
      rw [bind_eq_of_ok _ _ _ _ _ hnamef, if_pos hln, bind_eq_of_ok _ _ _ _ _ hcntf]
      by_cases hk : cc.n_resolver.toNat ≤ 1
      · rw [bind_eq_of_ok _ _ _ _ _ (d.1 hk), bind_eq_of_ok _ _ _ _ _ hname, bind_ok] at hlist
        obtain ⟨u₁, w₃, hf, hst⟩ := hlist
        rw [bind_eq_of_ok _ _ _ _ _ (df.1 hk), bind_eq_of_ok _ _ _ _ _ hnamef,
          bind_eq_of_ok _ _ _ _ _ (free_forget hf (Or.inr hlb))]
        exact store_config_forget hst hb
      · rw [bind_error _ _ _ _ (d.2 (by omega))] at hlist
        cases hlist
  rw [bind_eq_of_ok _ _ _ _ _ key]
  exact free_forget hfree (Or.inr hb)

theorem Evolves.fades {n : Nat} {w w' : World} (e : Evolves (fun q => q ≤ n) w w') :
    Fades n w w' :=
  ⟨e.wf, fun q b hq hb _ => by rw [← e.frame q hq]; exact hb⟩

theorem Fades.of_wf {n : Nat} {w : World} (hwf : w.WF) : Fades n w w :=
  ⟨hwf, fun _ _ _ h _ => h⟩

theorem Fades.followed {n : Nat} {w w₁ w₂ : World} (h₁ : Fades n w w₁) (h₂ : Fades n w₁ w₂) :
    Fades n w w₂ :=
  ⟨h₂.wf, fun q b hq hb hl => h₁.keep q b hq (h₂.keep q b hq hb hl) hl⟩

theorem fading_pure {n : Nat} {α : Type} (a : α) : Fading n (pure a : M α) := by
  intro w b w' h hwf
  rw [pure_ok] at h
  obtain ⟨_, rfl⟩ := h
  exact Fades.of_wf hwf

theorem fading_bind {n : Nat} {α β : Type} {m : M α} {f : α → M β}
    (hm : Fading n m) (hf : ∀ a, Fading n (f a)) : Fading n (m >>= f) := by
  intro w b w' h hwf
  rw [bind_ok] at h
  obtain ⟨a, w₁, h₁, h₂⟩ := h
  have F₁ := hm _ _ _ h₁ hwf
  exact F₁.followed (hf a _ _ _ h₂ F₁.wf)

theorem fading_map {n : Nat} {α β : Type} {m : M α} (g : α → β) (hm : Fading n m) :
    Fading n (g <$> m) := by
  intro w b w' h hwf
  rw [map_ok] at h
  obtain ⟨a, h₁, _⟩ := h
  exact hm _ _ _ h₁ hwf

theorem fading_ite {n : Nat} {α : Type} {c : Prop} [Decidable c] {m₁ m₂ : M α}
    (h₁ : Fading n m₁) (h₂ : Fading n m₂) : Fading n (if c then m₁ else m₂) := by
  split
  · exact h₁
  · exact h₂

theorem fading_load_resolver (n p : Nat) : Fading n (load_resolver p) := by
  intro w r w' h hwf
  obtain ⟨rfl, _, _⟩ := load_resolver_ok _ _ _ _ h
  exact Fades.of_wf hwf

theorem fading_load_slot (n p i : Nat) : Fading n (load_slot p i) := by
  intro w r w' h hwf
  obtain ⟨rfl, _⟩ := load_slot_ok _ _ _ _ _ h
  exact Fades.of_wf hwf

theorem fading_free (n p : Nat) : Fading n (free p) := by
  intro w u w' h hwf
  rcases free_ok _ _ _ _ h with ⟨_, rfl⟩ | ⟨_, b, hb, _, rfl⟩
  · exact Fades.of_wf hwf
  · have e := put_evolves (S := fun q => q ≠ p) hwf hb (fun hne => hne rfl)
      { b with live := false }
    refine ⟨(e.trans (log_evolves e.wf _)).wf, ?_⟩
    intro q b' _ hb' hl'
    have hq : (if q = p then some { b with live := false } else w.heap q) = some b' := hb'
    by_cases hqp : q = p
    · rw [if_pos hqp] at hq
      cases hq
      cases hl'
    · rw [if_neg hqp] at hq
      exact hq

theorem fading_store_resolver (n p : Nat) (hp : n < p) (f : dns_resolver_t → dns_resolver_t) :
    Fading n (store_resolver p f) := by
  intro w u w' h hwf
  obtain ⟨_, _, e, _⟩ := store_resolver_ok (S := fun q => q ≤ n) _ _ _ _ _ h hwf
    (by show ¬ p ≤ n; omega)
  exact e.fades

theorem fading_DNS_FREE_LIST_loop {n : Nat} (name : M Nat) (method : Nat → M Unit)
    (hn : Fading n name) (hm : ∀ p, Fading n (method p)) :
    ∀ k i, Fading n (DNS_FREE_LIST_loop name method k i) := by
  intro k
  induction k with
  | zero => intro i; exact fading_pure _
  | succ k ih =>
    intro i
    unfold DNS_FREE_LIST_loop
    exact fading_bind hn fun l => fading_bind (fading_load_slot _ _ _) fun e =>
      fading_bind (hm e) fun _ => ih _

theorem fading_DNS_FREE_PTR {n : Nat} (name : M Nat) (clear : M Unit)
    (method : Nat → M Unit) (hn : Fading n name) (hc : Fading n clear)
    (hm : ∀ p, Fading n (method p)) : Fading n (DNS_FREE_PTR name clear method) := by
  unfold DNS_FREE_PTR
  refine fading_bind hn fun p => fading_ite ?_ (fading_pure _)
  exact fading_bind (hm p) fun _ => hc

theorem fading_DNS_FREE_LIST {n : Nat} (name : M Nat) (n_name : M Int) (clear : M Unit)
    (method : Nat → M Unit) (hn : Fading n name) (hc : Fading n n_name)
    (hcl : Fading n clear) (hm : ∀ p, Fading n (method p)) :
    Fading n (DNS_FREE_LIST name n_name clear method) := by
  unfold DNS_FREE_LIST
  refine fading_bind hn fun p => fading_ite ?_ (fading_pure _)
  exact fading_bind hc fun _ => fading_bind (fading_DNS_FREE_LIST_loop _ _ hn hm _ _) fun _ =>
    fading_bind hn fun q => fading_bind (fading_free _ q) fun _ => hcl

theorem fading_dns_resolver_free (n resolver : Nat) (hp : n < resolver) :
    Fading n (dns_resolver_free resolver) := by
  unfold dns_resolver_free
  refine fading_ite ?_ (fading_pure _)
  have hl : ∀ g : dns_resolver_t → Nat, Fading n (g <$> load_resolver resolver) :=
    fun g => fading_map g (fading_load_resolver _ _)
  have hi : ∀ g : dns_resolver_t → Int, Fading n (g <$> load_resolver resolver) :=
    fun g => fading_map g (fading_load_resolver _ _)
  have hs : ∀ f, Fading n (store_resolver resolver f) :=
    fun f => fading_store_resolver _ _ hp f
  exact fading_bind (fading_DNS_FREE_PTR _ _ _ (hl _) (hs _) (fading_free n)) fun _ =>
    fading_bind (fading_DNS_FREE_LIST _ _ _ _ (hl _) (hi _) (hs _) (fading_free n)) fun _ =>
    fading_bind (fading_DNS_FREE_LIST _ _ _ _ (hl _) (hi _) (hs _) (fading_free n)) fun _ =>
    fading_bind (fading_DNS_FREE_LIST _ _ _ _ (hl _) (hi _) (hs _) (fading_free n)) fun _ =>
    fading_DNS_FREE_PTR _ _ _ (hl _) (hs _) (fading_free n)

theorem dns_resolver_copy_body_evolves {b resolver copy : Nat} {src c : dns_resolver_t}
    {w : World} (x : Ctx b resolver copy src c w) (env : Env) (go : Bool) (w' : World)
    (h : dns_resolver_copy_body env resolver copy w = .ok (go, w')) :
    Evolves (fun q => q ≤ b) w w' := by
  simp only [dns_resolver_copy_body, bind_ok] at h
  obtain ⟨go₁, w₁, h₁, h⟩ := h
  obtain ⟨d, x₁, e₁⟩ := copy_domain_ok x env _ _ h₁
  cases go₁
  · simp only [Bool.not_false, if_true, pure_ok] at h
    obtain ⟨_, rfl⟩ := h
    exact e₁
  simp only [Bool.not_true, Bool.false_eq_true, if_false, bind_ok] at h
  obtain ⟨go₂, w₂, h₂, h⟩ := h
  obtain ⟨l₂, x₂, e₂⟩ := copy_nameserver_ok x₁ env _ _ h₂
  cases go₂
  · simp only [Bool.not_false, if_true, pure_ok] at h
    obtain ⟨_, rfl⟩ := h
    exact e₁.trans e₂
  simp only [Bool.not_true, Bool.false_eq_true, if_false, bind_ok] at h
  obtain ⟨r, w₃, hr, u, w₄, hst, go₃, w₅, h₃, h⟩ := h
  obtain ⟨rfl, rfl⟩ := x₂.load_src _ _ hr
  obtain ⟨x₃, e₃⟩ := x₂.set _ _ _ hst
  obtain ⟨l₃, x₄, e₄, hl₃⟩ := copy_search_ok x₃ env _ _ h₃
  cases go₃
  · simp only [Bool.not_false, if_true, pure_ok] at h
    obtain ⟨_, rfl⟩ := h
    exact ((e₁.trans e₂).trans e₃).trans e₄
  simp only [Bool.not_true, Bool.false_eq_true, if_false, bind_ok] at h
  obtain ⟨go₄, w₆, h₄, h⟩ := h
  obtain ⟨l₄, s₄, x₅, e₅⟩ := copy_sortaddr_ok x₄ hl₃ env _ _ h₄
  cases go₄
  · simp only [Bool.not_false, if_true, pure_ok] at h
    obtain ⟨_, rfl⟩ := h
    exact (((e₁.trans e₂).trans e₃).trans e₄).trans e₅
  simp only [Bool.not_true, Bool.false_eq_true, if_false, bind_ok] at h
  obtain ⟨go₅, w₇, h₅, h⟩ := h
  obtain ⟨o, x₆, e₆⟩ := copy_options_ok x₅ env _ _ h₅
  cases go₅
  · simp only [Bool.not_false, if_true, pure_ok] at h
    obtain ⟨_, rfl⟩ := h
    exact ((((e₁.trans e₂).trans e₃).trans e₄).trans e₅).trans e₆
  simp only [Bool.not_true, Bool.false_eq_true, if_false, bind_ok, pure_ok] at h
  obtain ⟨r₁, w₈, hr₁, u₁, w₉, hst₁, r₂, w₁₀, hr₂, u₂, w₁₁, hst₂, _, rfl⟩ := h
  obtain ⟨rfl, rfl⟩ := x₆.load_src _ _ hr₁
  obtain ⟨x₇, e₇⟩ := x₆.set _ _ _ hst₁
  obtain ⟨rfl, rfl⟩ := x₇.load_src _ _ hr₂
  obtain ⟨x₈, e₈⟩ := x₇.set _ _ _ hst₂
  exact ((((((e₁.trans e₂).trans e₃).trans e₄).trans e₅).trans e₆).trans e₇).trans e₈

theorem dns_resolver_copy_fades (env : Env) (resolver : Nat) (w : World) (p : Nat)
    (w' : World) (h : dns_resolver_copy env resolver w = .ok (p, w')) (hwf : w.WF)
    (src : dns_resolver_t) (hsrc : w.resolver? resolver = some src) :
    Fades w.brk w w' := by
  simp only [dns_resolver_copy, bind_ok] at h
  obtain ⟨copy, w₁, hm, h⟩ := h
  obtain ⟨e₁, hc⟩ := malloc_ok (S := fun q => q ≤ w.brk) _ _ _ _ _ _ hm hwf (fun _ hq => hq)
  by_cases hcn : copy = NULL
  · simp only [hcn, if_true, bind_ok, pure_ok] at h
    obtain ⟨success, w₂, ⟨rfl, rfl⟩, h⟩ := h
    simp only [Bool.not_false, if_true, bind_ok, pure_ok] at h
    obtain ⟨u, w₃, hfree, _, rfl⟩ := h
    rw [dns_resolver_free_null] at hfree
    cases hfree
    exact e₁.fades
  simp only [hcn, if_false, bind_ok] at h
  obtain ⟨success, w₂, hb, h⟩ := h
  obtain ⟨hc1, hc2, hc3⟩ := hc hcn
  obtain ⟨b₀, hb₀, _, _⟩ := resolver?_heap hsrc
  have hres : resolver ≤ w.brk := hwf.le_brk hb₀
  have x : Ctx w.brk resolver copy src _ w₁ :=
    ⟨e₁.wf, by omega, by omega, hres,
      by rw [resolver?_congr (e₁.frame resolver hres), hsrc],
      by simp [World.resolver?, World.obj?, hc3, fresh]; rfl⟩
  have e₂ := dns_resolver_copy_body_evolves x env _ _ hb
  cases success
  · simp only [Bool.not_false, if_true, bind_ok, pure_ok] at h
    obtain ⟨u, w₃, hfree, _, rfl⟩ := h
    exact (e₁.trans e₂).fades.followed
      (fading_dns_resolver_free w.brk copy (by omega) _ _ _ hfree e₂.wf)
  · simp only [Bool.not_true, Bool.false_eq_true, if_false, pure_ok] at h
    obtain ⟨_, rfl⟩ := h
    exact (e₁.trans e₂).fades

theorem Fades.config? {n : Nat} {w w' : World} (F : Fades n w w') {p : Nat} (hp : p ≤ n)
    {c : dns_config_t} (h : w'.config? p = some c) : w.config? p = some c := by
  obtain ⟨b, hb, hl, ho⟩ := config?_heap h
  have := F.keep p b hp hb hl
  simp [World.config?, World.obj?, this, hl, ho]

theorem Fades.slots? {n : Nat} {w w' : World} (F : Fades n w w') {p : Nat} (hp : p ≤ n)
    {ps : List Nat} (h : w'.slots? p = some ps) : w.slots? p = some ps := by
  obtain ⟨b, hb, hl, ho⟩ := slots?_heap h
  have := F.keep p b hp hb hl
  simp [World.slots?, World.obj?, this, hl, ho]

theorem copy_resolver_loop_failure (env : Env) (config : Nat) (w0 : World) (srcs : List Nat)
    (cc : dns_config_t) (n : Nat) (hwf0 : w0.WF)
    (hsrcs : w0.slots? w0.configuration.resolver = some srcs)
    (hrec : ∀ j sp, j < n → srcs.get? j = some sp → ∃ src, w0.resolver? sp = some src)
    (hl : w0.brk < cc.resolver) :
    ∀ (k i : Nat) (w w' : World), i + k = n →
      copy_resolver_loop env config k i w = .ok (true, w') →
      Evolves (fun q => q ≤ w0.brk) w0 w → w.config? config = some cc →
      (∃ ps, w.slots? cc.resolver = some ps ∧ ps.length = 1) →
      i = 0 ∧ w'.config? config = some cc ∧ w'.slots? cc.resolver = some [NULL] := by
  intro k
  induction k with
  | zero =>
    intro i w w' _ h _ _ _
    simp only [copy_resolver_loop, pure_ok] at h
    exact absurd h.1 (by simp)
  | succ k ih =>
    intro i w w' hik h e hcc hps
    obtain ⟨ps, hps, hlen⟩ := hps
    simp only [copy_resolver_loop, bind_ok] at h
    obtain ⟨g, w₁, hg, sp, w₂, hsp, p, w₃, hcp, c, w₄, hc, u, w₅, hst, h⟩ := h
    obtain ⟨rfl, e₁⟩ := load_configuration_ok (S := fun _ => True) _ _ _ hg e.wf
    have e' := e.trans (e₁.mono fun _ _ => trivial)
    obtain ⟨rfl, srcs', hsrcs', hget⟩ := load_slot_ok _ _ _ _ _ hsp
    have hle : w0.configuration.resolver ≤ w0.brk := slots?_le_brk hwf0 hsrcs
    rw [e.conf, slots?_congr (e'.frame _ hle), hsrcs] at hsrcs'
    cases hsrcs'
    obtain ⟨src, hsrc⟩ := hrec i sp (by omega) hget
    have hsple : sp ≤ w0.brk := resolver?_le_brk hwf0 hsrc
    have hsrc₁ : w₂.resolver? sp = some src := by
      rw [resolver?_congr (e'.frame _ hsple), hsrc]
    obtain ⟨hw₄, hc⟩ := load_config_ok _ _ _ _ hc
    subst hw₄
    have F := dns_resolver_copy_fades _ _ _ _ _ hcp e'.wf src hsrc₁
    have hcc₂ : w₂.config? config = some cc := by
      rw [config?_congr (e₁.frame config trivial), hcc]
    have hps₂ : w₂.slots? cc.resolver = some ps := by
      rw [slots?_congr (e₁.frame _ trivial), hps]
    have hcfgle := config?_le_brk e'.wf hcc₂
    have hlle := slots?_le_brk e'.wf hps₂
    have hc₂ := F.config? hcfgle hc
    rw [hcc₂] at hc₂
    cases hc₂
    obtain ⟨ps', hps', hi, e₃, hset⟩ := store_slot_ok (S := fun q => q ≠ cc.resolver)
      _ _ _ _ _ _ hst F.wf (fun hne => hne rfl)
    have hps'₂ := F.slots? hlle hps'
    rw [hps₂] at hps'₂
    cases hps'₂
    have hi0 : i = 0 := by omega
    subst hi0
    have hcfg₅ : w₅.config? config = some cc := by
      rw [config?_congr (e₃.frame config (config?_ne_slots? hc hps')), hc]
    by_cases hp : p = NULL
    · simp only [hp, if_true, pure_ok] at h
      obtain ⟨_, rfl⟩ := h
      refine ⟨rfl, hcfg₅, ?_⟩
      rw [hset, hp]
      match ps, hlen with
      | [_], _ => rfl
    · simp only [hp, if_false] at h
      obtain ⟨_, e₂, _⟩ := dns_resolver_copy_ok _ _ _ _ _ hcp hp e'.wf src hsrc₁
      have e₄ : Evolves (fun q => q ≤ w0.brk) w0 w₅ :=
        (e'.trans (e₂.mono fun q hq => le_trans hq e'.brk_le)).trans
          (e₃.mono fun q hq => by
            show q ≠ cc.resolver
            have : q ≤ w0.brk := hq
            omega)
      obtain ⟨h0, _⟩ := ih 1 w₅ w' (by omega) h e₄ hcfg₅
        ⟨_, hset, by rw [List.length_set]; exact hlen⟩
      exact absurd h0 (by simp)

theorem dns_configuration_copy_body_failure (env : Env) (config : Nat) (w0 w w' : World)
    (hwf0 : w0.WF) (e : Evolves (fun q => q ≤ w0.brk) w0 w) (hcfg : w0.brk < config)
    (c0 : dns_config_t) (hc0 : w.config? config = some c0)
    (hstore : ∀ i : Nat, (i : Int) < w0.configuration.n_resolver →
      ∃ src, storeResolver w0 i = some src)
    (s f : Bool) (h : dns_configuration_copy_body env config w = .ok ((s, f), w'))
    (hsf : (!s || f) = true) :
    ∃ cc, w'.config? config = some cc ∧
      (cc.resolver = NULL ∨ (w0.brk < cc.resolver ∧ w'.slots? cc.resolver = some [NULL])) := by
  have hS : ¬ (fun q => q ≤ w0.brk) config := by
    show ¬ config ≤ w0.brk
    omega
  simp only [dns_configuration_copy_body, bind_ok] at h
  obtain ⟨g, w₁, hg, u, w₂, hst, c, w₃, hc, h⟩ := h
  obtain ⟨rfl, e₁⟩ := load_configuration_ok (S := fun q => q ≤ w0.brk ∨ q = config) _ _ _ hg e.wf
  have hc₁ : w₁.config? config = some c0 := by
    rw [config?_congr (e₁.frame config (Or.inr rfl)), hc0]
  have e₁' := e.trans (e₁.mono fun _ hq => Or.inl hq)
  obtain ⟨c₁, hc₁', e₂, hc₂⟩ := store_config_ok (S := fun q => q ≤ w0.brk) _ _ _ _ _ hst e₁.wf hS
  rw [hc₁] at hc₁'
  cases hc₁'
  obtain ⟨hw, hc⟩ := load_config_ok _ _ _ _ hc
  subst hw
  rw [hc₂] at hc
  cases hc
  have e₂' := e₁'.trans e₂
  have hconf : w.configuration = w0.configuration := e.conf
  split at h
  · rename_i hpos
    simp only [bind_ok] at h
    obtain ⟨l, w₄, hm, u₂, w₅, hst₂, h⟩ := h
    obtain ⟨e₃, hl⟩ := malloc_ok (S := fun q => q ≤ w0.brk ∨ q = config) _ _ _ _ _ _ hm e₂.wf
      (fun q hq => by
        have := e₂'.brk_le
        have := config?_le_brk e₂.wf hc₂
        rcases hq with hq | hq <;> omega)
    have hc₄ : w₄.config? config = some { c0 with n_resolver := w.configuration.n_resolver } := by
      rw [config?_congr (e₃.frame config (Or.inr rfl)), hc₂]
    obtain ⟨c₄, hc₄', e₄, hc₅⟩ := store_config_ok (S := fun q => q ≠ config)
      _ _ _ _ _ hst₂ e₃.wf (fun hne => hne rfl)
    rw [hc₄] at hc₄'
    cases hc₄'
    by_cases hln : l = NULL
    · simp only [hln, if_true, pure_ok] at h
      obtain ⟨_, rfl⟩ := h
      exact ⟨_, hc₅, Or.inl hln⟩
    simp only [hln, if_false, bind_ok] at h
    obtain ⟨fl, w₆, hloop, h⟩ := h
    cases fl
    · simp only [Bool.false_eq_true, if_false, pure_ok] at h
      obtain ⟨⟨rfl, rfl⟩, _⟩ := h
      simp at hsf
    simp only [if_true, pure_ok] at h
    obtain ⟨_, rfl⟩ := h
    obtain ⟨hl1, hl2, hl3⟩ := hl hln
    have hlne : l ≠ config := by
      have := config?_le_brk e₂.wf hc₂
      omega
    have hl₅ : ∃ ps₀, w₅.slots? l = some ps₀ ∧ ps₀.length = 1 := by
      rw [slots?_congr (e₄.frame l hlne)]
      exact ⟨_, by simp [World.slots?, World.obj?, hl3, fresh]; rfl,
        by simp [sizeof_ptr]⟩
    have e₅ : Evolves (fun q => q ≤ w0.brk) w0 w₅ :=
      (e₂'.trans (e₃.mono fun _ hq => Or.inl hq)).trans
        (e₄.mono fun q hq => by
          show q ≠ config
          have : q ≤ w0.brk := hq
          omega)
    have hlgt : w0.brk < l := by
      have := e₂'.brk_le
      omega
    have hn : (0 : Int) < w0.configuration.n_resolver := by
      rw [← hconf]
      exact hpos
    obtain ⟨src₀, hsrc₀⟩ := hstore 0 (by simpa using hn)
    obtain ⟨srcs, _, hsrcs, _, _⟩ := storeResolver_eq_some hsrc₀
    have hrec : ∀ j sp, j < w0.configuration.n_resolver.toNat → srcs.get? j = some sp →
        ∃ src, w0.resolver? sp = some src := by
      intro j sp hj hget
      obtain ⟨src, hsrc⟩ := hstore j (by omega)
      obtain ⟨srcs', sp', h₁, h₂, h₃⟩ := storeResolver_eq_some hsrc
      rw [hsrcs] at h₁
      cases h₁
      rw [hget] at h₂
      cases h₂
      exact ⟨src, h₃⟩
    have hloop' : copy_resolver_loop env config w0.configuration.n_resolver.toNat 0 w₅
        = .ok (true, w₆) := by
      rw [← hconf]
      exact hloop
    obtain ⟨_, hc₆, hs₆⟩ := copy_resolver_loop_failure env config w0 srcs
      { c0 with n_resolver := w.configuration.n_resolver, resolver := l }
      w0.configuration.n_resolver.toNat hwf0 hsrcs hrec hlgt
      _ 0 w₅ w₆ (by omega) hloop' e₅ hc₅ hl₅
    exact ⟨_, hc₆, Or.inr ⟨hlgt, hs₆⟩⟩
  · simp only [bind_ok, pure_ok] at h
    obtain ⟨u₂, w₄, hst₂, ⟨rfl, rfl⟩, _⟩ := h
    simp at hsf

theorem dns_configuration_copy_locked_failure (env : Env) (w : World) (hwf : w.WF)
    (hstore : ∀ i : Nat, (i : Int) < w.configuration.n_resolver →
      ∃ src, storeResolver w i = some src)
    (config : Nat) (s f : Bool) (w₁ : World)
    (h : dns_configuration_copy_locked env w = .ok ((config, s, f), w₁))
    (hcn : config ≠ NULL) (hsf : (!s || f) = true) :
    w.brk < config ∧ ∃ cc, w₁.config? config = some cc ∧
      (cc.resolver = NULL ∨ (w.brk < cc.resolver ∧ w₁.slots? cc.resolver = some [NULL])) := by
  simp only [dns_configuration_copy_locked, pthread_mutex_lock, pthread_mutex_unlock, bind_ok,
    modify_ok] at h
  obtain ⟨u, w₀, rfl, cfg, w₂, hm, h⟩ := h
  have e₁ : Evolves (fun q => q ≤ w.brk) w (w.log .lock) := log_evolves hwf _
  obtain ⟨e₂, hc⟩ := malloc_ok (S := fun q => q ≤ w.brk) _ _ _ _ _ _ hm e₁.wf (fun _ hq => hq)
  by_cases hcfgn : cfg = NULL
  · simp only [hcfgn, if_true, bind_ok, pure_ok, modify_ok] at h
    obtain ⟨sf, w₃, _, u₂, w₄, _, he, _⟩ := h
    simp only [Prod.mk.injEq] at he
    exact absurd he.1.symm hcn
  simp only [hcfgn, if_false, bind_ok, modify_ok, pure_ok] at h
  obtain ⟨sf, w₃, hb, u₂, w₄, rfl, he, rfl⟩ := h
  obtain ⟨s', f'⟩ := sf
  simp only [Prod.mk.injEq] at he
  obtain ⟨rfl, rfl, rfl⟩ := he
  obtain ⟨hc1, _, hc3⟩ := hc hcfgn
  have hc₂ : ∃ c0, w₂.config? cfg = some c0 := by
    simp [World.config?, World.obj?, hc3, fresh]
  obtain ⟨c0, hc₂⟩ := hc₂
  have hlt : w.brk < cfg := by
    have : (w.log Event.lock).brk = w.brk := rfl
    omega
  obtain ⟨cc, hcc, hshape⟩ := dns_configuration_copy_body_failure env cfg w w₂ w₃ hwf
    (e₁.trans e₂) hlt c0 hc₂ hstore _ _ hb hsf
  exact ⟨hlt, cc, hcc, hshape⟩

/-! ## Lemmas: the scalar fields of a copy that is returned -/

/-- Where the copy returns, the scalar fields agree.  From a well-formed heap,
when `dns_resolver_copy` returns a copy of a live source record, the copy's
`port`, `timeout` and `search_order` equal the source's; and when the store's
list holds `n_resolver` records and `dns_configuration_copy` returns a
snapshot, the snapshot's `n_resolver` equals the store's and resolver `i` of
the snapshot agrees with resolver `i` of the store on `port`, `timeout`,
`search_order` and the three counts.  Every list of the copy has one slot, so
such runs exist only for stores with at most one resolver and at most one
element in each list. -/
theorem dns_copy_duplicates_scalars (env : Env) (w : World) (hwf : w.WF) :
    (∀ resolver src c, w.resolver? resolver = some src →
        copied (dns_resolver_copy env resolver w) = some c →
        c.port = src.port ∧ c.timeout = src.timeout ∧ c.search_order = src.search_order) ∧
    ((∀ i : Nat, (i : Int) < w.configuration.n_resolver →
        ∃ src, storeResolver w i = some src) →
      ∀ c, snapshot (dns_configuration_copy env w) = some c →
        c.n_resolver = w.configuration.n_resolver ∧
        ∀ i : Nat, (i : Int) < c.n_resolver →
          ∃ src r, storeResolver w i = some src ∧
            snapshotResolver (dns_configuration_copy env w) i = some r ∧
            SameScalars r src) := by
  constructor
  · intro resolver src c hsrc hrun
    cases hr : dns_resolver_copy env resolver w with
    | error f => simp [copied, hr] at hrun
    | ok pw =>
      obtain ⟨p, w'⟩ := pw
      simp only [copied, hr] at hrun
      by_cases hp : p = NULL
      · simp [hp] at hrun
      · rw [if_neg hp] at hrun
        obtain ⟨_, _, c', hc', hs⟩ := dns_resolver_copy_ok _ _ _ _ _ hr hp hwf src hsrc
        rw [hc'] at hrun
        cases hrun
        exact ⟨hs.1, hs.2.1, hs.2.2.1⟩
  · intro hstore c hrun
    cases hr : dns_configuration_copy env w with
    | error f => simp [snapshot, hr] at hrun
    | ok pw =>
      obtain ⟨p, w'⟩ := pw
      simp only [snapshot, hr] at hrun
      by_cases hp : p = NULL
      · simp [hp] at hrun
      · rw [if_neg hp] at hrun
        obtain ⟨c', hc', hn, hall⟩ := dns_configuration_copy_ok env w p w' hwf hstore hr hp
        rw [hc'] at hrun
        cases hrun
        refine ⟨hn, fun i hi => ?_⟩
        obtain ⟨srcs, ps, hsrcs, hps, sp, src, cp, r, h₁, h₂, h₃, h₄, h₅⟩ := hall i hi
        rw [List.get?_eq_getElem?] at h₁ h₃
        refine ⟨src, r, ?_, ?_, h₅⟩
        · simp [storeResolver, hsrcs, h₁, h₂]
        · simp [snapshotResolver, hp, hc', hps, h₃, h₄]

/-- The scalar fields of `storeOne`, with a zero-filling allocator: port 53 and
timeout 5 arrive in the copy. -/
theorem dns_copy_duplicates_scalars_storeOne :
    storeOne.WF ∧ storeOne.resolver? 2 = some srcOne ∧
    (∃ c, copied (dns_resolver_copy envZero 2 storeOne) = some c ∧
      c.port = 53 ∧ c.timeout = 5 ∧ c.search_order = 0) ∧
    (∀ i : Nat, (i : Int) < storeOne.configuration.n_resolver →
      ∃ src, storeResolver storeOne i = some src) ∧
    (∃ c, snapshot (dns_configuration_copy envZero storeOne) = some c ∧
      c.n_resolver = 1 ∧
      ∀ i : Nat, (i : Int) < c.n_resolver →
        ∃ src r, storeResolver storeOne i = some src ∧
          snapshotResolver (dns_configuration_copy envZero storeOne) i = some r ∧
          SameScalars r src) := by
  have hwf : storeOne.WF := World.ofBlocks_wf _ _
  have hsrc : storeOne.resolver? 2 = some srcOne := by decide!
  have hcopy : copied (dns_resolver_copy envZero 2 storeOne)
      = some { srcOne with domain := 7, nameserver := 8 } := by decide!
  have hstore : ∀ i : Nat, (i : Int) < storeOne.configuration.n_resolver →
      ∃ src, storeResolver storeOne i = some src := by
    intro i hi
    have hi' : (i : Int) < 1 := hi
    have : i = 0 := by omega
    subst this
    exact ⟨srcOne, by decide!⟩
  have hsnap : snapshot (dns_configuration_copy envZero storeOne)
      = some { n_resolver := 1, resolver := 7 } := by decide!
  have T := dns_copy_duplicates_scalars envZero storeOne hwf
  exact ⟨hwf, hsrc, ⟨_, hcopy, T.1 2 srcOne _ hsrc hcopy⟩, hstore,
    ⟨_, hsnap, T.2 hstore _ hsnap⟩⟩

/-! ## The claims -/

/-- C1: on the store of the concrete scenario (`8.8.8.8` followed by
`2001:4860:4860::8888`), with every allocation succeeding and whatever the fresh
memory holds, `dns_resolver_copy` produces no copy: the nameserver list it
allocated (address 7) has room for one pointer, and the assignment to
`copy->nameserver[1]` lies outside the block. -/
theorem dns_resolver_copy_scenario_out_of_bounds (junk : Nat → Nat → Nat) :
    (storeScenario.resolver? 2).map (·.n_nameserver) = some 2 ∧
    faulted (dns_resolver_copy ⟨fun _ => true, junk⟩ 2 storeScenario)
      = some (.outOfBounds 7 1) :=
  ⟨rfl, rfl⟩

/-- C2: the snapshot `dns_configuration_copy` returns for a store whose resolver
has one search domain and no sort rules declares `n_search = 1` while its
`search` list is `NULL`. -/
theorem dns_configuration_copy_search_count_without_list :
    (snapshotResolver (dns_configuration_copy envZero storeSearch) 0).map
      (fun r => (r.n_search, r.search, r.n_sortaddr)) = some (1, NULL, 0) := by
  decide!

/-- C3: for a source resolver with the search domain `"example.com"` and
`n_sortaddr = 0`, `dns_resolver_copy` succeeds with every allocation succeeding,
and the copy has no search list. -/
theorem dns_resolver_copy_loses_search_list :
    (storeSearch.resolver? 2).map (fun r => (r.n_search, r.n_sortaddr)) = some (1, 0) ∧
    storeSearch.slots? 5 = some [6] ∧ storeSearch.bytes? 6 = some str_example_com ∧
    (copied (dns_resolver_copy envZero 2 storeSearch)).map
      (fun c => (c.n_search, c.search)) = some (1, NULL) ∧
    (copied (dns_resolver_copy envStale 2 storeSearch)).map
      (fun c => (c.n_search, c.search)) = some (1, NULL) := by
  decide!

/-- C4: for a source resolver without a domain, `dns_resolver_copy` succeeds and
the `domain` field of the copy is the stale word `0xdeadbeef` the fresh record
held, not `NULL`. -/
theorem dns_resolver_copy_domain_uninitialised :
    (storeSearch.resolver? 2).map (·.domain) = some NULL ∧
    (copied (dns_resolver_copy envStale 2 storeSearch)).map (·.domain)
      = some 0xdeadbeef := by
  decide!

/-- C5: for a source resolver whose sort-rule list of count 1 holds an absent
entry, `dns_resolver_copy` succeeds; entry 0 of the copy's sort-rule list is the
stale word the fresh list held, and entry 0 of the copy's search list, whose
source is `"example.com"`, was overwritten with `NULL`. -/
theorem dns_resolver_copy_absent_sortaddr_entry :
    (storeSort.resolver? 2).map (fun r => (r.n_sortaddr, r.sortaddr, r.search)) = some (1, 7, 5) ∧
    storeSort.slots? 7 = some [NULL] ∧ storeSort.slots? 5 = some [6] ∧
    copiedSlots (dns_resolver_copy envStale 2 storeSort) (·.sortaddr) = some [0xdeadbeef] ∧
    copiedSlots (dns_resolver_copy envStale 2 storeSort) (·.search) = some [NULL] := by
  decide!

/-- C7: on a store whose only nameserver record carries the family tag 0, with
every allocation succeeding and fresh memory holding `0xdeadbeef`,
`dns_configuration_copy` does not return `NULL`: the rollback passes the
never-assigned `copy->nameserver[0]` to `free`. -/
theorem dns_configuration_copy_bad_family_invalid_free :
    (storeBadFamily.bytes? 4).map (List.take 2) = some [0, 0] ∧
    returned (dns_configuration_copy envStale storeBadFamily) = none ∧
    faulted (dns_configuration_copy envStale storeBadFamily)
      = some (.invalidFree 0xdeadbeef) := by
  decide!

/-- C8: with a single allocation failure injected at the nameserver list, at
nameserver 0, at the search list or at search domain 0 (attempts 3 to 6),
`dns_configuration_copy` returns `NULL` while the resolver record it allocated
(address 9) was never freed. -/
theorem dns_configuration_copy_rollback_leaks_record :
    [3, 4, 5, 6].map (fun k =>
      (returned (dns_configuration_copy (envFailAt k) storeSearch),
        (final (dns_configuration_copy (envFailAt k) storeSearch)).map
          fun w => (w.allocated.filter (· ∉ w.freed), w.liveAddrs)))
      = List.replicate 4 (some NULL, some ([9], [1, 2, 3, 4, 5, 6, 9])) := by
  decide!

/-- C9: after a successful `dns_configuration_copy` and `dns_configuration_free`
of the snapshot, the resolver record of the copy (address 8) is still
allocated: six blocks were allocated, five were freed. -/
theorem dns_configuration_free_leaks_record :
    (final ((dns_configuration_copy envZero >>= dns_configuration_free) storeOne)).map
      (fun w => (w.allocated, w.freed, w.liveAddrs))
      = some ([6, 7, 8, 9, 10, 11], [9, 11, 10, 7, 6], [1, 2, 3, 4, 5, 8]) := by
  decide!

/-- C10: on a store whose only nameserver record (address 4) carries the family
tag 0, when the fresh nameserver list of the copy holds the stale address 4,
`dns_configuration_copy` returns `NULL` after its rollback freed the store's
nameserver record, and the next `dns_configuration_copy` reads a freed block. -/
theorem dns_configuration_copy_rollback_frees_store_block :
    storeBadFamily.obj? 4 = some (.bytes [0, 0, 0, 53, 8, 8, 8, 8, 0, 0, 0, 0, 0, 0, 0, 0]) ∧
    returned (dns_configuration_copy envAlias storeBadFamily) = some NULL ∧
    (final (dns_configuration_copy envAlias storeBadFamily)).map (fun w => w.obj? 4) = some none ∧
    faulted ((dns_configuration_copy envAlias >>= fun _ => dns_configuration_copy envZero)
      storeBadFamily) = some (.useAfterFree 4) := by
  decide!

/-- C11: on a store with one resolver that has no sort rules, with every
allocation succeeding and fresh memory holding `0xdeadbeef`, the copy's
`sortaddr` is never assigned and `dns_configuration_free` of the first copy
passes it to `free`, so the round trip does not reach the second copy; when
the stale word is the address of the store's nameserver record (address 4),
the release frees that store block and the second copy reads freed memory. -/
theorem dns_configuration_roundtrip_releases_stale_sortaddr :
    (snapshotResolver (dns_configuration_copy envStale storeOne) 0).map
      (fun r => (r.n_sortaddr, r.sortaddr)) = some (0, 0xdeadbeef) ∧
    faulted ((dns_configuration_copy envStale >>= dns_configuration_free) storeOne)
      = some (.invalidFree 0xdeadbeef) ∧
    (final ((dns_configuration_copy (envWord 4) >>= dns_configuration_free) storeOne)).map
      (fun w => (w.allocated, w.freed, w.obj? 4)) =
      some ([6, 7, 8, 9, 10, 11], [9, 11, 10, 4, 7, 6], none) ∧
    faulted ((dns_configuration_copy (envWord 4) >>= fun c =>
      dns_configuration_free c >>= fun _ => dns_configuration_copy (envWord 4)) storeOne)
      = some (.useAfterFree 4) := by
  decide!

/-- C12: the release engine never dereferences a missing reference.
`dns_configuration_free` and `dns_resolver_free` on a null reference leave the
state as it is.  `DNS_FREE_LIST` on a null list reference leaves the state as
it is whatever the declared count, and so does `dns_resolver_free` on a record
whose five references are null.  In the loop of `DNS_FREE_LIST`, the turn of a
null element changes nothing and the loop goes on with the next element (the
two methods of the source, `free` and `dns_resolver_free`, do nothing on
`NULL`).  For a resolver's list whose non-null elements are distinct live
blocks, `DNS_FREE_LIST` with `free` returns having freed exactly the non-null
elements, in order, and then the list.

`dns_resolver_free` on a record each of whose lists is null (whatever its
count) or as long as declared, and whose strings, lists and non-null list
elements are distinct live blocks, returns having freed exactly those blocks
(`recordFrees`), leaves the record with its five references null and touches
no other block.

`dns_configuration_free` on a snapshot whose resolver list is null, whatever
`n_resolver` declares, returns having freed the snapshot block alone.  On a
snapshot whose resolver list has `n_resolver` elements, some of them null and
the others distinct records as above, it returns having freed, for each
non-null element in order, what `dns_resolver_free` releases for it, nothing
for a null element, then the list and the snapshot; every record is left with
its five references null and no other block is touched. -/
theorem release_tolerates_missing_references :
    (∀ w, dns_configuration_free NULL w = .ok ((), w)) ∧
    (∀ w, dns_resolver_free NULL w = .ok ((), w)) ∧
    (∀ (name : M Nat) (n_name : M Int) (clear : M Unit) (method : Nat → M Unit) (w : World),
      name w = .ok (NULL, w) → DNS_FREE_LIST name n_name clear method w = .ok ((), w)) ∧
    (∀ (p : Nat) (w : World) (r : dns_resolver_t), p ≠ NULL → w.resolver? p = some r →
      r.domain = NULL → r.nameserver = NULL → r.search = NULL → r.sortaddr = NULL →
      r.options = NULL → dns_resolver_free p w = .ok ((), w)) ∧
    (∀ w, free NULL w = .ok ((), w)) ∧
    (∀ (name : M Nat) (method : Nat → M Unit) (k i l : Nat) (w : World),
      name w = .ok (l, w) → load_slot l i w = .ok (NULL, w) →
      method NULL w = .ok ((), w) →
      DNS_FREE_LIST_loop name method (k + 1) i w
        = DNS_FREE_LIST_loop name method k (i + 1) w) ∧
    (∀ (item : Nat) (get : dns_resolver_t → Nat) (cnt : dns_resolver_t → Int)
      (set : dns_resolver_t → dns_resolver_t) (w : World) (r : dns_resolver_t)
      (ps : List Nat),
      item ≠ NULL → w.resolver? item = some r → get r ≠ NULL → get r ≠ item →
      w.slots? (get r) = some ps → cnt r = ps.length →
      (∀ q ∈ ps, q ≠ NULL →
        q ≠ item ∧ q ≠ get r ∧ ∃ b, w.heap q = some b ∧ b.live = true) →
      (ps.filter (· ≠ NULL)).Nodup →
      ∃ w', DNS_FREE_LIST (get <$> load_resolver item) (cnt <$> load_resolver item)
          (store_resolver item set) free w = .ok ((), w') ∧
        w'.freed = w.freed ++ ps.filter (· ≠ NULL) ++ [get r] ∧
        w'.resolver? item = some (set r)) ∧
    (∀ (w : World) (q : Nat) (r : dns_resolver_t), q ≠ NULL → w.resolver? q = some r →
      recordOk w r = true → (∀ p ∈ recordFrees w r, p ≠ q ∧ w.live p = true) →
      (recordFrees w r).Nodup →
      ∃ w', dns_resolver_free q w = .ok ((), w') ∧
        w'.freed = w.freed ++ recordFrees w r ∧
        w'.resolver? q = some r.released ∧
        ∀ p, p ∉ recordFrees w r → p ≠ q → w'.heap p = w.heap p) ∧
    (∀ (w : World) (c : Nat) (cfg : dns_config_t), c ≠ NULL → w.config? c = some cfg →
      cfg.resolver = NULL →
      ∃ w', dns_configuration_free c w = .ok ((), w') ∧ w'.freed = w.freed ++ [c] ∧
        ∀ p, p ≠ c → w'.heap p = w.heap p) ∧
    (∀ (w : World) (c : Nat) (cfg : dns_config_t) (rs : List Nat), c ≠ NULL →
      w.config? c = some cfg → cfg.resolver ≠ NULL → w.slots? cfg.resolver = some rs →
      cfg.n_resolver = rs.length →
      (∀ q ∈ rs, resolverOk w q = true) →
      (rs.filter (· ≠ NULL)).Nodup →
      (∀ q ∈ rs, q ≠ NULL → q ∉ rs.flatMap (resolverFrees w) ++ [cfg.resolver, c]) →
      (∀ p ∈ rs.flatMap (resolverFrees w), w.live p = true) →
      (rs.flatMap (resolverFrees w) ++ [cfg.resolver, c]).Nodup →
      ∃ w', dns_configuration_free c w = .ok ((), w') ∧
        w'.freed = w.freed ++ (rs.flatMap (resolverFrees w) ++ [cfg.resolver, c]) ∧
        (∀ q ∈ rs, q ≠ NULL →
          ∃ r, w.resolver? q = some r ∧ w'.resolver? q = some r.released) ∧
        ∀ p, p ∉ rs.flatMap (resolverFrees w) ++ [cfg.resolver, c] → p ∉ rs →
          w'.heap p = w.heap p) :=
  ⟨dns_configuration_free_null, dns_resolver_free_null,
    fun name n_name clear method w h => DNS_FREE_LIST_skip name n_name clear method w h,
    fun p w r hp hr h₁ h₂ h₃ h₄ h₅ => dns_resolver_free_all_null p w r hp hr h₁ h₂ h₃ h₄ h₅,
    free_null,
    fun name method k i l w hn he hm => DNS_FREE_LIST_loop_skip name method k i l w hn he hm,
    fun item get cnt set w r ps hi hr hg hgi hs hc hel hnd =>
      DNS_FREE_LIST_frees item get cnt set w r ps hi hr hg hgi hs hc hel hnd,
    fun w q r hq hr hok hel hnd => dns_resolver_free_releases w q r hq hr hok hel hnd,
    fun w c cfg hc hcfg hl => dns_configuration_free_null_list w c cfg hc hcfg hl,
    fun w c cfg rs hc hcfg hl hrs hn hrec hdist hsep hlive hnd =>
      dns_configuration_free_releases w c cfg rs hc hcfg hl hrs hn hrec hdist hsep hlive hnd⟩

/-- The release theorem applied to `storeHoles` and `snapshotHoles`.  In
`storeHoles` the null nameserver list of declared count 2 is left alone, and of
the search list `[NULL, 3, NULL]` exactly the string at address 3 and then the
list at address 2 are freed.  In `snapshotHoles`, the snapshot at address 11,
with a null list of declared count 3, is freed alone; for the snapshot at
address 1, whose list is `[NULL, 3, NULL, 7]`, `dns_configuration_free` frees
the string and the nameserver list of the record at address 3 (addresses 4, 6,
5), then the search list and the options of the record at address 7, whose
nameserver list is null with declared count 1 (addresses 9, 8, 10), then the
list and the snapshot (addresses 2 and 1); `dns_resolver_free` on the record at
address 7 alone frees addresses 9, 8 and 10 and, called again on the record it
left with null references, changes nothing; the first turn of the loop over
`[NULL, 3, NULL]` is skipped. -/
theorem release_tolerates_missing_references_witness :
    storeHoles.resolver? 1 = some recordHoles ∧
    recordHoles.nameserver = NULL ∧ recordHoles.n_nameserver = 2 ∧
    DNS_FREE_LIST ((·.nameserver) <$> load_resolver 1) ((·.n_nameserver) <$> load_resolver 1)
      (store_resolver 1 fun r => { r with nameserver := NULL }) free storeHoles
      = .ok ((), storeHoles) ∧
    storeHoles.slots? recordHoles.search = some [NULL, 3, NULL] ∧
    (∃ w', DNS_FREE_LIST ((·.search) <$> load_resolver 1) ((·.n_search) <$> load_resolver 1)
        (store_resolver 1 fun r => { r with search := NULL }) free storeHoles
        = .ok ((), w') ∧
      w'.freed = storeHoles.freed ++ [NULL, 3, NULL].filter (· ≠ NULL) ++ [recordHoles.search] ∧
      w'.resolver? 1 = some { recordHoles with search := NULL }) ∧
    snapshotHoles.resolver? 7 = some recordSecond ∧
    recordSecond.nameserver = NULL ∧ recordSecond.n_nameserver = 1 ∧
    snapshotHoles.slots? recordSecond.search = some [9, NULL] ∧
    (∃ w', dns_resolver_free 7 snapshotHoles = .ok ((), w') ∧ w'.freed = [9, 8, 10] ∧
      w'.resolver? 7 = some recordSecond.released ∧
      (∀ p, p ∉ [9, 8, 10] → p ≠ 7 → w'.heap p = snapshotHoles.heap p) ∧
      dns_resolver_free 7 w' = .ok ((), w')) ∧
    DNS_FREE_LIST_loop ((·.search) <$> load_resolver 1) free 3 0 storeHoles
      = DNS_FREE_LIST_loop ((·.search) <$> load_resolver 1) free 2 1 storeHoles ∧
    snapshotHoles.config? 11 = some { n_resolver := 3, resolver := NULL } ∧
    (∃ w', dns_configuration_free 11 snapshotHoles = .ok ((), w') ∧ w'.freed = [11] ∧
      ∀ p, p ≠ 11 → w'.heap p = snapshotHoles.heap p) ∧
    snapshotHoles.config? 1 = some { n_resolver := 4, resolver := 2 } ∧
    snapshotHoles.slots? 2 = some [NULL, 3, NULL, 7] ∧
    snapshotHoles.resolver? 3 = some recordFirst ∧
    snapshotHoles.slots? recordFirst.nameserver = some [NULL, 6] ∧
    (∃ w', dns_configuration_free 1 snapshotHoles = .ok ((), w') ∧
      w'.freed = [4, 6, 5, 9, 8, 10, 2, 1] ∧
      w'.resolver? 3 = some recordFirst.released ∧
      w'.resolver? 7 = some recordSecond.released ∧
      ∀ p, p ∉ [4, 6, 5, 9, 8, 10, 2, 1] → p ∉ [NULL, 3, NULL, 7] →
        w'.heap p = snapshotHoles.heap p) := by
  have hr : storeHoles.resolver? 1 = some recordHoles := by decide!
  have hs : storeHoles.slots? recordHoles.search = some [NULL, 3, NULL] := by decide!
  have hr7 : snapshotHoles.resolver? 7 = some recordSecond := by decide!
  have hr3 : snapshotHoles.resolver? 3 = some recordFirst := by decide!
  have hc11 : snapshotHoles.config? 11 = some { n_resolver := 3, resolver := NULL } := by
    decide!
  have hc1 : snapshotHoles.config? 1 = some { n_resolver := 4, resolver := 2 } := by decide!
  have hs2 : snapshotHoles.slots? 2 = some [NULL, 3, NULL, 7] := by decide!
  have hF7 : recordFrees snapshotHoles recordSecond = [9, 8, 10] := by decide!
  have hF : [NULL, 3, NULL, 7].flatMap (resolverFrees snapshotHoles) ++ [2, 1]
      = [4, 6, 5, 9, 8, 10, 2, 1] := by decide!
  have T := release_tolerates_missing_references
  refine ⟨hr, rfl, rfl, ?_, hs, ?_, hr7, rfl, rfl, by decide!, ?_, ?_, hc11, ?_, hc1, hs2, hr3,
    by decide!, ?_⟩
  · exact T.2.2.1 _ _ _ _ storeHoles
      (map_eq_of_ok (·.nameserver) _ _ _ _ (load_resolver_eq (by decide) hr))
  · refine T.2.2.2.2.2.2.1 1 (·.search) (·.n_search) (fun r => { r with search := NULL })
      storeHoles recordHoles [NULL, 3, NULL] (by decide) hr (by decide) (by decide) hs rfl
      ?_ (by decide)
    intro q hq hqn
    have hq3 : q = 3 := by
      simp only [List.mem_cons, List.mem_singleton, List.not_mem_nil, or_false] at hq
      rcases hq with h | h | h
      · exact absurd h hqn
      · exact h
      · exact absurd h hqn
    subst hq3
    exact ⟨by decide, by decide, ⟨4, true, .bytes str_lan⟩, rfl, rfl⟩
  · obtain ⟨w', h₁, h₂, h₃, h₄⟩ := T.2.2.2.2.2.2.2.1 snapshotHoles 7 recordSecond (by decide)
      hr7 (by decide!) (by decide!) (by decide!)
    rw [hF7] at h₂ h₄
    exact ⟨w', h₁, h₂, h₃, h₄,
      T.2.2.2.1 7 w' recordSecond.released (by decide) h₃ rfl rfl rfl rfl rfl⟩
  · exact T.2.2.2.2.2.1 ((·.search) <$> load_resolver 1) free 2 0 2 storeHoles
      (map_eq_of_ok (·.search) _ _ _ _ (load_resolver_eq (by decide) hr))
      (load_slot_eq (by decide) hs rfl) (free_null _)
  · obtain ⟨w', h₁, h₂, h₃⟩ := T.2.2.2.2.2.2.2.2.1 snapshotHoles 11 _ (by decide) hc11 rfl
    exact ⟨w', h₁, h₂, h₃⟩
  · obtain ⟨w', h₁, h₂, h₃, h₄⟩ := T.2.2.2.2.2.2.2.2.2 snapshotHoles 1
      { n_resolver := 4, resolver := 2 } [NULL, 3, NULL, 7] (by decide) hc1 (by decide) hs2 rfl
      (by decide!) (by decide) (by decide!) (by decide!) (by decide!)
    have h₂' : w'.freed = snapshotHoles.freed ++
        ([NULL, 3, NULL, 7].flatMap (resolverFrees snapshotHoles) ++ [2, 1]) := h₂
    have h₄' : ∀ p, p ∉ [NULL, 3, NULL, 7].flatMap (resolverFrees snapshotHoles) ++ [2, 1] →
        p ∉ [NULL, 3, NULL, 7] → w'.heap p = snapshotHoles.heap p := h₄
    rw [hF] at h₂' h₄'
    obtain ⟨r₃, e₃, f₃⟩ := h₃ 3 (by decide) (by decide)
    obtain ⟨r₇, e₇, f₇⟩ := h₃ 7 (by decide) (by decide)
    rw [hr3] at e₃
    rw [hr7] at e₇
    cases e₃
    cases e₇
    exact ⟨w', h₁, h₂', f₃, f₇, h₄'⟩

/-- C13: on the snapshot a successful `dns_configuration_copy` returned, the
second `dns_configuration_free` on the same reference reads the snapshot
block (address 6) that the first call freed. -/
theorem dns_configuration_free_twice_reads_freed_snapshot :
    returned (dns_configuration_copy envZero storeOne) = some 6 ∧
    returned ((dns_configuration_copy envZero >>= dns_configuration_free) storeOne)
      = some () ∧
    faulted ((dns_configuration_copy envZero >>= fun c =>
      dns_configuration_free c >>= fun _ => dns_configuration_free c) storeOne)
      = some (.useAfterFree 6) := by
  decide!

/-- C13, amended: once `dns_configuration_free` has returned for a non-null
snapshot reference, a further call with a null reference has no effect, and a
further call with the same reference does not return: it reads the snapshot
block the first call freed. -/
theorem dns_configuration_free_again (w : World) (config : Nat) (w' : World)
    (hc : config ≠ NULL) (h : dns_configuration_free config w = .ok ((), w')) :
    dns_configuration_free NULL w' = .ok ((), w') ∧
    dns_configuration_free config w' = .error (.useAfterFree config) := by
  refine ⟨dns_configuration_free_null w', ?_⟩
  unfold dns_configuration_free at h ⊢
  rw [if_pos hc] at h ⊢
  rw [bind_ok] at h
  obtain ⟨u, w₁, _, hf⟩ := h
  rcases free_ok _ _ _ _ hf with ⟨hn, _⟩ | ⟨_, b, hb, _, rfl⟩
  · exact absurd hn hc
  · apply bind_error
    unfold DNS_FREE_LIST
    apply bind_error
    apply map_error
    unfold load_config
    apply bind_error
    exact deref_dead _ _ { b with live := false } hc (by simp [World.log, World.put]) rfl

/-- The amended theorem applied to the snapshot of `storeOne`. -/
theorem dns_configuration_free_again_witness :
    ∃ w', (dns_configuration_copy envZero >>= dns_configuration_free) storeOne = .ok ((), w') ∧
      dns_configuration_free NULL w' = .ok ((), w') ∧
      dns_configuration_free 6 w' = .error (.useAfterFree 6) := by
  obtain ⟨w₁, h₁⟩ := ok_of_returned
    (by decide! : returned (dns_configuration_copy envZero storeOne) = some 6)
  obtain ⟨w₂, h₂⟩ := ok_of_returned
    (by decide! : returned ((dns_configuration_copy envZero >>= dns_configuration_free)
      storeOne) = some ())
  have h₃ : dns_configuration_free 6 w₁ = .ok ((), w₂) := by
    rw [bind_eq_of_ok _ _ _ _ _ h₁] at h₂
    exact h₂
  exact ⟨w₂, h₂, dns_configuration_free_again w₁ 6 w₂ (by decide) h₃⟩

/-- C14: for a store whose resolver has no domain, the `domain` and `sortaddr`
references of the returned snapshot hold the stale word of fresh memory: with
the word 6 they point to the store's own search-domain string (address 6),
which was not allocated during the call; with `0xdeadbeef` they point to no
block at all. -/
theorem dns_configuration_copy_reference_not_own_block :
    storeSearch.bytes? 6 = some str_example_com ∧
    (snapshotResolver (dns_configuration_copy (envWord 6) storeSearch) 0).map
      (fun r => (r.domain, r.sortaddr)) = some (6, 6) ∧
    (final (dns_configuration_copy (envWord 6) storeSearch)).map
      (fun w => (w.allocated, w.bytes? 6)) = some ([7, 8, 9, 10, 11, 12, 13], some str_example_com) ∧
    (snapshotResolver (dns_configuration_copy envStale storeSearch) 0).map
      (fun r => (r.domain, r.sortaddr)) = some (0xdeadbeef, 0xdeadbeef) ∧
    (final (dns_configuration_copy envStale storeSearch)).map
      (fun w => w.obj? 0xdeadbeef) = some none := by
  decide!

/-- C15: without `ANDROID`, `dns_configuration_init` leaves `n_resolver = 1`
with a null resolver list, and the next `dns_configuration_copy` dereferences
`NULL`; with `ANDROID`, the first assignment `resolver->nameserver = ...` lies
outside the pointer-sized block allocated for the record. -/
theorem dns_configuration_init_store_not_traversable :
    (final (dns_configuration_init buildPlain envZero processStart)).map (·.configuration)
      = some { n_resolver := 1, resolver := NULL } ∧
    faulted ((dns_configuration_init buildPlain envZero >>= fun _ =>
      dns_configuration_copy envZero) processStart) = some .nullDeref ∧
    faulted (dns_configuration_init buildAndroid envZero processStart)
      = some (.outOfBounds 2 offsetof_nameserver) := by
  decide!

/-- C16: when `dns_resolver_copy` stops at an unrecognized family tag, the
record it hands to `dns_resolver_free` has `search`, `sortaddr` and `options`
and slot 0 of its nameserver list still holding the stale word of fresh memory;
and when an allocation failure meets a record whose stale `domain` word is the
address of a store block (address 6), the rollback frees that block, which the
copy did not allocate. -/
theorem dns_resolver_copy_rollback_sees_stale_references :
    returned (dns_resolver_copy_until_rollback envStale 2 storeBadFamily) = some (6, false) ∧
    ((final (dns_resolver_copy_until_rollback envStale 2 storeBadFamily)).bind
      fun w => w.resolver? 6).map (fun r => (r.nameserver, r.search, r.sortaddr, r.options))
      = some (8, 0xdeadbeef, 0xdeadbeef, 0xdeadbeef) ∧
    ((final (dns_resolver_copy_until_rollback envStale 2 storeBadFamily)).bind
      fun w => w.slots? 8) = some [0xdeadbeef] ∧
    returned (dns_resolver_copy envFailAlias 2 storeSearch) = some NULL ∧
    (final (dns_resolver_copy envFailAlias 2 storeSearch)).map
      (fun w => (w.allocated, w.freed, w.obj? 6)) = some ([7], [6], none) := by
  decide!

/-- C17: every list the copy allocates is requested with `sizeof_ptr` bytes,
one slot: the four lists of a successful copy have 8 bytes each, and for a
store with two resolvers the assignment to `config->resolver[1]` lies outside
the block; the block the bootstrap allocates for the resolver record has 8
bytes, fewer than `sizeof_dns_resolver_t`. -/
theorem copy_and_bootstrap_allocation_sizes :
    (final (dns_configuration_copy envZero storeSort)).map World.allocatedSizes
      = some [some 16, some 8, some 72, some 4, some 8, some 16, some 8, some 12, some 8] ∧
    storeTwo.configuration.n_resolver = 2 ∧
    faulted (dns_configuration_copy envZero storeTwo) = some (.outOfBounds 8 1) ∧
    (final (dns_configuration_init buildPlain envZero processStart)).map World.allocatedSizes
      = some [some 8] ∧
    sizeof_ptr < sizeof_dns_resolver_t := by
  decide!

/-- C18: `dns_resolver_free` nulls what it frees and is idempotent.  For every
non-null resolver, when `dns_resolver_free` returns, the record is the record
it found with `domain`, `nameserver`, `search`, `sortaddr` and `options` null
and the counts, `port`, `timeout` and `search_order` unchanged; and a second
`dns_resolver_free` on the same resolver returns leaving the whole state, heap
and trace of frees included, as it was. -/
theorem dns_resolver_free_nulls_and_idempotent (w : World) (resolver : Nat) (w' : World)
    (hp : resolver ≠ NULL) (h : dns_resolver_free resolver w = .ok ((), w')) :
    ∃ r, w.resolver? resolver = some r ∧ w'.resolver? resolver = some r.released ∧
      r.released.domain = NULL ∧ r.released.nameserver = NULL ∧ r.released.search = NULL ∧
      r.released.sortaddr = NULL ∧ r.released.options = NULL ∧
      r.released.n_nameserver = r.n_nameserver ∧ r.released.n_search = r.n_search ∧
      r.released.n_sortaddr = r.n_sortaddr ∧ r.released.port = r.port ∧
      r.released.timeout = r.timeout ∧ r.released.search_order = r.search_order ∧
      dns_resolver_free resolver w' = .ok ((), w') := by
  unfold dns_resolver_free at h
  rw [if_pos hp] at h
  simp only [bind_ok] at h
  obtain ⟨u₁, w₁, h₁, u₂, w₂, h₂, u₃, w₃, h₃, u₄, w₄, h₄, h₅⟩ := h
  obtain ⟨r, hr, hr₁⟩ := DNS_FREE_PTR_resolver resolver (·.domain)
    (fun r => { r with domain := NULL })
    (fun r hr => by cases r; simp only at hr; subst hr; rfl) _ _ _ h₁
  obtain ⟨r₁, hr₁', hr₂⟩ := DNS_FREE_LIST_resolver resolver (·.nameserver) (·.n_nameserver)
    (fun r => { r with nameserver := NULL })
    (fun r hr => by cases r; simp only at hr; subst hr; rfl) _ _ _ h₂
  rw [hr₁] at hr₁'
  cases hr₁'
  obtain ⟨r₂, hr₂', hr₃⟩ := DNS_FREE_LIST_resolver resolver (·.search) (·.n_search)
    (fun r => { r with search := NULL })
    (fun r hr => by cases r; simp only at hr; subst hr; rfl) _ _ _ h₃
  rw [hr₂] at hr₂'
  cases hr₂'
  obtain ⟨r₃, hr₃', hr₄⟩ := DNS_FREE_LIST_resolver resolver (·.sortaddr) (·.n_sortaddr)
    (fun r => { r with sortaddr := NULL })
    (fun r hr => by cases r; simp only at hr; subst hr; rfl) _ _ _ h₄
  rw [hr₃] at hr₃'
  cases hr₃'
  obtain ⟨r₄, hr₄', hr₅⟩ := DNS_FREE_PTR_resolver resolver (·.options)
    (fun r => { r with options := NULL })
    (fun r hr => by cases r; simp only at hr; subst hr; rfl) _ _ _ h₅
  rw [hr₄] at hr₄'
  cases hr₄'
  have hfin : w'.resolver? resolver = some r.released := hr₅
  exact ⟨r, hr, hfin, rfl, rfl, rfl, rfl, rfl, rfl, rfl, rfl, rfl, rfl, rfl,
    dns_resolver_free_all_null _ _ _ hp hfin rfl rfl rfl rfl rfl⟩

/-- The idempotence theorem applied to the record of `storeHoles`, whose search
list holds the string at address 3 between two null entries. -/
theorem dns_resolver_free_nulls_and_idempotent_witness :
    ∃ w', dns_resolver_free 1 storeHoles = .ok ((), w') ∧ w'.freed = [3, 2] ∧
      ∃ r, storeHoles.resolver? 1 = some r ∧ w'.resolver? 1 = some r.released ∧
        r.released.domain = NULL ∧ r.released.nameserver = NULL ∧ r.released.search = NULL ∧
        r.released.sortaddr = NULL ∧ r.released.options = NULL ∧
        r.released.n_nameserver = r.n_nameserver ∧ r.released.n_search = r.n_search ∧
        r.released.n_sortaddr = r.n_sortaddr ∧ r.released.port = r.port ∧
        r.released.timeout = r.timeout ∧ r.released.search_order = r.search_order ∧
        dns_resolver_free 1 w' = .ok ((), w') := by
  obtain ⟨w', h⟩ := ok_of_returned
    (by decide! : returned (dns_resolver_free 1 storeHoles) = some ())
  have hf : (final (dns_resolver_free 1 storeHoles)).map World.freed = some [3, 2] := by
    decide!
  rw [h] at hf
  exact ⟨w', h, by simpa [final] using hf,
    dns_resolver_free_nulls_and_idempotent storeHoles 1 w' (by decide) h⟩

/-- C19: the store lock is balanced on every path, and the store is read only
while it is held.  `dns_configuration_copy` is `dns_configuration_copy_locked`
(lines 182-210) followed by `dns_configuration_copy_unlocked` (lines 211-215).
Every run that returns went through a state `w₁` in which the first part
returned, having appended to the trace the lock, then events that are neither
lock nor unlock (all reads of the global `configuration` are among these), then
the unlock as the last event: the whole of the first part lies between the lock
and the unlock.  The second part appended only `free` events: no lock, no
unlock, no read of the global `configuration`, no allocation.  And the second
part does not depend on the store: from a well-formed heap whose store list
holds `n_resolver` records, it runs to the same result in the state `w₁` with
the store erased (the global `configuration` zeroed and every block that
existed at entry removed), and ends in the final state with the store erased,
so no block of the store is read or written after the unlock. -/
theorem dns_configuration_copy_lock_balanced (env : Env) (w : World) (config : Nat)
    (w' : World) (h : dns_configuration_copy env w = .ok (config, w')) :
    dns_configuration_copy env
      = (dns_configuration_copy_locked env >>= dns_configuration_copy_unlocked) ∧
    ∃ r w₁ inside after,
      dns_configuration_copy_locked env w = .ok (r, w₁) ∧
      dns_configuration_copy_unlocked r w₁ = .ok (config, w') ∧
      w₁.trace = [Event.unlock] ++ inside ++ [Event.lock] ++ w.trace ∧
      w'.trace = after ++ [Event.unlock] ++ inside ++ [Event.lock] ++ w.trace ∧
      (∀ e ∈ inside, e ≠ Event.lock ∧ e ≠ Event.unlock) ∧
      (∀ e ∈ after, ∃ p, e = Event.free p) ∧
      (w.WF →
        (∀ i : Nat, (i : Int) < w.configuration.n_resolver →
          ∃ src, storeResolver w i = some src) →
        dns_configuration_copy_unlocked r (w₁.forget w.brk)
          = .ok (config, w'.forget w.brk)) := by
  refine ⟨dns_configuration_copy_split env, ?_⟩
  have h' := h
  rw [dns_configuration_copy_split, bind_ok] at h'
  obtain ⟨r, w₁, hlocked, hun⟩ := h'
  obtain ⟨inside, htr₁, hin⟩ := dns_configuration_copy_locked_trace env w r w₁ hlocked
  obtain ⟨after, htr₂, haf⟩ := dns_configuration_copy_unlocked_only_frees r _ _ _ hun
  refine ⟨r, w₁, inside, after, hlocked, hun, htr₁, ?_, ?_, ?_, ?_⟩
  · rw [htr₂, htr₁]
    simp
  · intro e he
    have := hin e he
    cases e <;> first | exact this.elim | exact ⟨by simp, by simp⟩
  · intro e he
    have := haf e he
    cases e <;> first | exact this.elim | exact ⟨_, rfl⟩
  · intro hwf hstore
    obtain ⟨cfg, s, f⟩ := r
    unfold dns_configuration_copy_unlocked at hun ⊢
    by_cases hsf : (!s || f) = true
    · simp only [hsf, if_true, bind_ok, pure_ok] at hun
      obtain ⟨u, w₂, hfree, rfl, rfl⟩ := hun
      simp only [hsf, if_true]
      by_cases hcn : cfg = NULL
      · subst hcn
        rw [dns_configuration_free_null] at hfree
        cases hfree
        rw [bind_eq_of_ok _ _ _ _ _ (dns_configuration_free_null _)]
        rfl
      · obtain ⟨hlt, cc, hcc, hshape⟩ := dns_configuration_copy_locked_failure env w hwf
          hstore cfg s f w₁ hlocked hcn hsf
        rw [bind_eq_of_ok _ _ _ _ _
          (dns_configuration_free_forget w₁ w.brk cfg cc hlt hcc hshape _ hfree)]
        rfl
    · simp only [hsf, if_false, pure_ok] at hun
      obtain ⟨rfl, rfl⟩ := hun
      simp only [hsf, if_false]
      rfl

/-- The lock theorem applied to three runs from well-formed stores whose list
holds the declared record: a successful copy, a copy with an allocation failure
at nameserver 0, and a copy meeting an unrecognized family tag (zero-filled
fresh memory).  In each, what follows the unlock runs to the same result with
the store erased. -/
theorem dns_configuration_copy_lock_balanced_witness :
    (∃ config w', dns_configuration_copy envZero storeOne = .ok (config, w') ∧
      config ≠ NULL ∧ ∃ r w₁ inside after,
        dns_configuration_copy_locked envZero storeOne = .ok (r, w₁) ∧
        dns_configuration_copy_unlocked r w₁ = .ok (config, w') ∧
        w₁.trace = [Event.unlock] ++ inside ++ [Event.lock] ++ storeOne.trace ∧
        w'.trace = after ++ [Event.unlock] ++ inside ++ [Event.lock] ++ storeOne.trace ∧
        (∀ e ∈ inside, e ≠ Event.lock ∧ e ≠ Event.unlock) ∧
        (∀ e ∈ after, ∃ p, e = Event.free p) ∧
        dns_configuration_copy_unlocked r (w₁.forget storeOne.brk)
          = .ok (config, w'.forget storeOne.brk)) ∧
    (∃ w', dns_configuration_copy (envFailAt 4) storeSearch = .ok (NULL, w') ∧
      w'.freed = [10, 8, 7] ∧ ∃ r w₁ inside after,
        dns_configuration_copy_locked (envFailAt 4) storeSearch = .ok (r, w₁) ∧
        dns_configuration_copy_unlocked r w₁ = .ok (NULL, w') ∧
        w₁.trace = [Event.unlock] ++ inside ++ [Event.lock] ++ storeSearch.trace ∧
        w'.trace = after ++ [Event.unlock] ++ inside ++ [Event.lock] ++ storeSearch.trace ∧
        (∀ e ∈ inside, e ≠ Event.lock ∧ e ≠ Event.unlock) ∧
        (∀ e ∈ after, ∃ p, e = Event.free p) ∧
        dns_configuration_copy_unlocked r (w₁.forget storeSearch.brk)
          = .ok (NULL, w'.forget storeSearch.brk)) ∧
    (∃ w', dns_configuration_copy envZero storeBadFamily = .ok (NULL, w') ∧
      ∃ r w₁ inside after,
        dns_configuration_copy_locked envZero storeBadFamily = .ok (r, w₁) ∧
        dns_configuration_copy_unlocked r w₁ = .ok (NULL, w') ∧
        w₁.trace = [Event.unlock] ++ inside ++ [Event.lock] ++ storeBadFamily.trace ∧
        w'.trace = after ++ [Event.unlock] ++ inside ++ [Event.lock] ++ storeBadFamily.trace ∧
        (∀ e ∈ inside, e ≠ Event.lock ∧ e ≠ Event.unlock) ∧
        (∀ e ∈ after, ∃ p, e = Event.free p) ∧
        dns_configuration_copy_unlocked r (w₁.forget storeBadFamily.brk)
          = .ok (NULL, w'.forget storeBadFamily.brk)) := by
  have one : ∀ (w : World), w.configuration.n_resolver = 1 →
      (∃ src, storeResolver w 0 = some src) →
      ∀ i : Nat, (i : Int) < w.configuration.n_resolver →
        ∃ src, storeResolver w i = some src := by
    intro w hn h0 i hi
    rw [hn] at hi
    have : i = 0 := by omega
    subst this
    exact h0
  have s₁ := one storeOne rfl ⟨srcOne, by decide!⟩
  have s₂ := one storeSearch rfl
    ((Option.isSome_iff_exists.1 (by decide! : (storeResolver storeSearch 0).isSome = true)))
  have s₃ := one storeBadFamily rfl
    ((Option.isSome_iff_exists.1 (by decide! : (storeResolver storeBadFamily 0).isSome = true)))
  obtain ⟨w₁, h₁⟩ := ok_of_returned
    (by decide! : returned (dns_configuration_copy envZero storeOne) = some 6)
  obtain ⟨w₂, h₂⟩ := ok_of_returned
    (by decide! : returned (dns_configuration_copy (envFailAt 4) storeSearch) = some NULL)
  obtain ⟨w₃, h₃⟩ := ok_of_returned
    (by decide! : returned (dns_configuration_copy envZero storeBadFamily) = some NULL)
  have hf₂ : (final (dns_configuration_copy (envFailAt 4) storeSearch)).map World.freed
      = some [10, 8, 7] := by decide!
  rw [h₂] at hf₂
  obtain ⟨_, r₁, v₁, i₁, a₁, c₁, c₂, c₃, c₄, c₅, c₆, c₇⟩ :=
    dns_configuration_copy_lock_balanced _ _ _ _ h₁
  obtain ⟨_, r₂, v₂, i₂, a₂, d₁, d₂, d₃, d₄, d₅, d₆, d₇⟩ :=
    dns_configuration_copy_lock_balanced _ _ _ _ h₂
  obtain ⟨_, r₃, v₃, i₃, a₃, g₁, g₂, g₃, g₄, g₅, g₆, g₇⟩ :=
    dns_configuration_copy_lock_balanced _ _ _ _ h₃
  exact ⟨⟨6, w₁, h₁, by decide, r₁, v₁, i₁, a₁, c₁, c₂, c₃, c₄, c₅, c₆,
      c₇ (World.ofBlocks_wf _ _) s₁⟩,
    ⟨w₂, h₂, by simpa [final] using hf₂, r₂, v₂, i₂, a₂, d₁, d₂, d₃, d₄, d₅, d₆,
      d₇ (World.ofBlocks_wf _ _) s₂⟩,
    ⟨w₃, h₃, r₃, v₃, i₃, a₃, g₁, g₂, g₃, g₄, g₅, g₆, g₇ (World.ofBlocks_wf _ _) s₃⟩⟩

end Resolv
